import Mathlib

/-!
# Multi-event batch wrapper of `src/_ext.cpp`

A shallow embedding of the batch builder `interfacemulti` and of the
`output_wrapper.to_numpy*` extraction lambdas, with the properties of the
written specification stated and proved (or refuted) against it.

Conventions of the embedding.

* `R` is the type of the C++ `double` values.  The wrapper only copies them, so
  `R` stays abstract.
* `CS` is the engine's `fj::ClusterSequence`.  The clustering engine is an
  external library: each engine query that a lambda calls is a function
  argument of the embedded lambda (a pure, total function of the cluster
  sequence and of the query's arguments).  The one exception is
  `constituents()` in `to_numpy_softdrop_grooming`: the lambda calls it on the
  result of the groomer, which can be the null jet, a jet without structure on
  which the engine throws; there the query returns a list or a fault.
* Numpy buffers allocated with a null data pointer are uninitialised: a cell is
  `none` until it is stored to.  A load or store outside a buffer, and a load
  of an uninitialised cell, is undefined behaviour in C++ and is the fault
  `Fault.out_of_bounds` here.
* Lengths, positions and offsets are natural numbers: the `int` / `size_t`
  arithmetic on them is taken not to overflow.  The one place where an integer
  conversion decides the control flow for small inputs, the argument of
  `particles.reserve` in `interfacemulti`, is modelled with its conversion; the
  other calls of `reserve` receive a non-negative `int` and cannot throw.
* `K` is the type of the rapidity values, the keys of the
  `std::unordered_map<double, int>`, and `==` on `K` is the comparison of the
  keys.  The embedding uses nothing else of `K`; a theorem that needs a law of
  `==` says so (`PartialEquivBEq`: symmetric and transitive, as `==` on
  `double` is; reflexivity fails for NaN and is a hypothesis where it is used).
-/

namespace Fastjet

/-! ## Data model -/

/-- The ways a call can leave the wrapper without a result. -/
inductive Fault where
  /-- `std::length_error`, thrown by `std::vector::reserve`. -/
  | length_error
  /-- The wrapper's own `throw "Jet Not in this ClusterSequence"`. -/
  | jet_not_found
  /-- A load or store outside a buffer (undefined behaviour in C++). -/
  | out_of_bounds
  /-- A call through a null `std::shared_ptr` (undefined behaviour in C++). -/
  | null_dereference
  /-- An integer division by zero (undefined behaviour in C++). -/
  | division_by_zero
  /-- An exception `fastjet::Error` thrown by an engine query. -/
  | engine_error
  deriving DecidableEq, Repr

/-- The `fj::PseudoJet` as the wrapper sees it: the four momentum components and
the link `hist` to the cluster sequence the jet belongs to, which only the
engine reads.  The four-argument constructor `PseudoJet(px, py, pz, E)` leaves
the link empty. -/
structure PseudoJet (R H : Type) where
  px : R
  py : R
  pz : R
  E : R
  hist : Option H
  deriving DecidableEq, Repr

/-- The four-argument constructor `fj::PseudoJet(px, py, pz, E)`. -/
def PseudoJet.ofMomentum {R H : Type} (px py pz E : R) : PseudoJet R H :=
  { px := px, py := py, pz := pz, E := E, hist := none }

/-- The class `output_wrapper`: one cluster sequence and one retained particle
list per event. -/
structure output_wrapper (CS R H : Type) where
  cse : List CS
  parts : List (List (PseudoJet R H))

/-- The limit `max_size()` of `std::vector<fj::PseudoJet>` on an LP64 platform:
it is at most `PTRDIFF_MAX` and every non-negative `int` is below it. -/
structure VectorLimits where
  max_size : Nat
  max_size_lt : max_size < 2 ^ 63
  int_max_lt : 2 ^ 31 ≤ max_size

/-! ## Integer conversions and `reserve` -/

/-- The `int` subtraction `*stopsptr - *startsptr` (two's complement, 32 bits). -/
def int_sub (a b : Int) : Int := Int.bmod (a - b) (2 ^ 32)

/-- The conversion of an `int` to `std::size_t` (64 bits). -/
def to_size_t (n : Int) : Nat := (n % 2 ^ 64).toNat

/-- The call `std::vector::reserve(n)`: it throws `std::length_error` when `n`
exceeds `max_size()` and has no other visible effect. -/
def reserve (lim : VectorLimits) (n : Nat) : Except Fault Unit :=
  if lim.max_size < n then .error .length_error else .ok ()

/-! ## The batch builder `interfacemulti` -/

/-- The inner loop of `interfacemulti`,
`for (int j = *startsptr; j < *stopsptr; j++)`, entered with `n` iterations to
go.  Each iteration builds a particle from the cells under the four running
pointers `pxptr`, `pyptr`, `pzptr`, `Eptr` (all at position `c`) and advances
them; the loop variable `j` is not used in the body. -/
def read_particles {R H : Type} (px py pz E : List R) :
    Nat → Nat → List (PseudoJet R H) → Except Fault (List (PseudoJet R H) × Nat)
  | 0, c, particles => .ok (particles, c)
  | n + 1, c, particles =>
    match px[c]?, py[c]?, pz[c]?, E[c]? with
    | some x, some y, some z, some e =>
      read_particles px py pz E n (c + 1) (particles ++ [PseudoJet.ofMomentum x y z e])
    | _, _, _, _ => .error .out_of_bounds

/-- The event loop of `interfacemulti`, `for (int i = 0; i < dimoff; i++)`, with
`startsptr` and `stopsptr` at the heads of the two lists and the four momentum
pointers at position `c`.  The result lists the pairs pushed to `ow.cse` and
`ow.parts`. -/
def build_events {R H JD CS : Type} (lim : VectorLimits)
    (cluster : List (PseudoJet R H) → JD → CS) (jetdef : JD) (px py pz E : List R) :
    List Int → List Int → Nat → Except Fault (List (CS × List (PseudoJet R H)))
  | [], _, _ => .ok []
  | _ :: _, [], _ => .error .out_of_bounds
  | start :: starts, stop :: stops, c =>
    match reserve lim (to_size_t (int_sub stop start)) with
    | .error f => .error f
    | .ok () =>
      match read_particles px py pz E (stop - start).toNat c [] with
      | .error f => .error f
      | .ok (particles, c') =>
        match build_events lim cluster jetdef px py pz E starts stops c' with
        | .error f => .error f
        | .ok rest => .ok ((cluster particles jetdef, particles) :: rest)

/-- The function `interfacemulti(pxi, pyi, pzi, Ei, starts, stops, jetdef)`.
`cluster` is the engine's constructor `ClusterSequence(particles, jet_def)`. -/
def interfacemulti {R H JD CS : Type} (lim : VectorLimits)
    (cluster : List (PseudoJet R H) → JD → CS)
    (px py pz E : List R) (starts stops : List Int) (jetdef : JD) :
    Except Fault (output_wrapper CS R H) :=
  match build_events lim cluster jetdef px py pz E starts stops 0 with
  | .error f => .error f
  | .ok events => .ok { cse := events.map Prod.fst, parts := events.map Prod.snd }

/-- The particle list the written contract assigns to an event: the particles of
the buffer indices `start, start + 1, ..., stop - 1`, where they exist. -/
def slice_particles {R H : Type} (px py pz E : List R) (start stop : Int) :
    List (PseudoJet R H) :=
  (List.range (stop - start).toNat).filterMap fun k =>
    match px[start.toNat + k]?, py[start.toNat + k]?, pz[start.toNat + k]?,
      E[start.toNat + k]? with
    | some x, some y, some z, some e => some (PseudoJet.ofMomentum x y z e)
    | _, _, _, _ => none

/-! ## Numpy buffers -/

/-- A one-dimensional numpy buffer: a cell is `none` until it is stored to. -/
abbrev Buffer (β : Type) := List (Option β)

/-- The allocation `py::array(py::buffer_info(nullptr, ..., {n}, ...))` of `n`
uninitialised cells. -/
def buf_alloc {β : Type} (n : Nat) : Buffer β := List.replicate n none

/-- The store `ptr[i] = v`. -/
def buf_store {β : Type} (b : Buffer β) (i : Nat) (v : β) : Except Fault (Buffer β) :=
  if i < b.length then .ok (b.set i (some v)) else .error .out_of_bounds

/-- The load `ptr[i]`. -/
def buf_load {β : Type} (b : Buffer β) (i : Nat) : Except Fault β :=
  match b[i]? with
  | some (some v) => .ok v
  | _ => .error .out_of_bounds

/-! ## Jet-list extraction: the loop of `to_numpy` and its copies -/

/-- The four value columns `px`, `py`, `pz`, `E` of a jet-list extraction. -/
structure JetColumns (R : Type) where
  px : Buffer R
  py : Buffer R
  pz : Buffer R
  E : Buffer R

/-- The inner loop `for (unsigned int j = 0; j < jets.size(); j++)` of `to_numpy`:
the four components of each jet are stored at position `idxe` of the four
columns and `idxe` is incremented. -/
def write_jets {R H : Type} :
    List (PseudoJet R H) → JetColumns R → Nat → Except Fault (JetColumns R × Nat)
  | [], cols, idxe => .ok (cols, idxe)
  | jet :: jets, cols, idxe => do
    let ptrpx ← buf_store cols.px idxe jet.px
    let ptrpy ← buf_store cols.py idxe jet.py
    let ptrpz ← buf_store cols.pz idxe jet.pz
    let ptrE ← buf_store cols.E idxe jet.E
    write_jets jets { px := ptrpx, py := ptrpy, pz := ptrpz, E := ptrE } (idxe + 1)

/-- The event loop `for (int i = 0; i < len; i++)` of `to_numpy`, over the
cluster sequences still to visit.  `query` is the engine call of the lambda
(`inclusive_jets(min_pt)` in `to_numpy`), `ptroff` the position of the offsets
pointer: after the jets of the event are written, the cell under `ptroff`
receives `jets.size() + *(ptroff - 1)`. -/
def jets_loop {R H C : Type} (query : C → List (PseudoJet R H)) :
    List C → JetColumns R → Nat → Buffer Nat → Nat →
      Except Fault (JetColumns R × Nat × Buffer Nat × Nat)
  | [], cols, idxe, off, ptroff => .ok (cols, idxe, off, ptroff)
  | cs :: css, cols, idxe, off, ptroff => do
    let jets := query cs
    let (cols, idxe) ← write_jets jets cols idxe
    let prev ← buf_load off (ptroff - 1)
    let off ← buf_store off ptroff (jets.length + prev)
    jets_loop query css cols idxe off (ptroff + 1)

/-- The body shared by the lambdas `to_numpy`, `to_numpy_exclusive_njet`,
`to_numpy_exclusive_njet_up_to`, `to_numpy_exclusive_dcut`,
`to_numpy_exclusive_ycut`, `to_numpy_unclustered_particles`,
`to_numpy_childless_pseudojets` and `to_numpy_jets`, which differ in the engine
query only; `css` is the copy `auto css = ow.cse`.  A first pass adds up the
sizes into `jk`, the four columns are allocated with `jk` cells and the offsets
with `len + 1` cells, `*ptroff = 0`, and the event loop fills them.  The result
is the tuple `(px, py, pz, E, off)`. -/
def jet_list_to_numpy {R H C : Type} (query : C → List (PseudoJet R H)) (css : List C) :
    Except Fault (Buffer R × Buffer R × Buffer R × Buffer R × Buffer Nat) := do
  let len := css.length
  let jk := css.foldl (fun jk cs => jk + (query cs).length) 0
  let cols : JetColumns R :=
    { px := buf_alloc jk, py := buf_alloc jk, pz := buf_alloc jk, E := buf_alloc jk }
  let off ← buf_store (buf_alloc (len + 1)) 0 0
  let (cols, _, off, _) ← jets_loop query css cols 0 off 1
  pure (cols.px, cols.py, cols.pz, cols.E, off)

/-- The lambda `to_numpy(ow, min_pt)`. -/
def to_numpy {R H CS : Type} (inclusive_jets : CS → R → List (PseudoJet R H))
    (ow : output_wrapper CS R H) (min_pt : R) :=
  jet_list_to_numpy (fun cs => inclusive_jets cs min_pt) ow.cse

/-- The lambda `to_numpy_exclusive_njet(ow, n_jets)`. -/
def to_numpy_exclusive_njet {R H CS : Type}
    (exclusive_jets : CS → Int → List (PseudoJet R H))
    (ow : output_wrapper CS R H) (n_jets : Int) :=
  jet_list_to_numpy (fun cs => exclusive_jets cs n_jets) ow.cse

/-- The lambda `to_numpy_exclusive_njet_up_to(ow, n_jets)`. -/
def to_numpy_exclusive_njet_up_to {R H CS : Type}
    (exclusive_jets_up_to : CS → Int → List (PseudoJet R H))
    (ow : output_wrapper CS R H) (n_jets : Int) :=
  jet_list_to_numpy (fun cs => exclusive_jets_up_to cs n_jets) ow.cse

/-- The lambda `to_numpy_exclusive_dcut(ow, dcut)`; `exclusive_jets` is the
overload of the engine query that takes a `double`. -/
def to_numpy_exclusive_dcut {R H CS : Type}
    (exclusive_jets : CS → R → List (PseudoJet R H))
    (ow : output_wrapper CS R H) (dcut : R) :=
  jet_list_to_numpy (fun cs => exclusive_jets cs dcut) ow.cse

/-- The lambda `to_numpy_exclusive_ycut(ow, ycut)`. -/
def to_numpy_exclusive_ycut {R H CS : Type}
    (exclusive_jets_ycut : CS → R → List (PseudoJet R H))
    (ow : output_wrapper CS R H) (ycut : R) :=
  jet_list_to_numpy (fun cs => exclusive_jets_ycut cs ycut) ow.cse

/-- The lambda `to_numpy_unclustered_particles(ow)`. -/
def to_numpy_unclustered_particles {R H CS : Type}
    (unclustered_particles : CS → List (PseudoJet R H)) (ow : output_wrapper CS R H) :=
  jet_list_to_numpy unclustered_particles ow.cse

/-- The lambda `to_numpy_childless_pseudojets(ow)`. -/
def to_numpy_childless_pseudojets {R H CS : Type}
    (childless_pseudojets : CS → List (PseudoJet R H)) (ow : output_wrapper CS R H) :=
  jet_list_to_numpy childless_pseudojets ow.cse

/-- The lambda `to_numpy_jets(ow)`. -/
def to_numpy_jets {R H CS : Type}
    (jets : CS → List (PseudoJet R H)) (ow : output_wrapper CS R H) :=
  jet_list_to_numpy jets ow.cse

/-- The inner loop `for (unsigned int j = 0; j < info.size(); j++)` of
`to_numpy_unique_history_order`: `ptrid[idxh] = info[j]; idxh++`. -/
def write_ids :
    List Int → Buffer Int → Nat → Except Fault (Buffer Int × Nat)
  | [], ptrid, idxh => .ok (ptrid, idxh)
  | id :: info, ptrid, idxh => do
    let ptrid ← buf_store ptrid idxh id
    write_ids info ptrid (idxh + 1)

/-- The event loop of `to_numpy_unique_history_order`: after the entries of the
event are written, `ptreventoffsets[eventidx] = info.size() + eventprev`,
`eventprev = ptreventoffsets[eventidx]` and `eventidx++`. -/
def history_loop {CS : Type} (unique_history_order : CS → List Int) :
    List CS → Buffer Int → Nat → Buffer Nat → Nat → Nat →
      Except Fault (Buffer Int × Nat × Buffer Nat × Nat × Nat)
  | [], ptrid, idxh, off, eventidx, eventprev => .ok (ptrid, idxh, off, eventidx, eventprev)
  | cs :: css, ptrid, idxh, off, eventidx, eventprev => do
    let info := unique_history_order cs
    let (ptrid, idxh) ← write_ids info ptrid idxh
    let off ← buf_store off eventidx (info.length + eventprev)
    let eventprev ← buf_load off eventidx
    history_loop unique_history_order css ptrid idxh off (eventidx + 1) eventprev

/-- The lambda `to_numpy_unique_history_order(ow)`, returning
`(parid, eventoffsets)`. -/
def to_numpy_unique_history_order {R H CS : Type}
    (unique_history_order : CS → List Int) (ow : output_wrapper CS R H) :
    Except Fault (Buffer Int × Buffer Nat) := do
  let css := ow.cse
  let len := css.length
  let jk := css.foldl (fun jk cs => jk + (unique_history_order cs).length) 0
  let parid : Buffer Int := buf_alloc jk
  let eventoffsets ← buf_store (buf_alloc (len + 1)) 0 0
  let (parid, _, eventoffsets, _, _) ←
    history_loop unique_history_order css parid 0 eventoffsets 1 0
  pure (parid, eventoffsets)

/-! ## Jet identity resolution -/

/-- The accessor `PseudoJet::rap()`.  The rapidity is a kinematic variable of the
four-momentum: `rapidity` is the engine's function of the four components, with
values in the key type `K` of the lookup table. -/
def PseudoJet.rap {R H K : Type} (rapidity : R → R → R → R → K) (jet : PseudoJet R H) : K :=
  rapidity jet.px jet.py jet.pz jet.E

/-- The call `umap.insert({key, val})` on a `std::unordered_map<double, int>`,
held as the list of its entries in insertion order: the entry is added unless
the table already has an entry whose key compares equal (`==`) to `key`. -/
def umap_insert {K : Type} [BEq K] (umap : List (K × Nat)) (key : K) (val : Nat) :
    List (K × Nat) :=
  if umap.any (fun entry => entry.1 == key) then umap else umap ++ [(key, val)]

/-- The call `umap.find(key)`: an entry whose key compares equal to `key`, or
`none` for `umap.end()`. -/
def umap_find {K : Type} [BEq K] (umap : List (K × Nat)) (key : K) : Option (K × Nat) :=
  umap.find? (fun entry => entry.1 == key)

/-- The loop `for (unsigned int j = 0; j < jets.size(); j++)
umap.insert({jets[j].rap(), j})`, entered at position `j`. -/
def fill_umap {R H K : Type} [BEq K] (rapidity : R → R → R → R → K) :
    List (PseudoJet R H) → Nat → List (K × Nat) → List (K × Nat)
  | [], _, umap => umap
  | jet :: jets, j, umap => fill_umap rapidity jets (j + 1) (umap_insert umap (jet.rap rapidity) j)

/-- The resolution of one event: the table is filled from the inclusive jets of
the event, the rapidity of the supplied jet is looked up, and the call throws
`"Jet Not in this ClusterSequence"` when there is no entry; otherwise the value
`got->second` of the entry is the index. -/
def resolve_jet {R H K : Type} [BEq K] (rapidity : R → R → R → R → K)
    (jets : List (PseudoJet R H)) (particle : PseudoJet R H) : Except Fault Nat :=
  match umap_find (fill_umap rapidity jets 0 []) (particle.rap rapidity) with
  | none => .error .jet_not_found
  | some got => .ok got.2

/-- The index loop `for (unsigned int i = 0; i < len; i++)` that eleven lambdas
share, entered at event `i` with the cluster sequences still to visit: event `i`
is resolved against `particles[i]` and its index is pushed to `indices`. -/
def resolve_indices {R H K CS : Type} [BEq K] [Zero R] (rapidity : R → R → R → R → K)
    (inclusive_jets : CS → R → List (PseudoJet R H)) (particles : List (PseudoJet R H)) :
    List CS → Nat → Except Fault (List Nat)
  | [], _ => .ok []
  | cs :: css, i =>
    match particles[i]? with
    | none => .error .out_of_bounds
    | some particle =>
      match resolve_jet rapidity (inclusive_jets cs 0) particle with
      | .error f => .error f
      | .ok index =>
        match resolve_indices rapidity inclusive_jets particles css (i + 1) with
        | .error f => .error f
        | .ok indices => .ok (index :: indices)

/-- The jets `incjets[indices[i]]` that the loops after the resolution work on,
one per event, paired with the cluster sequence of the event.  The source
evaluates `ow.cse[i]->inclusive_jets()` and the subscript inside each loop; the
engine queries are pure, so the embedding evaluates them once, ahead of the
loops. -/
def resolved_jets {R H CS : Type} [Zero R] (inclusive_jets : CS → R → List (PseudoJet R H)) :
    List CS → List Nat → Except Fault (List (CS × PseudoJet R H))
  | [], _ => .ok []
  | _ :: _, [] => .error .out_of_bounds
  | cs :: css, index :: indices =>
    match (inclusive_jets cs 0)[index]? with
    | none => .error .out_of_bounds
    | some jet =>
      match resolved_jets inclusive_jets css indices with
      | .error f => .error f
      | .ok rest => .ok ((cs, jet) :: rest)

/-- The opening shared by the eleven lambdas that take a jet per event: the
supplied buffers are turned into `particles` (a loop of `dimpx` iterations over
the four running pointers), the index loop resolves every event, and the
resolved jets are picked. -/
def resolve_all {R H K CS : Type} [BEq K] [Zero R] (rapidity : R → R → R → R → K)
    (inclusive_jets : CS → R → List (PseudoJet R H)) (ow : output_wrapper CS R H)
    (px py pz E : List R) : Except Fault (List (CS × PseudoJet R H)) := do
  let (particles, _) ← read_particles px py pz E px.length 0 []
  let indices ← resolve_indices rapidity inclusive_jets particles ow.cse 0
  resolved_jets inclusive_jets ow.cse indices

/-- The lambda `to_numpy_exclusive_subjets_dcut(ow, pxi, pyi, pzi, Ei, dcut)`. -/
def to_numpy_exclusive_subjets_dcut {R H K CS : Type} [BEq K] [Zero R]
    (rapidity : R → R → R → R → K) (inclusive_jets : CS → R → List (PseudoJet R H))
    (exclusive_subjets : CS → PseudoJet R H → R → List (PseudoJet R H))
    (ow : output_wrapper CS R H) (px py pz E : List R) (dcut : R) :
    Except Fault (Buffer R × Buffer R × Buffer R × Buffer R × Buffer Nat) := do
  let targets ← resolve_all rapidity inclusive_jets ow px py pz E
  jet_list_to_numpy (fun target => exclusive_subjets target.1 target.2 dcut) targets

/-- The lambda `to_numpy_exclusive_subjets_nsub(ow, pxi, pyi, pzi, Ei, nsub)`;
`exclusive_subjets` is the overload of the engine query that takes an `int`. -/
def to_numpy_exclusive_subjets_nsub {R H K CS : Type} [BEq K] [Zero R]
    (rapidity : R → R → R → R → K) (inclusive_jets : CS → R → List (PseudoJet R H))
    (exclusive_subjets : CS → PseudoJet R H → Int → List (PseudoJet R H))
    (ow : output_wrapper CS R H) (px py pz E : List R) (nsub : Int) :
    Except Fault (Buffer R × Buffer R × Buffer R × Buffer R × Buffer Nat) := do
  let targets ← resolve_all rapidity inclusive_jets ow px py pz E
  jet_list_to_numpy (fun target => exclusive_subjets target.1 target.2 nsub) targets

/-- The lambda `to_numpy_exclusive_subjets_up_to(ow, pxi, pyi, pzi, Ei, nsub)`. -/
def to_numpy_exclusive_subjets_up_to {R H K CS : Type} [BEq K] [Zero R]
    (rapidity : R → R → R → R → K) (inclusive_jets : CS → R → List (PseudoJet R H))
    (exclusive_subjets_up_to : CS → PseudoJet R H → Int → List (PseudoJet R H))
    (ow : output_wrapper CS R H) (px py pz E : List R) (nsub : Int) :
    Except Fault (Buffer R × Buffer R × Buffer R × Buffer R × Buffer Nat) := do
  let targets ← resolve_all rapidity inclusive_jets ow px py pz E
  jet_list_to_numpy (fun target => exclusive_subjets_up_to target.1 target.2 nsub) targets

/-- The event loop of the lambdas that return one value per event:
`ptrpx[idxe] = value; idxe++; *ptroff = 1 + *(ptroff - 1); ptroff++`. -/
def scalar_loop {C V : Type} (value : C → V) :
    List C → Buffer V → Nat → Buffer Nat → Nat →
      Except Fault (Buffer V × Nat × Buffer Nat × Nat)
  | [], out_value, idxe, off, ptroff => .ok (out_value, idxe, off, ptroff)
  | target :: targets, out_value, idxe, off, ptroff => do
    let out_value ← buf_store out_value idxe (value target)
    let prev ← buf_load off (ptroff - 1)
    let off ← buf_store off ptroff (1 + prev)
    scalar_loop value targets out_value (idxe + 1) off (ptroff + 1)

/-- The part after the resolution shared by `to_numpy_exclusive_subdmerge`,
`to_numpy_exclusive_subdmerge_max`, `to_numpy_n_exclusive_subjets`,
`to_numpy_has_parents`, `to_numpy_has_child` and
`to_numpy_jet_scale_for_algorithm`: `out_value` is allocated with `dimpy` cells
(the length of the supplied `py` buffer), `off` with `len + 1` cells,
`*ptroff = 0`, and the event loop fills them.  The result is
`(out_value, off)`. -/
def resolved_scalar_to_numpy {C V : Type} (value : C → V) (targets : List C) (dimpy : Nat) :
    Except Fault (Buffer V × Buffer Nat) := do
  let len := targets.length
  let out_value : Buffer V := buf_alloc dimpy
  let off ← buf_store (buf_alloc (len + 1)) 0 0
  let (out_value, _, off, _) ← scalar_loop value targets out_value 0 off 1
  pure (out_value, off)

/-- The lambda `to_numpy_exclusive_subdmerge(ow, pxi, pyi, pzi, Ei, nsub)`. -/
def to_numpy_exclusive_subdmerge {R H K CS : Type} [BEq K] [Zero R]
    (rapidity : R → R → R → R → K) (inclusive_jets : CS → R → List (PseudoJet R H))
    (exclusive_subdmerge : CS → PseudoJet R H → Int → R)
    (ow : output_wrapper CS R H) (px py pz E : List R) (nsub : Int) :
    Except Fault (Buffer R × Buffer Nat) := do
  let targets ← resolve_all rapidity inclusive_jets ow px py pz E
  resolved_scalar_to_numpy (fun target => exclusive_subdmerge target.1 target.2 nsub)
    targets py.length

/-- The lambda `to_numpy_exclusive_subdmerge_max(ow, pxi, pyi, pzi, Ei, nsub)`. -/
def to_numpy_exclusive_subdmerge_max {R H K CS : Type} [BEq K] [Zero R]
    (rapidity : R → R → R → R → K) (inclusive_jets : CS → R → List (PseudoJet R H))
    (exclusive_subdmerge_max : CS → PseudoJet R H → Int → R)
    (ow : output_wrapper CS R H) (px py pz E : List R) (nsub : Int) :
    Except Fault (Buffer R × Buffer Nat) := do
  let targets ← resolve_all rapidity inclusive_jets ow px py pz E
  resolved_scalar_to_numpy (fun target => exclusive_subdmerge_max target.1 target.2 nsub)
    targets py.length

/-- The lambda `to_numpy_n_exclusive_subjets(ow, pxi, pyi, pzi, Ei, dcut)`. -/
def to_numpy_n_exclusive_subjets {R H K CS : Type} [BEq K] [Zero R]
    (rapidity : R → R → R → R → K) (inclusive_jets : CS → R → List (PseudoJet R H))
    (n_exclusive_subjets : CS → PseudoJet R H → R → Int)
    (ow : output_wrapper CS R H) (px py pz E : List R) (dcut : R) :
    Except Fault (Buffer Int × Buffer Nat) := do
  let targets ← resolve_all rapidity inclusive_jets ow px py pz E
  resolved_scalar_to_numpy (fun target => n_exclusive_subjets target.1 target.2 dcut)
    targets py.length

/-- The lambda `to_numpy_has_parents(ow, pxi, pyi, pzi, Ei)`.  The engine call
`has_parents(jet, pj1, pj2)` returns its flag together with the two jets it
leaves in `pj1` and `pj2`. -/
def to_numpy_has_parents {R H K CS : Type} [BEq K] [Zero R]
    (rapidity : R → R → R → R → K) (inclusive_jets : CS → R → List (PseudoJet R H))
    (has_parents : CS → PseudoJet R H → Bool × PseudoJet R H × PseudoJet R H)
    (ow : output_wrapper CS R H) (px py pz E : List R) :
    Except Fault (Buffer Bool × Buffer Nat) := do
  let targets ← resolve_all rapidity inclusive_jets ow px py pz E
  resolved_scalar_to_numpy (fun target => (has_parents target.1 target.2).1)
    targets py.length

/-- The lambda `to_numpy_has_child(ow, pxi, pyi, pzi, Ei)`.  The engine call
`has_child(jet, pj1)` returns its flag together with the jet it leaves in
`pj1`. -/
def to_numpy_has_child {R H K CS : Type} [BEq K] [Zero R]
    (rapidity : R → R → R → R → K) (inclusive_jets : CS → R → List (PseudoJet R H))
    (has_child : CS → PseudoJet R H → Bool × PseudoJet R H)
    (ow : output_wrapper CS R H) (px py pz E : List R) :
    Except Fault (Buffer Bool × Buffer Nat) := do
  let targets ← resolve_all rapidity inclusive_jets ow px py pz E
  resolved_scalar_to_numpy (fun target => (has_child target.1 target.2).1)
    targets py.length

/-- The lambda `to_numpy_jet_scale_for_algorithm(ow, pxi, pyi, pzi, Ei)`. -/
def to_numpy_jet_scale_for_algorithm {R H K CS : Type} [BEq K] [Zero R]
    (rapidity : R → R → R → R → K) (inclusive_jets : CS → R → List (PseudoJet R H))
    (jet_scale_for_algorithm : CS → PseudoJet R H → R)
    (ow : output_wrapper CS R H) (px py pz E : List R) :
    Except Fault (Buffer R × Buffer Nat) := do
  let targets ← resolve_all rapidity inclusive_jets ow px py pz E
  resolved_scalar_to_numpy (fun target => jet_scale_for_algorithm target.1 target.2)
    targets py.length

/-- The event loop of `to_numpy_get_parents` and `to_numpy_get_child`.  `relatives`
gives the engine's flag and the jets it leaves in the output arguments (two
parents, or one child).  When the flag is set the jets are written at `idxe`
and `*ptroff = n + *(ptroff - 1)` with `n` the literal `2` (parents) or `1`
(child); otherwise `*ptroff = *(ptroff - 1)`. -/
def relatives_loop {R H C : Type} (relatives : C → Bool × List (PseudoJet R H)) (n : Nat) :
    List C → JetColumns R → Nat → Buffer Nat → Nat →
      Except Fault (JetColumns R × Nat × Buffer Nat × Nat)
  | [], cols, idxe, off, ptroff => .ok (cols, idxe, off, ptroff)
  | target :: targets, cols, idxe, off, ptroff => do
    let (value, found) := relatives target
    if value = true then
      let (cols, idxe) ← write_jets found cols idxe
      let prev ← buf_load off (ptroff - 1)
      let off ← buf_store off ptroff (n + prev)
      relatives_loop relatives n targets cols idxe off (ptroff + 1)
    else
      let prev ← buf_load off (ptroff - 1)
      let off ← buf_store off ptroff prev
      relatives_loop relatives n targets cols idxe off (ptroff + 1)

/-- The part after the resolution shared by `to_numpy_get_parents` (`n = 2`) and
`to_numpy_get_child` (`n = 1`): the first pass adds `n` to `jk` for every event
whose flag is set, the columns are allocated with `jk` cells, the offsets with
`len + 1` cells, `*ptroff = 0`, and the event loop fills them. -/
def relatives_to_numpy {R H C : Type} (relatives : C → Bool × List (PseudoJet R H)) (n : Nat)
    (targets : List C) :
    Except Fault (Buffer R × Buffer R × Buffer R × Buffer R × Buffer Nat) := do
  let len := targets.length
  let jk := targets.foldl
    (fun jk target => if (relatives target).1 = true then jk + n else jk) 0
  let cols : JetColumns R :=
    { px := buf_alloc jk, py := buf_alloc jk, pz := buf_alloc jk, E := buf_alloc jk }
  let off ← buf_store (buf_alloc (len + 1)) 0 0
  let (cols, _, off, _) ← relatives_loop relatives n targets cols 0 off 1
  pure (cols.px, cols.py, cols.pz, cols.E, off)

/-- The lambda `to_numpy_get_parents(ow, pxi, pyi, pzi, Ei)`. -/
def to_numpy_get_parents {R H K CS : Type} [BEq K] [Zero R]
    (rapidity : R → R → R → R → K) (inclusive_jets : CS → R → List (PseudoJet R H))
    (has_parents : CS → PseudoJet R H → Bool × PseudoJet R H × PseudoJet R H)
    (ow : output_wrapper CS R H) (px py pz E : List R) :
    Except Fault (Buffer R × Buffer R × Buffer R × Buffer R × Buffer Nat) := do
  let targets ← resolve_all rapidity inclusive_jets ow px py pz E
  relatives_to_numpy
    (fun target =>
      let (value, pj1, pj2) := has_parents target.1 target.2
      (value, [pj1, pj2]))
    2 targets

/-- The lambda `to_numpy_get_child(ow, pxi, pyi, pzi, Ei)`. -/
def to_numpy_get_child {R H K CS : Type} [BEq K] [Zero R]
    (rapidity : R → R → R → R → K) (inclusive_jets : CS → R → List (PseudoJet R H))
    (has_child : CS → PseudoJet R H → Bool × PseudoJet R H)
    (ow : output_wrapper CS R H) (px py pz E : List R) :
    Except Fault (Buffer R × Buffer R × Buffer R × Buffer R × Buffer Nat) := do
  let targets ← resolve_all rapidity inclusive_jets ow px py pz E
  relatives_to_numpy
    (fun target =>
      let (value, pj1) := has_child target.1 target.2
      (value, [pj1]))
    1 targets

/-! ## One value per event: `to_numpy_exclusive_dmerge` and its copies -/

/-- The event loop of the lambdas that return one engine value per event without
a supplied jet: `ptrid[idxh] = value; idxh++;
ptreventoffsets[eventidx] = 1 + eventprev; eventprev = ptreventoffsets[eventidx];
eventidx++`. -/
def event_scalar_loop {CS V : Type} (value : CS → V) :
    List CS → Buffer V → Nat → Buffer Nat → Nat → Nat →
      Except Fault (Buffer V × Nat × Buffer Nat × Nat × Nat)
  | [], parid, idxh, eventoffsets, eventidx, eventprev =>
    .ok (parid, idxh, eventoffsets, eventidx, eventprev)
  | cs :: css, parid, idxh, eventoffsets, eventidx, eventprev => do
    let parid ← buf_store parid idxh (value cs)
    let eventoffsets ← buf_store eventoffsets eventidx (1 + eventprev)
    let eventprev ← buf_load eventoffsets eventidx
    event_scalar_loop value css parid (idxh + 1) eventoffsets (eventidx + 1) eventprev

/-- The body shared by `to_numpy_exclusive_dmerge`, `to_numpy_exclusive_dmerge_max`,
`to_numpy_exclusive_ymerge`, `to_numpy_exclusive_ymerge_max`, `to_numpy_q`,
`to_numpy_q2`, `to_numpy_n_particles` and `to_numpy_n_exclusive_jets`, which
differ in the engine query only: `parid` and `eventoffsets` are both allocated
with `len` cells, `eventidx`, `idxh` and `eventprev` start at `0`, and the event
loop fills them.  The result is `(parid, eventoffsets)`. -/
def event_scalar_to_numpy {CS V : Type} (value : CS → V) (css : List CS) :
    Except Fault (Buffer V × Buffer Nat) := do
  let len := css.length
  let parid : Buffer V := buf_alloc len
  let eventoffsets : Buffer Nat := buf_alloc len
  let (parid, _, eventoffsets, _, _) ← event_scalar_loop value css parid 0 eventoffsets 0 0
  pure (parid, eventoffsets)

/-- The lambda `to_numpy_exclusive_dmerge(ow, njets)`. -/
def to_numpy_exclusive_dmerge {R H CS : Type} (exclusive_dmerge : CS → Int → R)
    (ow : output_wrapper CS R H) (njets : Int) :=
  event_scalar_to_numpy (fun cs => exclusive_dmerge cs njets) ow.cse

/-- The lambda `to_numpy_exclusive_dmerge_max(ow, njets)`. -/
def to_numpy_exclusive_dmerge_max {R H CS : Type} (exclusive_dmerge_max : CS → Int → R)
    (ow : output_wrapper CS R H) (njets : Int) :=
  event_scalar_to_numpy (fun cs => exclusive_dmerge_max cs njets) ow.cse

/-- The lambda `to_numpy_exclusive_ymerge_max(ow, njets)`. -/
def to_numpy_exclusive_ymerge_max {R H CS : Type} (exclusive_ymerge_max : CS → Int → R)
    (ow : output_wrapper CS R H) (njets : Int) :=
  event_scalar_to_numpy (fun cs => exclusive_ymerge_max cs njets) ow.cse

/-- The lambda `to_numpy_exclusive_ymerge(ow, njets)`. -/
def to_numpy_exclusive_ymerge {R H CS : Type} (exclusive_ymerge : CS → Int → R)
    (ow : output_wrapper CS R H) (njets : Int) :=
  event_scalar_to_numpy (fun cs => exclusive_ymerge cs njets) ow.cse

/-- The lambda `to_numpy_q(ow)`; `Q` is the engine query `Q()`. -/
def to_numpy_q {R H CS : Type} (Q : CS → R) (ow : output_wrapper CS R H) :=
  event_scalar_to_numpy Q ow.cse

/-- The lambda `to_numpy_q2(ow)`; `Q2` is the engine query `Q2()`. -/
def to_numpy_q2 {R H CS : Type} (Q2 : CS → R) (ow : output_wrapper CS R H) :=
  event_scalar_to_numpy Q2 ow.cse

/-- The lambda `to_numpy_n_particles(ow)`. -/
def to_numpy_n_particles {R H CS : Type} (n_particles : CS → Nat)
    (ow : output_wrapper CS R H) :=
  event_scalar_to_numpy n_particles ow.cse

/-- The lambda `to_numpy_n_exclusive_jets(ow, dcut)`. -/
def to_numpy_n_exclusive_jets {R H CS : Type} (n_exclusive_jets : CS → R → Int)
    (ow : output_wrapper CS R H) (dcut : R) :=
  event_scalar_to_numpy (fun cs => n_exclusive_jets cs dcut) ow.cse

/-! ## Constituent indices: `to_numpy_with_constituents` and its copy -/

/-- The loop `for (unsigned int j = 0; j < jets.size(); j++)` that fills the jet
offsets of one event: `ptrjetoffsets[jetidx] = jets[j].constituents().size() + prev;
prev = ptrjetoffsets[jetidx]; jetidx++`. -/
def jetoffsets_loop {R H : Type} (constituents : PseudoJet R H → List (PseudoJet R H)) :
    List (PseudoJet R H) → Buffer Nat → Nat → Nat → Except Fault (Buffer Nat × Nat × Nat)
  | [], jetoffsets, jetidx, prev => .ok (jetoffsets, jetidx, prev)
  | jet :: jets, jetoffsets, jetidx, prev => do
    let jetoffsets ← buf_store jetoffsets jetidx ((constituents jet).length + prev)
    let prev ← buf_load jetoffsets jetidx
    jetoffsets_loop constituents jets jetoffsets (jetidx + 1) prev

/-- The loop over the particles of an event for one jet index `k`,
`for (int j = 0; j < sizz; j++) if (idx[j] == k) { ptrid[idxh] = j; idxh++; }`,
over the positions `j` still to visit. -/
def write_matches (idx : List Int) (k : Nat) :
    List Nat → Buffer Nat → Nat → Except Fault (Buffer Nat × Nat)
  | [], ptrid, idxh => .ok (ptrid, idxh)
  | j :: js, ptrid, idxh =>
    match idx[j]? with
    | none => .error .out_of_bounds
    | some jet_index =>
      if jet_index = (k : Int) then do
        let ptrid ← buf_store ptrid idxh j
        write_matches idx k js ptrid (idxh + 1)
      else
        write_matches idx k js ptrid idxh

/-- The loop over the jet indices of an event, `for (int k = 0; k < size; k++)`,
over the indices `k` still to visit; `sizz` is the number of particles of the
event. -/
def write_groups (idx : List Int) (sizz : Nat) :
    List Nat → Buffer Nat → Nat → Except Fault (Buffer Nat × Nat)
  | [], ptrid, idxh => .ok (ptrid, idxh)
  | k :: ks, ptrid, idxh => do
    let (ptrid, idxh) ← write_matches idx k (List.range sizz) ptrid idxh
    write_groups idx sizz ks ptrid idxh

/-- The event loop of `to_numpy_with_constituents` and
`to_numpy_exclusive_njet_with_constituents`.  For each event: the jets, their
number `size`, the engine's `particle_jet_indices(jets)` and `n_particles()`;
`prev = ptrjetoffsets[jetidx - 1]`; the jet offsets of the event; the particle
positions, jet index by jet index; and
`ptreventoffsets[eventidx] = jets.size() + eventprev`. -/
def constituents_loop {R H CS : Type} (query : CS → List (PseudoJet R H))
    (particle_jet_indices : CS → List (PseudoJet R H) → List Int) (n_particles : CS → Nat)
    (constituents : PseudoJet R H → List (PseudoJet R H)) :
    List CS → Buffer Nat → Nat → Buffer Nat → Nat → Buffer Nat → Nat → Nat →
      Except Fault (Buffer Nat × Buffer Nat × Buffer Nat)
  | [], jetoffsets, _, parid, _, eventoffsets, _, _ => .ok (jetoffsets, parid, eventoffsets)
  | cs :: css, jetoffsets, jetidx, parid, idxh, eventoffsets, eventidx, eventprev => do
    let jets := query cs
    let size := (query cs).length
    let idx := particle_jet_indices cs jets
    let sizz := n_particles cs
    let prev ← buf_load jetoffsets (jetidx - 1)
    let (jetoffsets, jetidx, _) ← jetoffsets_loop constituents jets jetoffsets jetidx prev
    let (parid, idxh) ← write_groups idx sizz (List.range size) parid idxh
    let eventoffsets ← buf_store eventoffsets eventidx (jets.length + eventprev)
    let eventprev ← buf_load eventoffsets eventidx
    constituents_loop query particle_jet_indices n_particles constituents css
      jetoffsets jetidx parid idxh eventoffsets (eventidx + 1) eventprev

/-- The body shared by `to_numpy_with_constituents` and
`to_numpy_exclusive_njet_with_constituents`, which differ in the engine query
only.  A first pass adds the jet counts into `jk` and the particle counts into
`sizepar`, and `jk++`; `parid` is allocated with `sizepar` cells, `eventoffsets`
with `len + 1` cells and `jetoffsets` with `jk` cells; the first cell of both
offsets buffers is set to `0`; the event loop fills the three buffers.  The
result is `(jetoffsets, parid, eventoffsets)`. -/
def constituents_to_numpy {R H CS : Type} (query : CS → List (PseudoJet R H))
    (particle_jet_indices : CS → List (PseudoJet R H) → List Int) (n_particles : CS → Nat)
    (constituents : PseudoJet R H → List (PseudoJet R H)) (css : List CS) :
    Except Fault (Buffer Nat × Buffer Nat × Buffer Nat) := do
  let len := css.length
  let jk := css.foldl (fun jk cs => jk + (query cs).length) 0
  let sizepar := css.foldl (fun sizepar cs => sizepar + n_particles cs) 0
  let jk := jk + 1
  let parid : Buffer Nat := buf_alloc sizepar
  let eventoffsets ← buf_store (buf_alloc (len + 1)) 0 0
  let jetoffsets ← buf_store (buf_alloc jk) 0 0
  constituents_loop query particle_jet_indices n_particles constituents css
    jetoffsets 1 parid 0 eventoffsets 1 0

/-- The lambda `to_numpy_with_constituents(ow, min_pt)`. -/
def to_numpy_with_constituents {R H CS : Type}
    (inclusive_jets : CS → R → List (PseudoJet R H))
    (particle_jet_indices : CS → List (PseudoJet R H) → List Int) (n_particles : CS → Nat)
    (constituents : PseudoJet R H → List (PseudoJet R H))
    (ow : output_wrapper CS R H) (min_pt : R) :=
  constituents_to_numpy (fun cs => inclusive_jets cs min_pt) particle_jet_indices n_particles
    constituents ow.cse

/-- The lambda `to_numpy_exclusive_njet_with_constituents(ow, n_jets)`. -/
def to_numpy_exclusive_njet_with_constituents {R H CS : Type}
    (exclusive_jets : CS → Int → List (PseudoJet R H))
    (particle_jet_indices : CS → List (PseudoJet R H) → List Int) (n_particles : CS → Nat)
    (constituents : PseudoJet R H → List (PseudoJet R H))
    (ow : output_wrapper CS R H) (n_jets : Int) :=
  constituents_to_numpy (fun cs => exclusive_jets cs n_jets) particle_jet_indices n_particles
    constituents ow.cse

/-! ## Lund declusterings: `to_numpy_exclusive_njet_lund_declusterings` -/

/-- The loop `for (unsigned int k = 0; k < splittings; k++)` over the declusterings
of one jet: `Delta_vec.push_back(lund_result[k].Delta());
kt_vec.push_back(lund_result[k].kt())`. -/
def splittings_loop {R L : Type} (Delta kt : L → R) : List L → List R → List R → List R × List R
  | [], Delta_vec, kt_vec => (Delta_vec, kt_vec)
  | d :: lund_result, Delta_vec, kt_vec =>
    splittings_loop Delta kt lund_result (Delta_vec ++ [Delta d]) (kt_vec ++ [kt d])

/-- The loop `for (unsigned int j = 0; j < jets.size(); j++)` of the Lund lambda:
the declusterings of the jet are pushed to the two vectors, then
`ptrjetoffsets[jetidx] = splittings + prev; prev = ptrjetoffsets[jetidx]; jetidx++`. -/
def lund_jets_loop {R H L : Type} (result : PseudoJet R H → List L) (Delta kt : L → R) :
    List (PseudoJet R H) → Buffer Nat → Nat → Nat → List R → List R →
      Except Fault (Buffer Nat × Nat × Nat × List R × List R)
  | [], jetoffsets, jetidx, prev, Delta_vec, kt_vec =>
    .ok (jetoffsets, jetidx, prev, Delta_vec, kt_vec)
  | jet :: jets, jetoffsets, jetidx, prev, Delta_vec, kt_vec => do
    let lund_result := result jet
    let splittings := lund_result.length
    let (Delta_vec, kt_vec) := splittings_loop Delta kt lund_result Delta_vec kt_vec
    let jetoffsets ← buf_store jetoffsets jetidx (splittings + prev)
    let prev ← buf_load jetoffsets jetidx
    lund_jets_loop result Delta kt jets jetoffsets (jetidx + 1) prev Delta_vec kt_vec

/-- The event loop of the Lund lambda: `prev = ptrjetoffsets[jetidx - 1]`, the jet
loop, then `ptreventoffsets[eventidx] = jets.size() + eventprev;
eventprev = ptreventoffsets[eventidx]; eventidx++`. -/
def lund_loop {R H L CS : Type} (query : CS → List (PseudoJet R H))
    (result : PseudoJet R H → List L) (Delta kt : L → R) :
    List CS → Buffer Nat → Nat → List R → List R → Buffer Nat → Nat → Nat →
      Except Fault (Buffer Nat × List R × List R × Buffer Nat)
  | [], jetoffsets, _, Delta_vec, kt_vec, eventoffsets, _, _ =>
    .ok (jetoffsets, Delta_vec, kt_vec, eventoffsets)
  | cs :: css, jetoffsets, jetidx, Delta_vec, kt_vec, eventoffsets, eventidx, eventprev => do
    let jets := query cs
    let prev ← buf_load jetoffsets (jetidx - 1)
    let (jetoffsets, jetidx, _, Delta_vec, kt_vec) ←
      lund_jets_loop result Delta kt jets jetoffsets jetidx prev Delta_vec kt_vec
    let eventoffsets ← buf_store eventoffsets eventidx (jets.length + eventprev)
    let eventprev ← buf_load eventoffsets eventidx
    lund_loop query result Delta kt css jetoffsets jetidx Delta_vec kt_vec eventoffsets
      (eventidx + 1) eventprev

/-- The lambda `to_numpy_exclusive_njet_lund_declusterings(ow, n_jets)`.  The
engine supplies `exclusive_jets`, the declusterings `lund_generator.result(jet)`
of a jet and the accessors `Delta()` and `kt()`.  A first pass adds the jet counts
into `jk`, and `jk++`; `eventoffsets` has `len + 1` cells and `jetoffsets` has `jk`
cells, the first cell of both set to `0`; `Deltas` and `kts` are arrays made from
the two vectors.  The result is `(jetoffsets, Deltas, kts, eventoffsets)`. -/
def to_numpy_exclusive_njet_lund_declusterings {R H L CS : Type}
    (exclusive_jets : CS → Int → List (PseudoJet R H))
    (result : PseudoJet R H → List L) (Delta kt : L → R)
    (ow : output_wrapper CS R H) (n_jets : Int) :
    Except Fault (Buffer Nat × Buffer R × Buffer R × Buffer Nat) := do
  let css := ow.cse
  let len := css.length
  let jk := css.foldl (fun jk cs => jk + (exclusive_jets cs n_jets).length) 0
  let jk := jk + 1
  let eventoffsets ← buf_store (buf_alloc (len + 1)) 0 0
  let jetoffsets ← buf_store (buf_alloc jk) 0 0
  let (jetoffsets, Delta_vec, kt_vec, eventoffsets) ←
    lund_loop (fun cs => exclusive_jets cs n_jets) result Delta kt css jetoffsets 1 [] []
      eventoffsets 1 0
  .ok (jetoffsets, Delta_vec.map some, kt_vec.map some, eventoffsets)

/-! ## Strategies selected by name -/

/-- The enumeration `RecursiveSymmetryCutBase::SymmetryMeasure` of the engine. -/
inductive SymmetryMeasure where
  | scalar_z
  | vector_z
  | y
  | theta_E
  | cos_theta_E
  deriving DecidableEq, Repr

/-- The enumeration `RecursiveSymmetryCutBase::RecursionChoice` of the engine. -/
inductive RecursionChoice where
  | larger_pt
  | larger_mt
  | larger_m
  | larger_E
  deriving DecidableEq, Repr

/-- The variable `sym_meas` of `to_numpy_softdrop_grooming` after its chain of
`if (symmetry_measure == ...)`: it is initialised to `scalar_z` and the chain has
no final `else`. -/
def sym_meas (symmetry_measure : String) : SymmetryMeasure :=
  if symmetry_measure = "scalar_z" then .scalar_z
  else if symmetry_measure = "vector_z" then .vector_z
  else if symmetry_measure = "y" then .y
  else if symmetry_measure = "theta_E" then .theta_E
  else if symmetry_measure = "cos_theta_E" then .cos_theta_E
  else .scalar_z

/-- The variable `rec_choice` of `to_numpy_softdrop_grooming` after its chain of
`if (recursion_choice == ...)`: it is initialised to `larger_pt` and the chain
has no final `else`. -/
def rec_choice (recursion_choice : String) : RecursionChoice :=
  if recursion_choice = "larger_pt" then .larger_pt
  else if recursion_choice = "larger_mt" then .larger_mt
  else if recursion_choice = "larger_m" then .larger_m
  else if recursion_choice = "larger_E" then .larger_E
  else .larger_pt

/-- The arguments of the engine's constructor
`SoftDrop(beta, symmetry_cut, sym_meas, R0, mu_cut, rec_choice)`. -/
structure SoftDrop (R : Type) where
  beta : R
  symmetry_cut : R
  symmetry_measure : SymmetryMeasure
  R0 : R
  mu_cut : R
  recursion_choice : RecursionChoice

/-- The groomer `sd` that `to_numpy_softdrop_grooming` builds from its arguments. -/
def sd {R : Type} (beta symmetry_cut : R) (symmetry_measure : String) (R0 : R)
    (recursion_choice : String) (mu_cut : R) : SoftDrop R :=
  { beta := beta, symmetry_cut := symmetry_cut, symmetry_measure := sym_meas symmetry_measure,
    R0 := R0, mu_cut := mu_cut, recursion_choice := rec_choice recursion_choice }

/-! ### Energy correlators: `to_numpy_energy_correlators` -/

/-- The classes of `fastjet::contrib` that the energy-correlator lambda
instantiates, each with the arguments of its constructor.  The lambda passes its
`double npoint` where the constructors take an integer; the value is kept as it
is passed. -/
inductive FunctionOfPseudoJet (R : Type) where
  | EnergyCorrelatorRatio (npoint beta : R)
  | EnergyCorrelatorDoubleRatio (npoint beta : R)
  | EnergyCorrelatorC1 (beta : R)
  | EnergyCorrelatorC2 (beta : R)
  | EnergyCorrelatorD2 (beta : R)
  | EnergyCorrelatorGeneralized (angles : Int) (npoint beta : R)
  | EnergyCorrelatorGeneralizedD2 (alpha beta : R)
  | EnergyCorrelatorNseries (npoint beta : R)
  | EnergyCorrelatorN2 (beta : R)
  | EnergyCorrelatorN3 (beta : R)
  | EnergyCorrelatorMseries (npoint beta : R)
  | EnergyCorrelatorM2 (beta : R)
  | EnergyCorrelatorCseries (npoint beta : R)
  | EnergyCorrelatorUseries (npoint beta : R)
  | EnergyCorrelatorU1 (beta : R)
  | EnergyCorrelatorU2 (beta : R)
  | EnergyCorrelatorU3 (beta : R)
  | EnergyCorrelator (npoint beta : R)
  deriving DecidableEq, Repr

/-- The call `std::transform(func.begin(), func.end(), func.begin(), tolower)`:
every character `A`..`Z` is replaced by its lower-case letter. -/
def tolower (func : String) : String :=
  String.mk (func.data.map Char.toLower)

/-- The pointer `energy_correlator` of `to_numpy_energy_correlators` after its
chain of `if (func == ...)`, with `func` already in lower case: `none` is the
null `std::shared_ptr` that the variable is initialised with, and the chain has
no final `else`. -/
def energy_correlator {R : Type} (func : String) (normalized : Bool) (beta npoint : R)
    (angles : Int) (alpha : R) : Option (FunctionOfPseudoJet R) :=
  if func = "ratio" then some (.EnergyCorrelatorRatio npoint beta)
  else if func = "doubleratio" then some (.EnergyCorrelatorDoubleRatio npoint beta)
  else if func = "c1" then some (.EnergyCorrelatorC1 beta)
  else if func = "c2" then some (.EnergyCorrelatorC2 beta)
  else if func = "d2" then some (.EnergyCorrelatorD2 beta)
  else if func = "generalized" then some (.EnergyCorrelatorGeneralized angles npoint beta)
  else if func = "generalizedd2" then some (.EnergyCorrelatorGeneralizedD2 alpha beta)
  else if func = "nseries" then some (.EnergyCorrelatorNseries npoint beta)
  else if func = "n2" then some (.EnergyCorrelatorN2 beta)
  else if func = "n3" then some (.EnergyCorrelatorN3 beta)
  else if func = "mseries" then some (.EnergyCorrelatorMseries npoint beta)
  else if func = "m2" then some (.EnergyCorrelatorM2 beta)
  else if func = "cseries" then some (.EnergyCorrelatorCseries npoint beta)
  else if func = "useries" then some (.EnergyCorrelatorUseries npoint beta)
  else if func = "u1" then some (.EnergyCorrelatorU1 beta)
  else if func = "u2" then some (.EnergyCorrelatorU2 beta)
  else if func = "u3" then some (.EnergyCorrelatorU3 beta)
  else if func = "generic" ∧ normalized = false then some (.EnergyCorrelator npoint beta)
  else if func = "generic" ∧ normalized = true then
    some (.EnergyCorrelatorGeneralized angles npoint beta)
  else none

/-- The loop `for (unsigned int j = 0; j < jets.size(); j++)` of the
energy-correlator lambda: `ECF_vec.push_back(energy_correlator->result(jets[j]))`.
The call through a null pointer is the fault `Fault.null_dereference`. -/
def ecf_jets_loop {R H : Type} (result : FunctionOfPseudoJet R → PseudoJet R H → R)
    (energy_correlator : Option (FunctionOfPseudoJet R)) :
    List (PseudoJet R H) → List R → Except Fault (List R)
  | [], ECF_vec => .ok ECF_vec
  | jet :: jets, ECF_vec =>
    match energy_correlator with
    | none => .error .null_dereference
    | some correlator =>
      ecf_jets_loop result energy_correlator jets (ECF_vec ++ [result correlator jet])

/-- The event loop of the energy-correlator lambda. -/
def ecf_loop {R H CS : Type} (query : CS → List (PseudoJet R H))
    (result : FunctionOfPseudoJet R → PseudoJet R H → R)
    (energy_correlator : Option (FunctionOfPseudoJet R)) :
    List CS → List R → Except Fault (List R)
  | [], ECF_vec => .ok ECF_vec
  | cs :: css, ECF_vec => do
    let ECF_vec ← ecf_jets_loop result energy_correlator (query cs) ECF_vec
    ecf_loop query result energy_correlator css ECF_vec

/-- The lambda `to_numpy_energy_correlators(ow, n_jets, beta, npoint, angles,
alpha, func, normalized)`.  The engine supplies `exclusive_jets` and the value
`result` of a correlator on a jet.  The result is the array `ECF` made from the
vector, and nothing else. -/
def to_numpy_energy_correlators {R H CS : Type}
    (exclusive_jets : CS → Int → List (PseudoJet R H))
    (result : FunctionOfPseudoJet R → PseudoJet R H → R)
    (ow : output_wrapper CS R H) (n_jets : Int) (beta npoint : R) (angles : Int) (alpha : R)
    (func : String) (normalized : Bool) : Except Fault (Buffer R) := do
  let css := ow.cse
  let func := tolower func
  let energy_correlator := energy_correlator func normalized beta npoint angles alpha
  let ECF_vec ← ecf_loop (fun cs => exclusive_jets cs n_jets) result energy_correlator css []
  .ok (ECF_vec.map some)

/-! ### N-subjettiness: `to_numpy_njettiness` -/

/-- The enumeration `njettiness::MeasureDefinition_t`. -/
inductive MeasureDefinition_t where
  | NormalizedMeasure
  | UnnormalizedMeasure
  | OriginalGeometricMeasure
  | NormalizedCutoffMeasure
  | UnnormalizedCutoffMeasure
  | GeometricCutoffMeasure
  | N_MEASURE_DEFINITIONS
  deriving DecidableEq, Repr

/-- The enumeration `njettiness::AxesDefinition_t`. -/
inductive AxesDefinition_t where
  | KT_Axes
  | CA_Axes
  | AntiKT_Axes
  | WTA_KT_Axes
  | WTA_CA_Axes
  | Manual_Axes
  | OnePass_KT_Axes
  | OnePass_CA_Axes
  | OnePass_AntiKT_Axes
  | OnePass_WTA_KT_Axes
  | OnePass_WTA_CA_Axes
  | OnePass_Manual_Axes
  | MultiPass_Axes
  | N_AXES_DEFINITIONS
  deriving DecidableEq, Repr

/-- The table `njettiness::measure_def_names_to_enum`. -/
def measure_def_names_to_enum : List (String × MeasureDefinition_t) :=
  [("NormalizedMeasure", .NormalizedMeasure),
   ("UnnormalizedMeasure", .UnnormalizedMeasure),
   ("OriginalGeometricMeasure", .OriginalGeometricMeasure),
   ("NormalizedCutoffMeasure", .NormalizedCutoffMeasure),
   ("UnnormalizedCutoffMeasure", .UnnormalizedCutoffMeasure),
   ("GeometricCutoffMeasure", .GeometricCutoffMeasure)]

/-- The table `njettiness::axis_def_names_to_enum`. -/
def axis_def_names_to_enum : List (String × AxesDefinition_t) :=
  [("KT_Axes", .KT_Axes),
   ("CA_Axes", .CA_Axes),
   ("AntiKT_Axes", .AntiKT_Axes),
   ("WTA_KT_Axes", .WTA_KT_Axes),
   ("WTA_CA_Axes", .WTA_CA_Axes),
   ("Manual_Axes", .Manual_Axes),
   ("OnePass_KT_Axes", .OnePass_KT_Axes),
   ("OnePass_CA_Axes", .OnePass_CA_Axes),
   ("OnePass_AntiKT_Axes", .OnePass_AntiKT_Axes),
   ("OnePass_WTA_KT_Axes", .OnePass_WTA_KT_Axes),
   ("OnePass_WTA_CA_Axes", .OnePass_WTA_CA_Axes),
   ("OnePass_Manual_Axes", .OnePass_Manual_Axes),
   ("MultiPass_Axes", .MultiPass_Axes)]

/-- The value `measdefenum`: the entry of the table for the name, and
`NormalizedMeasure` when `find` returns `end()`. -/
def measdefenum (measure_definition : String) : MeasureDefinition_t :=
  match measure_def_names_to_enum.lookup measure_definition with
  | none => .NormalizedMeasure
  | some e => e

/-- The value `axesdefenum`: the entry of the table for the name, and `KT_Axes`
when `find` returns `end()`. -/
def axesdefenum (axes_definition : String) : AxesDefinition_t :=
  match axis_def_names_to_enum.lookup axes_definition with
  | none => .KT_Axes
  | some e => e

/-- The five measure objects that the lambda constructs, of the classes of
`fastjet::contrib` of the same names, each with the arguments of its
constructor. -/
inductive MeasureDefinition (R : Type) where
  | NormalizedMeasure (beta R0 : R)
  | UnnormalizedMeasure (beta : R)
  | OriginalGeometricMeasure (beta : R)
  | NormalizedCutoffMeasure (beta R0 Rcutoff : R)
  | UnnormalizedCutoffMeasure (beta Rcutoff : R)
  deriving DecidableEq, Repr

/-- The eleven axes objects that the lambda constructs, of the classes of
`fastjet::contrib` of the same names, each with the arguments of its
constructor. -/
inductive AxesDefinition (R : Type) where
  | KT_Axes
  | CA_Axes
  | AntiKT_Axes (R0 : R)
  | WTA_KT_Axes
  | WTA_CA_Axes
  | OnePass_KT_Axes
  | OnePass_CA_Axes
  | OnePass_AntiKT_Axes (R0 : R)
  | OnePass_WTA_KT_Axes
  | OnePass_WTA_CA_Axes
  | MultiPass_Axes (nPass : Int)
  deriving DecidableEq, Repr

/-- The pointer `measureDef` after `switch ( measdefenum )`: four cases, and
`case njettiness::NormalizedMeasure : default :` for every other value. -/
def measureDef {R : Type} (beta R0 Rcutoff : R) : MeasureDefinition_t → MeasureDefinition R
  | .UnnormalizedMeasure => .UnnormalizedMeasure beta
  | .OriginalGeometricMeasure => .OriginalGeometricMeasure beta
  | .NormalizedCutoffMeasure => .NormalizedCutoffMeasure beta R0 Rcutoff
  | .UnnormalizedCutoffMeasure => .UnnormalizedCutoffMeasure beta Rcutoff
  | _ => .NormalizedMeasure beta R0

/-- The pointer `axesDef` after `switch ( axesdefenum )`: ten cases, and
`case njettiness::KT_Axes : default :` for every other value. -/
def axesDef {R : Type} (nPass : Int) (akAxesR0 : R) : AxesDefinition_t → AxesDefinition R
  | .CA_Axes => .CA_Axes
  | .AntiKT_Axes => .AntiKT_Axes akAxesR0
  | .WTA_KT_Axes => .WTA_KT_Axes
  | .WTA_CA_Axes => .WTA_CA_Axes
  | .OnePass_KT_Axes => .OnePass_KT_Axes
  | .OnePass_CA_Axes => .OnePass_CA_Axes
  | .OnePass_AntiKT_Axes => .OnePass_AntiKT_Axes akAxesR0
  | .OnePass_WTA_KT_Axes => .OnePass_WTA_KT_Axes
  | .OnePass_WTA_CA_Axes => .OnePass_WTA_CA_Axes
  | .MultiPass_Axes => .MultiPass_Axes nPass
  | _ => .KT_Axes

/-- The arguments of the engine's constructor `Njettiness(*axesDef, *measureDef)`. -/
structure Njettiness (R : Type) where
  axes_def : AxesDefinition R
  measure_def : MeasureDefinition R

/-- The object `routine` that `to_numpy_njettiness` builds from its arguments. -/
def routine {R : Type} (measure_definition axes_definition : String) (beta R0 Rcutoff : R)
    (nPass : Int) (akAxesR0 : R) : Njettiness R :=
  { axes_def := axesDef nPass akAxesR0 (axesdefenum axes_definition),
    measure_def := measureDef beta R0 Rcutoff (measdefenum measure_definition) }

/-- The two loops of `to_numpy_njettiness` over `ow.parts` and `njets`:
`taus.push_back(routine->getTau(njets[k], *constituents[i]))`. -/
def taus {R H : Type} (getTau : Njettiness R → Nat → List (PseudoJet R H) → R)
    (routine : Njettiness R) (constituents : List (List (PseudoJet R H))) (njets : List Nat) :
    List R :=
  constituents.foldl
    (fun taus particles => njets.foldl (fun taus n => taus ++ [getTau routine n particles]) taus)
    []

/-- The lambda `to_numpy_njettiness(ow, measure_definition, axes_definition, njets,
beta, R0, Rcutoff, nPass, akAxesR0)`.  The engine supplies `getTau`.  The result
is the array made from `taus` with the shape
`{taus.size() / njets.size(), njets.size()}`; the division is an unsigned integer
division, a fault when `njets` is empty. -/
def to_numpy_njettiness {R H CS : Type}
    (getTau : Njettiness R → Nat → List (PseudoJet R H) → R)
    (ow : output_wrapper CS R H) (measure_definition axes_definition : String)
    (njets : List Nat) (beta R0 Rcutoff : R) (nPass : Int) (akAxesR0 : R) :
    Except Fault ((Nat × Nat) × Buffer R) :=
  let routine := routine measure_definition axes_definition beta R0 Rcutoff nPass akAxesR0
  let taus := taus getTau routine ow.parts njets
  if njets.length = 0 then .error .division_by_zero
  else .ok ((taus.length / njets.length, njets.length), taus.map some)

/-! ### Grooming: `to_numpy_softdrop_grooming` -/

/-- What the engine supplies to `to_numpy_softdrop_grooming`: the exclusive jets
of a cluster sequence, the groomer's `result`, the comparison `soft != 0`, the
kinematic accessors `pt()`, `eta()`, `phi()`, `m()`, the accessors `delta_R()`
and `symmetry()` of the structure of a groomed jet, and `constituents()`.  The
lambda calls `constituents()` on every result of the groomer, the null jet
included; the engine throws when the jet has no structure, so the query returns
the list of constituents or a fault. -/
structure SoftDropEngine (R H CS : Type) where
  exclusive_jets : CS → Int → List (PseudoJet R H)
  result : SoftDrop R → PseudoJet R H → PseudoJet R H
  ne_zero : PseudoJet R H → Bool
  pt : PseudoJet R H → R
  eta : PseudoJet R H → R
  phi : PseudoJet R H → R
  m : PseudoJet R H → R
  delta_R : PseudoJet R H → R
  symmetry : PseudoJet R H → R
  constituents : PseudoJet R H → Except Fault (List (PseudoJet R H))

/-- The thirteen vectors that `to_numpy_softdrop_grooming` pushes to. -/
structure GroomedVectors (R : Type) where
  consts_groomed_px : List R
  consts_groomed_py : List R
  consts_groomed_pz : List R
  consts_groomed_E : List R
  nconstituents : List Nat
  jet_groomed_pt : List R
  jet_groomed_eta : List R
  jet_groomed_phi : List R
  jet_groomed_m : List R
  jet_groomed_E : List R
  jet_groomed_pz : List R
  jet_groomed_delta_R : List R
  jet_groomed_symmetry : List R

/-- The thirteen arrays of the tuple that `to_numpy_softdrop_grooming` returns, in
the order of the tuple; each is made from the vector of the corresponding
name. -/
structure GroomedArrays (R : Type) where
  consts_px : Buffer R
  consts_py : Buffer R
  consts_pz : Buffer R
  consts_E : Buffer R
  eventsize : Buffer Nat
  jet_pt : Buffer R
  jet_eta : Buffer R
  jet_phi : Buffer R
  jet_m : Buffer R
  jet_E : Buffer R
  jet_pz : Buffer R
  jet_delta_R : Buffer R
  jet_symmetry : Buffer R

/-- The loop `for (unsigned int k = 0; k < soft.constituents().size(); k++)`: the
four components of each constituent are pushed to the four constituent
vectors. -/
def push_constituents {R H : Type} :
    List (PseudoJet R H) → GroomedVectors R → GroomedVectors R
  | [], v => v
  | c :: cs, v =>
    push_constituents cs
      { v with
        consts_groomed_px := v.consts_groomed_px ++ [c.px],
        consts_groomed_py := v.consts_groomed_py ++ [c.py],
        consts_groomed_pz := v.consts_groomed_pz ++ [c.pz],
        consts_groomed_E := v.consts_groomed_E ++ [c.E] }

/-- The eight pushes of the branch `if( soft != 0 )` and the eight pushes of
`quiet_NaN()` of its `else`. -/
def push_jet_row {R H CS : Type} (engine : SoftDropEngine R H CS) (quiet_NaN : R)
    (soft : PseudoJet R H) (v : GroomedVectors R) : GroomedVectors R :=
  if engine.ne_zero soft = true then
    { v with
      jet_groomed_pt := v.jet_groomed_pt ++ [engine.pt soft],
      jet_groomed_eta := v.jet_groomed_eta ++ [engine.eta soft],
      jet_groomed_phi := v.jet_groomed_phi ++ [engine.phi soft],
      jet_groomed_m := v.jet_groomed_m ++ [engine.m soft],
      jet_groomed_E := v.jet_groomed_E ++ [soft.E],
      jet_groomed_pz := v.jet_groomed_pz ++ [soft.pz],
      jet_groomed_delta_R := v.jet_groomed_delta_R ++ [engine.delta_R soft],
      jet_groomed_symmetry := v.jet_groomed_symmetry ++ [engine.symmetry soft] }
  else
    { v with
      jet_groomed_pt := v.jet_groomed_pt ++ [quiet_NaN],
      jet_groomed_eta := v.jet_groomed_eta ++ [quiet_NaN],
      jet_groomed_phi := v.jet_groomed_phi ++ [quiet_NaN],
      jet_groomed_m := v.jet_groomed_m ++ [quiet_NaN],
      jet_groomed_E := v.jet_groomed_E ++ [quiet_NaN],
      jet_groomed_pz := v.jet_groomed_pz ++ [quiet_NaN],
      jet_groomed_delta_R := v.jet_groomed_delta_R ++ [quiet_NaN],
      jet_groomed_symmetry := v.jet_groomed_symmetry ++ [quiet_NaN] }

/-- The loop `for (unsigned int j = 0; j < jets.size(); j++)` of the grooming
lambda: `soft = sd->result(jets[j])`, the jet row, then
`nconstituents.push_back(soft.constituents().size())` and the constituent
loop, whichever branch was taken.  A fault of `soft.constituents()` ends the
call. -/
def groom_jets_loop {R H CS : Type} (engine : SoftDropEngine R H CS) (quiet_NaN : R)
    (sd : SoftDrop R) :
    List (PseudoJet R H) → GroomedVectors R → Except Fault (GroomedVectors R)
  | [], v => .ok v
  | jet :: jets, v => do
    let soft := engine.result sd jet
    let v := push_jet_row engine quiet_NaN soft v
    let constituents ← engine.constituents soft
    let v := { v with nconstituents := v.nconstituents ++ [constituents.length] }
    let v := push_constituents constituents v
    groom_jets_loop engine quiet_NaN sd jets v

/-- The event loop of the grooming lambda. -/
def groom_loop {R H CS : Type} (engine : SoftDropEngine R H CS) (quiet_NaN : R)
    (sd : SoftDrop R) (n_jets : Int) :
    List CS → GroomedVectors R → Except Fault (GroomedVectors R)
  | [], v => .ok v
  | cs :: css, v => do
    let v ← groom_jets_loop engine quiet_NaN sd (engine.exclusive_jets cs n_jets) v
    groom_loop engine quiet_NaN sd n_jets css v

/-- The lambda `to_numpy_softdrop_grooming(ow, n_jets, beta, symmetry_cut,
symmetry_measure, R0, recursion_choice, mu_cut)`; `quiet_NaN` is
`std::numeric_limits<double>::quiet_NaN()`.  The groomer `sd` is built from the
arguments, the thirteen vectors start empty, the event loop fills them, and the
thirteen arrays are made from them. -/
def to_numpy_softdrop_grooming {R H CS : Type} (engine : SoftDropEngine R H CS)
    (quiet_NaN : R) (ow : output_wrapper CS R H) (n_jets : Int) (beta symmetry_cut : R)
    (symmetry_measure : String) (R0 : R) (recursion_choice : String) (mu_cut : R) :
    Except Fault (GroomedArrays R) := do
  let css := ow.cse
  let sd := sd beta symmetry_cut symmetry_measure R0 recursion_choice mu_cut
  let v ← groom_loop engine quiet_NaN sd n_jets css
    { consts_groomed_px := [], consts_groomed_py := [], consts_groomed_pz := [],
      consts_groomed_E := [], nconstituents := [], jet_groomed_pt := [],
      jet_groomed_eta := [], jet_groomed_phi := [], jet_groomed_m := [], jet_groomed_E := [],
      jet_groomed_pz := [], jet_groomed_delta_R := [], jet_groomed_symmetry := [] }
  .ok
    { consts_px := v.consts_groomed_px.map some, consts_py := v.consts_groomed_py.map some,
      consts_pz := v.consts_groomed_pz.map some, consts_E := v.consts_groomed_E.map some,
      eventsize := v.nconstituents.map some, jet_pt := v.jet_groomed_pt.map some,
      jet_eta := v.jet_groomed_eta.map some, jet_phi := v.jet_groomed_phi.map some,
      jet_m := v.jet_groomed_m.map some, jet_E := v.jet_groomed_E.map some,
      jet_pz := v.jet_groomed_pz.map some, jet_delta_R := v.jet_groomed_delta_R.map some,
      jet_symmetry := v.jet_groomed_symmetry.map some }

/-! ## Definitions used in the statements and proofs -/

/-- A buffer whose first cells hold `vals` and whose last `k` cells are still
uninitialised. -/
def filled {β : Type} (vals : List β) (k : Nat) : Buffer β :=
  vals.map some ++ List.replicate k none

/-- The four columns holding the components of `done`, with `k` free cells. -/
def cols_filled {R H : Type} (done : List (PseudoJet R H)) (k : Nat) : JetColumns R :=
  { px := filled (done.map (·.px)) k, py := filled (done.map (·.py)) k,
    pz := filled (done.map (·.pz)) k, E := filled (done.map (·.E)) k }

/-- The offsets written by an event loop entered with `*(ptroff - 1) = prev`,
for events of the given sizes. -/
def running_offsets : Nat → List Nat → List Nat
  | _, [] => []
  | prev, n :: counts => (n + prev) :: running_offsets (n + prev) counts

/-- The RaggedArray convention of the specification for an offsets buffer `off`,
for a batch whose events produce `counts` items and whose value columns have
`n` cells: every cell of `off` is written, there are `eventCount + 1` of them,
the first is `0`, the sequence is non-decreasing, consecutive entries differ by
the count of the event, and the last entry is `n`. -/
def RaggedOffsets (off : Buffer Nat) (counts : List Nat) (n : Nat) : Prop :=
  ∃ o : List Nat, off = o.map some ∧
    o.length = counts.length + 1 ∧
    o[0]? = some 0 ∧
    o.Pairwise (· ≤ ·) ∧
    (∀ i, i < counts.length → o.getD (i + 1) 0 = o.getD i 0 + counts.getD i 0) ∧
    o[counts.length]? = some n

/-- A jet-list extraction returned five buffers that follow the RaggedArray
convention for events of the sizes `counts`. -/
def JetListRagged {R : Type}
    (res : Except Fault (Buffer R × Buffer R × Buffer R × Buffer R × Buffer Nat))
    (counts : List Nat) : Prop :=
  ∃ px py pz E off, res = .ok (px, py, pz, E, off) ∧
    RaggedOffsets off counts px.length ∧
    py.length = px.length ∧ pz.length = px.length ∧ E.length = px.length

/-- An index-list extraction returned two buffers that follow the RaggedArray
convention for events of the sizes `counts`. -/
def IdListRagged
    (res : Except Fault (Buffer Int × Buffer Nat)) (counts : List Nat) : Prop :=
  ∃ parid off, res = .ok (parid, off) ∧ RaggedOffsets off counts parid.length

/-- The columns of a jet-list extraction are exactly the components of the
per-event jet lists `events`, concatenated in event order and in the engine's
order; cell `off[i] + j` of each column holds the component of the `j`-th jet
of event `i`. -/
def JetColumnsExact {R H : Type}
    (res : Except Fault (Buffer R × Buffer R × Buffer R × Buffer R × Buffer Nat))
    (events : List (List (PseudoJet R H))) : Prop :=
  ∃ px py pz E off, res = .ok (px, py, pz, E, off) ∧
    px = (events.flatten.map (·.px)).map some ∧
    py = (events.flatten.map (·.py)).map some ∧
    pz = (events.flatten.map (·.pz)).map some ∧
    E = (events.flatten.map (·.E)).map some ∧
    ∀ (i j : Nat) (evt : List (PseudoJet R H)) (jet : PseudoJet R H),
      events[i]? = some evt → evt[j]? = some jet →
      ∃ o, off[i]? = some (some o) ∧
        px[o + j]? = some (some jet.px) ∧ py[o + j]? = some (some jet.py) ∧
        pz[o + j]? = some (some jet.pz) ∧ E[o + j]? = some (some jet.E)

/-- The position of the first jet of the list whose rapidity compares equal to
`key`. -/
def first_rap_index {R H K : Type} [BEq K] (rapidity : R → R → R → R → K) (key : K) :
    List (PseudoJet R H) → Option Nat
  | [] => none
  | jet :: jets =>
    if jet.rap rapidity == key then some 0
    else (first_rap_index rapidity key jets).map (· + 1)

/-- A small model of the `double` values for worked examples: a number, or the
not-a-number value. -/
inductive Dbl where
  | nan
  | num (v : Int)
  deriving DecidableEq, Repr

/-- The comparison `==` of two `double` values: not-a-number compares unequal to
every value, itself included. -/
def Dbl.beq : Dbl → Dbl → Bool
  | .num a, .num b => a == b
  | _, _ => false

instance : BEq Dbl := ⟨Dbl.beq⟩

/-- A one-value-per-event lambda returned an offsets buffer of `len` cells
holding `1, 2, ..., len`. -/
def OffsetsFromOne {V : Type} (res : Except Fault (Buffer V × Buffer Nat)) (len : Nat) : Prop :=
  ∃ parid, res = .ok (parid, (List.range len).map fun i => some (i + 1))

/-- What a successful one-value-per-resolved-jet lambda returns, for a batch of
`eventCount` events and a supplied `py` buffer of `dimpy` cells: the offsets are
`0, 1, ..., eventCount`, the value buffer has `dimpy` cells, at least
`eventCount`, and its first `eventCount` cells are written. -/
def ResolvedScalarRagged {V : Type} (res : Except Fault (Buffer V × Buffer Nat))
    (eventCount dimpy : Nat) : Prop :=
  ∀ out_value off, res = .ok (out_value, off) →
    off = (List.range (eventCount + 1)).map some ∧
    out_value.length = dimpy ∧
    eventCount ≤ dimpy ∧
    ∀ i, i < eventCount → ∃ v, out_value[i]? = some (some v)

/-- The positions of the particles of an event that the engine assigns to the jet
of index `k`, in increasing order; `idx` is the engine's
`particle_jet_indices(jets)` and `sizz` the number of particles. -/
def jet_group (idx : List Int) (sizz k : Nat) : List Nat :=
  (List.range sizz).filter fun j => idx[j]? = some (k : Int)

/-- The groups of an event with `size` jets, in increasing jet index. -/
def event_groups (idx : List Int) (sizz size : Nat) : List (List Nat) :=
  (List.range size).map (jet_group idx sizz)

/-- The groups that an offsets list delimits in a value list: the slice
`vals[off[g] : off[g + 1]]` for each pair of consecutive offsets. -/
def ragged_slices {α : Type} (vals : List α) : List Nat → List (List α)
  | a :: b :: off => ((vals.drop a).take (b - a)) :: ragged_slices vals (b :: off)
  | _ => []

/-- The groups of particle positions of the event `cs`, from the engine's
assignment for the jets `query cs`. -/
def cs_groups {R H CS : Type} (query : CS → List (PseudoJet R H))
    (particle_jet_indices : CS → List (PseudoJet R H) → List Int) (n_particles : CS → Nat)
    (cs : CS) : List (List Nat) :=
  event_groups (particle_jet_indices cs (query cs)) (n_particles cs) (query cs).length

/-- What the Lund lambda returns for a batch whose events have the jets `events`
and whose jets have the declusterings given by `result`: both offsets buffers
follow the RaggedArray convention, the event offsets for the jet counts of the
events with last entry the total number of jets, the jet offsets for the numbers
of splittings of the jets, numbered across events in order, with last entry the
common length of `Deltas` and `kts`. -/
def LundNestedRagged {R H L : Type}
    (res : Except Fault (Buffer Nat × Buffer R × Buffer R × Buffer Nat))
    (events : List (List (PseudoJet R H))) (result : PseudoJet R H → List L) : Prop :=
  ∃ jetoffsets Deltas kts eventoffsets, res = .ok (jetoffsets, Deltas, kts, eventoffsets) ∧
    RaggedOffsets eventoffsets (events.map List.length) events.flatten.length ∧
    RaggedOffsets jetoffsets (events.flatten.map fun jet => (result jet).length)
      Deltas.length ∧
    kts.length = Deltas.length ∧
    jetoffsets.length = events.flatten.length + 1

/-- The rows that one event contributes to `to_numpy_get_parents` or
`to_numpy_get_child`: the jets the engine left in the output arguments when its
flag is set, none otherwise. -/
def relatives_rows {R H C : Type} (relatives : C → Bool × List (PseudoJet R H)) (target : C) :
    List (PseudoJet R H) :=
  if (relatives target).1 = true then (relatives target).2 else []

/-- The rows of an event in `to_numpy_get_parents`: the first parent then the
second parent when the engine reports that the resolved jet has parents. -/
def parents_rows {R H CS : Type}
    (has_parents : CS → PseudoJet R H → Bool × PseudoJet R H × PseudoJet R H)
    (target : CS × PseudoJet R H) : List (PseudoJet R H) :=
  if (has_parents target.1 target.2).1 = true then
    [(has_parents target.1 target.2).2.1, (has_parents target.1 target.2).2.2]
  else []

/-- The rows of an event in `to_numpy_get_child`: the child when the engine
reports that the resolved jet has one. -/
def child_rows {R H CS : Type} (has_child : CS → PseudoJet R H → Bool × PseudoJet R H)
    (target : CS × PseudoJet R H) : List (PseudoJet R H) :=
  if (has_child target.1 target.2).1 = true then [(has_child target.1 target.2).2] else []

/-- The list `xs` with `x` inserted at position `p`. -/
def insert_at {α : Type} (p : Nat) (x : α) (xs : List α) : List α :=
  xs.take p ++ x :: xs.drop p

/-- The offsets `off` with the entry at position `p` duplicated. -/
def duplicate_at (p : Nat) (off : List Nat) : List Nat :=
  off.take (p + 1) ++ off.drop p

/-- The slices that the offsets `off2` delimit in `vals` are those that `off`
delimits, in the same order and with the same contents, with one empty slice
inserted at position `p`. -/
def SlicesKeep {α : Type} (vals : List α) (off off2 : List Nat) (p : Nat) : Prop :=
  ragged_slices vals off2 = insert_at p [] (ragged_slices vals off)

/-- The names that the chain of `if (func == ...)` of the energy-correlator lambda
compares the lower-cased `func` with. -/
def correlator_names : List String :=
  ["ratio", "doubleratio", "c1", "c2", "d2", "generalized", "generalizedd2", "nseries", "n2",
   "n3", "mseries", "m2", "cseries", "useries", "u1", "u2", "u3", "generic"]

/-- The names that `sym_meas` compares `symmetry_measure` with. -/
def symmetry_measure_names : List String :=
  ["scalar_z", "vector_z", "y", "theta_E", "cos_theta_E"]

/-- The names that `rec_choice` compares `recursion_choice` with. -/
def recursion_choice_names : List String :=
  ["larger_pt", "larger_mt", "larger_m", "larger_E"]

/-- The name of the class of a measure object. -/
def MeasureDefinition.name {R : Type} : MeasureDefinition R → String
  | .NormalizedMeasure _ _ => "NormalizedMeasure"
  | .UnnormalizedMeasure _ => "UnnormalizedMeasure"
  | .OriginalGeometricMeasure _ => "OriginalGeometricMeasure"
  | .NormalizedCutoffMeasure _ _ _ => "NormalizedCutoffMeasure"
  | .UnnormalizedCutoffMeasure _ _ => "UnnormalizedCutoffMeasure"

/-- The name of the class of an axes object. -/
def AxesDefinition.name {R : Type} : AxesDefinition R → String
  | .KT_Axes => "KT_Axes"
  | .CA_Axes => "CA_Axes"
  | .AntiKT_Axes _ => "AntiKT_Axes"
  | .WTA_KT_Axes => "WTA_KT_Axes"
  | .WTA_CA_Axes => "WTA_CA_Axes"
  | .OnePass_KT_Axes => "OnePass_KT_Axes"
  | .OnePass_CA_Axes => "OnePass_CA_Axes"
  | .OnePass_AntiKT_Axes _ => "OnePass_AntiKT_Axes"
  | .OnePass_WTA_KT_Axes => "OnePass_WTA_KT_Axes"
  | .OnePass_WTA_CA_Axes => "OnePass_WTA_CA_Axes"
  | .MultiPass_Axes _ => "MultiPass_Axes"

/-- The measure names of the table for which `switch ( measdefenum )` has a case
of their own. -/
def switched_measure_names : List String :=
  ["NormalizedMeasure", "UnnormalizedMeasure", "OriginalGeometricMeasure",
   "NormalizedCutoffMeasure", "UnnormalizedCutoffMeasure"]

/-- The axes names of the table for which `switch ( axesdefenum )` has a case of
their own. -/
def switched_axes_names : List String :=
  ["KT_Axes", "CA_Axes", "AntiKT_Axes", "WTA_KT_Axes", "WTA_CA_Axes", "OnePass_KT_Axes",
   "OnePass_CA_Axes", "OnePass_AntiKT_Axes", "OnePass_WTA_KT_Axes", "OnePass_WTA_CA_Axes",
   "MultiPass_Axes"]

/-- The particles made from the buffer cells at the positions
`c, c + 1, ..., c + n - 1`, where they exist. -/
def seq_particles {R H : Type} (px py pz E : List R) (c n : Nat) : List (PseudoJet R H) :=
  (List.range n).filterMap fun k =>
    match px[c + k]?, py[c + k]?, pz[c + k]?, E[c + k]? with
    | some x, some y, some z, some e => some (PseudoJet.ofMomentum x y z e)
    | _, _, _, _ => none

/-- The number `max(0, stops[i] - starts[i])` of particles of each event. -/
def event_sizes (starts stops : List Int) : List Nat :=
  List.zipWith (fun start stop => (stop - start).toNat) starts stops

/-- The number of particles of the events before event `i`. -/
def read_position (starts stops : List Int) (i : Nat) : Nat :=
  ((event_sizes starts stops).take i).sum

/-- The slices are contiguous from `c`: the first start is `c`, every start is at
most its stop, and every further start is the stop before it. -/
def Contiguous : Int → List Int → List Int → Prop
  | _, [], [] => True
  | c, start :: starts, stop :: stops => start = c ∧ start ≤ stop ∧ Contiguous stop starts stops
  | _, _, _ => False

/-- The positions of the particles of an event that the engine assigns to one of
its `size` jets, in increasing order. -/
def assigned_positions (idx : List Int) (sizz size : Nat) : List Nat :=
  (List.range sizz).filter fun j => (List.range size).any fun k => idx[j]? = some (k : Int)

/-- A constituent extraction returned its three buffers, and the written part of
`parid` is the concatenation of the groups `groups` (per event, per jet), followed
by `slack` cells that were never written. -/
def ConstituentGroups (res : Except Fault (Buffer Nat × Buffer Nat × Buffer Nat))
    (groups : List (List (List Nat))) : Prop :=
  ∃ (jetoffsets eventoffsets : List Nat) (slack : Nat),
    res = .ok (jetoffsets.map some, filled groups.flatten.flatten slack, eventoffsets.map some)

/-- A constituent extraction returned its three buffers, the written part of
`parid` is the concatenation of the groups, and `jetoffsets` delimits exactly
these groups in it. -/
def GroupsDelimited (res : Except Fault (Buffer Nat × Buffer Nat × Buffer Nat))
    (groups : List (List (List Nat))) : Prop :=
  ∃ (jetoffsets eventoffsets : List Nat) (slack : Nat),
    res = .ok (jetoffsets.map some, filled groups.flatten.flatten slack, eventoffsets.map some) ∧
    ragged_slices groups.flatten.flatten jetoffsets = groups.flatten

/-- The call left the wrapper without a result. -/
def Fails {α : Type} (res : Except Fault α) : Prop :=
  ∃ f, res = .error f

/-- The row of eight jet-level values that the grooming lambda emits for a
groomed jet `soft`: `(pt, eta, phi, m, E, pz, delta_R, symmetry)`, or eight times
the NaN value when `soft` compares equal to zero. -/
def jet_row {R H CS : Type} (engine : SoftDropEngine R H CS) (quiet_NaN : R)
    (soft : PseudoJet R H) : R × R × R × R × R × R × R × R :=
  if engine.ne_zero soft = true then
    (engine.pt soft, engine.eta soft, engine.phi soft, engine.m soft, soft.E, soft.pz,
      engine.delta_R soft, engine.symmetry soft)
  else
    (quiet_NaN, quiet_NaN, quiet_NaN, quiet_NaN, quiet_NaN, quiet_NaN, quiet_NaN, quiet_NaN)

/-- The groomed jets of a batch, in event order then jet order. -/
def groomed_jets {R H CS : Type} (engine : SoftDropEngine R H CS) (sd : SoftDrop R)
    (n_jets : Int) (css : List CS) : List (PseudoJet R H) :=
  (css.map fun cs => (engine.exclusive_jets cs n_jets).map (engine.result sd)).flatten

/-- The list that `constituents()` returned for a groomed jet, and the empty list
when it threw. -/
def returned_constituents {R H CS : Type} (engine : SoftDropEngine R H CS)
    (soft : PseudoJet R H) : List (PseudoJet R H) :=
  match engine.constituents soft with
  | .ok constituents => constituents
  | .error _ => []

/-- The thirteen vectors `v` after the rows of the groomed jets `softs` have been
pushed to them. -/
def push_rows {R H CS : Type} (engine : SoftDropEngine R H CS) (quiet_NaN : R)
    (softs : List (PseudoJet R H)) (v : GroomedVectors R) : GroomedVectors R :=
  { consts_groomed_px :=
      v.consts_groomed_px ++ (softs.map (returned_constituents engine)).flatten.map (·.px),
    consts_groomed_py :=
      v.consts_groomed_py ++ (softs.map (returned_constituents engine)).flatten.map (·.py),
    consts_groomed_pz :=
      v.consts_groomed_pz ++ (softs.map (returned_constituents engine)).flatten.map (·.pz),
    consts_groomed_E :=
      v.consts_groomed_E ++ (softs.map (returned_constituents engine)).flatten.map (·.E),
    nconstituents :=
      v.nconstituents ++ softs.map fun soft => (returned_constituents engine soft).length,
    jet_groomed_pt := v.jet_groomed_pt ++ softs.map fun soft => (jet_row engine quiet_NaN soft).1,
    jet_groomed_eta :=
      v.jet_groomed_eta ++ softs.map fun soft => (jet_row engine quiet_NaN soft).2.1,
    jet_groomed_phi :=
      v.jet_groomed_phi ++ softs.map fun soft => (jet_row engine quiet_NaN soft).2.2.1,
    jet_groomed_m :=
      v.jet_groomed_m ++ softs.map fun soft => (jet_row engine quiet_NaN soft).2.2.2.1,
    jet_groomed_E :=
      v.jet_groomed_E ++ softs.map fun soft => (jet_row engine quiet_NaN soft).2.2.2.2.1,
    jet_groomed_pz :=
      v.jet_groomed_pz ++ softs.map fun soft => (jet_row engine quiet_NaN soft).2.2.2.2.2.1,
    jet_groomed_delta_R :=
      v.jet_groomed_delta_R ++
        softs.map fun soft => (jet_row engine quiet_NaN soft).2.2.2.2.2.2.1,
    jet_groomed_symmetry :=
      v.jet_groomed_symmetry ++
        softs.map fun soft => (jet_row engine quiet_NaN soft).2.2.2.2.2.2.2 }

/-- The row index of the `j`-th exclusive jet of event `i`: the number of
exclusive jets of the events before it, plus `j`. -/
def row_index {R H CS : Type} (engine : SoftDropEngine R H CS) (n_jets : Int)
    (css : List CS) (i j : Nat) : Nat :=
  ((css.map fun cs => (engine.exclusive_jets cs n_jets).length).take i).sum + j

/-- The cell `g` of each of the eight jet-level columns holds the NaN value. -/
def NaNRow {R : Type} (arrays : GroomedArrays R) (quiet_NaN : R) (g : Nat) : Prop :=
  arrays.jet_pt[g]? = some (some quiet_NaN) ∧ arrays.jet_eta[g]? = some (some quiet_NaN) ∧
  arrays.jet_phi[g]? = some (some quiet_NaN) ∧ arrays.jet_m[g]? = some (some quiet_NaN) ∧
  arrays.jet_E[g]? = some (some quiet_NaN) ∧ arrays.jet_pz[g]? = some (some quiet_NaN) ∧
  arrays.jet_delta_R[g]? = some (some quiet_NaN) ∧
  arrays.jet_symmetry[g]? = some (some quiet_NaN)

/-- The arrays hold exactly one row per groomed jet of `softs`, in the order of
the list: the eight jet-level columns hold the components of `jet_row`, the
array `eventsize` holds the constituent counts, and the four constituent columns
hold the components of the constituents, jet after jet. -/
def GroomedRows {R H CS : Type} (arrays : GroomedArrays R) (engine : SoftDropEngine R H CS)
    (quiet_NaN : R) (softs : List (PseudoJet R H)) : Prop :=
  arrays.jet_pt = (softs.map fun soft => (jet_row engine quiet_NaN soft).1).map some ∧
  arrays.jet_eta = (softs.map fun soft => (jet_row engine quiet_NaN soft).2.1).map some ∧
  arrays.jet_phi = (softs.map fun soft => (jet_row engine quiet_NaN soft).2.2.1).map some ∧
  arrays.jet_m = (softs.map fun soft => (jet_row engine quiet_NaN soft).2.2.2.1).map some ∧
  arrays.jet_E = (softs.map fun soft => (jet_row engine quiet_NaN soft).2.2.2.2.1).map some ∧
  arrays.jet_pz = (softs.map fun soft => (jet_row engine quiet_NaN soft).2.2.2.2.2.1).map some ∧
  arrays.jet_delta_R
    = (softs.map fun soft => (jet_row engine quiet_NaN soft).2.2.2.2.2.2.1).map some ∧
  arrays.jet_symmetry
    = (softs.map fun soft => (jet_row engine quiet_NaN soft).2.2.2.2.2.2.2).map some ∧
  arrays.eventsize = (softs.map fun soft => (returned_constituents engine soft).length).map some ∧
  arrays.consts_px = ((softs.map (returned_constituents engine)).flatten.map (·.px)).map some ∧
  arrays.consts_py = ((softs.map (returned_constituents engine)).flatten.map (·.py)).map some ∧
  arrays.consts_pz = ((softs.map (returned_constituents engine)).flatten.map (·.pz)).map some ∧
  arrays.consts_E = ((softs.map (returned_constituents engine)).flatten.map (·.E)).map some

/-- The lengths of the thirteen arrays for a batch with `total` exclusive jets:
the eight jet-level columns and `eventsize` have `total` cells, every cell of
`eventsize` is written, and the sum of the counts it holds is the common length
of the four constituent columns. -/
def GroomedLengths {R : Type} (arrays : GroomedArrays R) (total : Nat) : Prop :=
  arrays.jet_pt.length = total ∧ arrays.jet_eta.length = total ∧
  arrays.jet_phi.length = total ∧ arrays.jet_m.length = total ∧
  arrays.jet_E.length = total ∧ arrays.jet_pz.length = total ∧
  arrays.jet_delta_R.length = total ∧ arrays.jet_symmetry.length = total ∧
  arrays.eventsize.length = total ∧
  ∃ counts : List Nat, arrays.eventsize = counts.map some ∧
    counts.sum = arrays.consts_px.length ∧
    arrays.consts_py.length = arrays.consts_px.length ∧
    arrays.consts_pz.length = arrays.consts_px.length ∧
    arrays.consts_E.length = arrays.consts_px.length

/-- The lengths of the thirteen arrays, in the order of the tuple. -/
def GroomedArrays.lengths {R : Type} (arrays : GroomedArrays R) : List Nat :=
  [arrays.consts_px.length, arrays.consts_py.length, arrays.consts_pz.length,
   arrays.consts_E.length, arrays.eventsize.length, arrays.jet_pt.length,
   arrays.jet_eta.length, arrays.jet_phi.length, arrays.jet_m.length, arrays.jet_E.length,
   arrays.jet_pz.length, arrays.jet_delta_R.length, arrays.jet_symmetry.length]


/-- The thirteen arrays made from the rows of the groomed jets `softs`. -/
def groomed_arrays {R H CS : Type} (engine : SoftDropEngine R H CS) (quiet_NaN : R)
    (softs : List (PseudoJet R H)) : GroomedArrays R :=
  let v := push_rows engine quiet_NaN softs
    { consts_groomed_px := [], consts_groomed_py := [], consts_groomed_pz := [],
      consts_groomed_E := [], nconstituents := [], jet_groomed_pt := [],
      jet_groomed_eta := [], jet_groomed_phi := [], jet_groomed_m := [], jet_groomed_E := [],
      jet_groomed_pz := [], jet_groomed_delta_R := [], jet_groomed_symmetry := [] }
  { consts_px := v.consts_groomed_px.map some, consts_py := v.consts_groomed_py.map some,
    consts_pz := v.consts_groomed_pz.map some, consts_E := v.consts_groomed_E.map some,
    eventsize := v.nconstituents.map some, jet_pt := v.jet_groomed_pt.map some,
    jet_eta := v.jet_groomed_eta.map some, jet_phi := v.jet_groomed_phi.map some,
    jet_m := v.jet_groomed_m.map some, jet_E := v.jet_groomed_E.map some,
    jet_pz := v.jet_groomed_pz.map some, jet_delta_R := v.jet_groomed_delta_R.map some,
    jet_symmetry := v.jet_groomed_symmetry.map some }

/-- The engine's `constituents()` returns for every jet of the list. -/
def ConstituentsReturn {R H CS : Type} (engine : SoftDropEngine R H CS)
    (softs : List (PseudoJet R H)) : Prop :=
  ∀ soft ∈ softs, ∃ constituents, engine.constituents soft = .ok constituents
/-- The jet `incjets[indices[i]]` that a lambda with a supplied jet per event
works on for event `i`, whose cluster sequence is `cs`: the supplied jet is the
particle made from cell `i` of the four supplied buffers, its resolution against
the inclusive jets of `cs` succeeds with a position `k`, and `jet` is the
inclusive jet at `k`. -/
def ResolvedTarget {R H K CS : Type} [BEq K] (rapidity : R → R → R → R → K)
    (inclusive_jets : CS → R → List (PseudoJet R H)) [Zero R] (px py pz E : List R) (i : Nat)
    (cs : CS) (jet : PseudoJet R H) : Prop :=
  ∃ (x y z e : R) (k : Nat), px[i]? = some x ∧ py[i]? = some y ∧ pz[i]? = some z ∧
    E[i]? = some e ∧
    resolve_jet rapidity (inclusive_jets cs 0) (PseudoJet.ofMomentum x y z e) = .ok k ∧
    (inclusive_jets cs 0)[k]? = some jet


/-- What a constituent extraction returns for a batch whose events have the jets
`events`: the event offsets follow the RaggedArray convention for the jet counts
of the events, with last entry the total number of jets; the jet offsets have
one entry more than there are jets and follow the convention for the
constituent counts of the jets, numbered across events in order, with last
entry the number of cells of `parid` that were written; the written cells come
first in `parid`. -/
def ConstituentsNestedRagged {R H : Type}
    (res : Except Fault (Buffer Nat × Buffer Nat × Buffer Nat))
    (events : List (List (PseudoJet R H)))
    (constituents : PseudoJet R H → List (PseudoJet R H)) : Prop :=
  ∃ jetoffsets parid eventoffsets, res = .ok (jetoffsets, parid, eventoffsets) ∧
    RaggedOffsets eventoffsets (events.map List.length) events.flatten.length ∧
    jetoffsets.length = events.flatten.length + 1 ∧
    ∃ (written : List Nat) (slack : Nat), parid = filled written slack ∧
      RaggedOffsets jetoffsets (events.flatten.map fun jet => (constituents jet).length)
        written.length

/-- What a jet-list extraction for one resolved jet per event returns, whenever
it returns: the resolution gave one target per event, and the five buffers
follow the RaggedArray convention for events whose sizes are the numbers of
jets `rows` gives for the targets. -/
def ResolvedJetListRagged {R H C : Type}
    (res : Except Fault (Buffer R × Buffer R × Buffer R × Buffer R × Buffer Nat))
    (resolution : Except Fault (List C)) (rows : C → List (PseudoJet R H))
    (eventCount : Nat) : Prop :=
  Fails res ∨
    ∃ targets, resolution = .ok targets ∧ targets.length = eventCount ∧
      JetListRagged res (targets.map fun target => (rows target).length)

/-- What a one-value-per-resolved-jet lambda returns, whenever it returns: the
offsets follow the RaggedArray convention for `eventCount` events of one value
each, with last entry `eventCount`, and the first `eventCount` cells of the value
buffer are written. -/
def ResolvedScalarOffsets {V : Type} (res : Except Fault (Buffer V × Buffer Nat))
    (eventCount : Nat) : Prop :=
  Fails res ∨
    ∃ out_value off, res = .ok (out_value, off) ∧
      RaggedOffsets off (List.replicate eventCount 1) eventCount ∧
      eventCount ≤ out_value.length ∧
      ∀ i, i < eventCount → ∃ v, out_value[i]? = some (some v)

/-! # Theorems -/

/-! ## The jet-list encoder -/

@[simp] theorem except_ok_bind {ε α β : Type} (a : α) (f : α → Except ε β) :
    (Except.ok a >>= f) = f a := rfl

theorem filled_length {β : Type} (vals : List β) (k : Nat) :
    (filled vals k).length = vals.length + k := by
  simp [filled]

theorem buf_store_filled {β : Type} (vals : List β) (k : Nat) (v : β) :
    buf_store (filled vals (k + 1)) vals.length v = .ok (filled (vals ++ [v]) k) := by
  have h : vals.length < (filled vals (k + 1)).length := by
    rw [filled_length]; omega
  unfold buf_store
  rw [if_pos h]
  congr 1
  simp [filled, List.set_append, List.replicate_succ]

theorem buf_load_filled {β : Type} (vals : List β) (k i : Nat) (v : β)
    (h : vals[i]? = some v) : buf_load (filled vals k) i = .ok v := by
  have hi : i < vals.length := by
    by_contra hc
    rw [List.getElem?_eq_none (by omega)] at h
    cases h
  unfold buf_load filled
  rw [List.getElem?_append_left (by simpa using hi)]
  simp [h]

theorem write_jets_filled {R H : Type} (jets : List (PseudoJet R H)) :
    ∀ (done : List (PseudoJet R H)) (k : Nat),
      write_jets jets (cols_filled done (jets.length + k)) done.length
        = .ok (cols_filled (done ++ jets) k, done.length + jets.length) := by
  induction jets with
  | nil => intro done k; simp [write_jets]
  | cons jet jets ih =>
    intro done k
    have e : (jet :: jets).length + k = (jets.length + k) + 1 := by simp; omega
    have hpx := buf_store_filled (done.map (·.px)) (jets.length + k) jet.px
    have hpy := buf_store_filled (done.map (·.py)) (jets.length + k) jet.py
    have hpz := buf_store_filled (done.map (·.pz)) (jets.length + k) jet.pz
    have hE := buf_store_filled (done.map (·.E)) (jets.length + k) jet.E
    simp only [List.length_map] at hpx hpy hpz hE
    rw [e]
    simp only [write_jets, cols_filled, hpx, hpy, hpz, hE, except_ok_bind]
    have := ih (done ++ [jet]) k
    simp only [cols_filled, List.map_append, List.map_cons, List.map_nil, List.length_append,
      List.length_cons, List.length_nil, List.append_assoc, List.singleton_append] at this ⊢
    rw [this]
    congr 2
    omega

theorem jets_loop_filled {R H CS : Type} (query : CS → List (PseudoJet R H)) (css : List CS) :
    ∀ (done : List (PseudoJet R H)) (k : Nat) (pre : List Nat) (prev : Nat),
      jets_loop query css
          (cols_filled done ((css.map fun cs => (query cs).length).sum + k)) done.length
          (filled (pre ++ [prev]) css.length) (pre.length + 1)
        = .ok (cols_filled (done ++ (css.map query).flatten) k,
            done.length + (css.map fun cs => (query cs).length).sum,
            filled (pre ++ [prev] ++
              running_offsets prev (css.map fun cs => (query cs).length)) 0,
            pre.length + 1 + css.length) := by
  induction css with
  | nil => intro done k pre prev; simp [jets_loop, running_offsets]
  | cons cs css ih =>
    intro done k pre prev
    have hw := write_jets_filled (query cs) done
      ((css.map fun cs => (query cs).length).sum + k)
    have hl : buf_load (filled (pre ++ [prev]) (css.length + 1)) pre.length = .ok prev :=
      buf_load_filled _ _ _ _ (by simp)
    have hs := buf_store_filled (pre ++ [prev]) css.length ((query cs).length + prev)
    simp only [List.length_append, List.length_cons, List.length_nil] at hs
    have e : ((cs :: css).map fun cs => (query cs).length).sum + k
        = (query cs).length + ((css.map fun cs => (query cs).length).sum + k) := by
      simp; omega
    rw [e]
    simp only [jets_loop, hw, except_ok_bind, List.length_cons, Nat.add_sub_cancel, hl,
      Nat.zero_add, hs]
    have := ih (done ++ query cs) k (pre ++ [prev]) ((query cs).length + prev)
    simp only [List.length_append, List.length_cons, List.length_nil, Nat.zero_add] at this
    rw [this]
    simp [running_offsets]
    omega

theorem foldl_sizes {CS X : Type} (query : CS → List X) (css : List CS) (n : Nat) :
    css.foldl (fun jk cs => jk + (query cs).length) n
      = n + (css.map fun cs => (query cs).length).sum := by
  induction css generalizing n with
  | nil => simp
  | cons cs css ih => simp [ih]; omega

/-- The result of the shared body: the columns are the components of the
concatenated jet lists and the offsets are the running totals. -/
theorem jet_list_to_numpy_eq {R H CS : Type} (query : CS → List (PseudoJet R H))
    (css : List CS) :
    jet_list_to_numpy query css
      = .ok (((css.map query).flatten.map (·.px)).map some,
          ((css.map query).flatten.map (·.py)).map some,
          ((css.map query).flatten.map (·.pz)).map some,
          ((css.map query).flatten.map (·.E)).map some,
          (0 :: running_offsets 0 (css.map fun cs => (query cs).length)).map some) := by
  have h0 : buf_store (buf_alloc (css.length + 1)) 0 (0 : Nat)
      = .ok (filled [0] css.length) := by
    have := buf_store_filled ([] : List Nat) css.length 0
    simpa [filled, buf_alloc] using this
  have hl := jets_loop_filled query css [] 0 [] 0
  have hc : ∀ n : Nat, (JetColumns.mk (buf_alloc n) (buf_alloc n) (buf_alloc n) (buf_alloc n) :
      JetColumns R) = cols_filled ([] : List (PseudoJet R H)) (n + 0) := by
    intro n; simp [cols_filled, filled, buf_alloc]
  simp only [List.nil_append, List.length_nil, Nat.zero_add] at hl
  simp only [jet_list_to_numpy, foldl_sizes, Nat.zero_add, h0, except_ok_bind, hc, hl]
  simp [cols_filled, filled, pure, Except.pure]

theorem write_ids_filled (info : List Int) :
    ∀ (done : List Int) (k : Nat),
      write_ids info (filled done (info.length + k)) done.length
        = .ok (filled (done ++ info) k, done.length + info.length) := by
  induction info with
  | nil => intro done k; simp [write_ids]
  | cons id info ih =>
    intro done k
    have e : (id :: info).length + k = (info.length + k) + 1 := by simp; omega
    have hs := buf_store_filled done (info.length + k) id
    rw [e]
    simp only [write_ids, hs, except_ok_bind]
    have := ih (done ++ [id]) k
    simp only [List.length_append, List.length_cons, List.length_nil, List.append_assoc,
      List.singleton_append] at this ⊢
    rw [this]
    congr 2
    omega

theorem history_loop_filled {CS : Type} (query : CS → List Int) (css : List CS) :
    ∀ (done : List Int) (k : Nat) (pre : List Nat) (prev : Nat),
      history_loop query css
          (filled done ((css.map fun cs => (query cs).length).sum + k)) done.length
          (filled (pre ++ [prev]) css.length) (pre.length + 1) prev
        = .ok (filled (done ++ (css.map query).flatten) k,
            done.length + (css.map fun cs => (query cs).length).sum,
            filled (pre ++ [prev] ++
              running_offsets prev (css.map fun cs => (query cs).length)) 0,
            pre.length + 1 + css.length,
            (prev :: running_offsets prev (css.map fun cs => (query cs).length)).getLastD 0) := by
  induction css with
  | nil => intro done k pre prev; simp [history_loop, running_offsets]
  | cons cs css ih =>
    intro done k pre prev
    have hw := write_ids_filled (query cs) done
      ((css.map fun cs => (query cs).length).sum + k)
    have hs := buf_store_filled (pre ++ [prev]) css.length ((query cs).length + prev)
    simp only [List.length_append, List.length_cons, List.length_nil] at hs
    have hl : buf_load (filled (pre ++ [prev] ++ [(query cs).length + prev]) css.length)
        (pre.length + 1) = .ok ((query cs).length + prev) := by
      apply buf_load_filled
      rw [List.getElem?_append_right (by simp)]
      simp
    have e : ((cs :: css).map fun cs => (query cs).length).sum + k
        = (query cs).length + ((css.map fun cs => (query cs).length).sum + k) := by
      simp; omega
    rw [e]
    simp only [history_loop, hw, except_ok_bind, List.length_cons, hl, Nat.zero_add, hs]
    have := ih (done ++ query cs) k (pre ++ [prev]) ((query cs).length + prev)
    simp only [List.length_append, List.length_cons, List.length_nil, Nat.zero_add] at this
    rw [this]
    simp [running_offsets]
    omega

/-- The result of `to_numpy_unique_history_order` in closed form. -/
theorem to_numpy_unique_history_order_eq {R H CS : Type} (query : CS → List Int)
    (ow : output_wrapper CS R H) :
    to_numpy_unique_history_order query ow
      = .ok ((ow.cse.map query).flatten.map some,
          (0 :: running_offsets 0 (ow.cse.map fun cs => (query cs).length)).map some) := by
  have h0 : buf_store (buf_alloc (ow.cse.length + 1)) 0 (0 : Nat)
      = .ok (filled [0] ow.cse.length) := by
    have := buf_store_filled ([] : List Nat) ow.cse.length 0
    simpa [filled, buf_alloc] using this
  have hl := history_loop_filled query ow.cse [] 0 [] 0
  have hc : ∀ n : Nat, (buf_alloc n : Buffer Int) = filled ([] : List Int) (n + 0) := by
    intro n; simp [filled, buf_alloc]
  simp only [List.nil_append, List.length_nil, Nat.zero_add] at hl
  simp only [to_numpy_unique_history_order, foldl_sizes, Nat.zero_add, h0, except_ok_bind,
    hc, hl]
  simp [filled, pure, Except.pure]

theorem running_offsets_getElem? (counts : List Nat) :
    ∀ (prev i : Nat), i ≤ counts.length →
      (prev :: running_offsets prev counts)[i]? = some (prev + (counts.take i).sum) := by
  induction counts with
  | nil => intro prev i hi; simp at hi; subst hi; simp [running_offsets]
  | cons n counts ih =>
    intro prev i hi
    cases i with
    | zero => simp
    | succ i =>
      have := ih (n + prev) i (by simpa using hi)
      simp only [running_offsets, List.getElem?_cons_succ, List.take_succ_cons, List.sum_cons]
      rw [this]; congr 1; omega

theorem running_offsets_length (counts : List Nat) :
    ∀ prev : Nat, (running_offsets prev counts).length = counts.length := by
  induction counts with
  | nil => intro prev; simp [running_offsets]
  | cons n counts ih => intro prev; simp [running_offsets, ih]

theorem sum_take_le (counts : List Nat) (i j : Nat) (h : i ≤ j) :
    (counts.take i).sum ≤ (counts.take j).sum := by
  induction counts generalizing i j with
  | nil => simp
  | cons n counts ih =>
    cases i with
    | zero => simp
    | succ i =>
      cases j with
      | zero => omega
      | succ j =>
        have := ih i j (by omega)
        simp only [List.take_succ_cons, List.sum_cons]; omega

theorem flatten_getElem? {X : Type} (events : List (List X)) :
    ∀ (i j : Nat) (evt : List X) (x : X), events[i]? = some evt → evt[j]? = some x →
      events.flatten[((events.map List.length).take i).sum + j]? = some x := by
  induction events with
  | nil => intro i j evt x h; simp at h
  | cons e events ih =>
    intro i j evt x h hx
    cases i with
    | zero =>
      simp only [List.getElem?_cons_zero, Option.some.injEq] at h
      subst h
      have hj : j < e.length := by
        by_contra hc
        rw [List.getElem?_eq_none (by omega)] at hx
        cases hx
      simp [List.getElem?_append_left hj, hx]
    | succ i =>
      simp only [List.getElem?_cons_succ] at h
      have := ih i j evt x h hx
      simp only [List.map_cons, List.take_succ_cons, List.sum_cons, List.flatten_cons]
      rw [List.getElem?_append_right (by omega)]
      rw [← this]; congr 1; omega

theorem ragged_running_offsets (counts : List Nat) :
    RaggedOffsets ((0 :: running_offsets 0 counts).map some) counts counts.sum := by
  have hg := running_offsets_getElem? counts 0
  refine ⟨_, rfl, by simp [running_offsets_length], by simp, ?_, ?_, ?_⟩
  · rw [List.pairwise_iff_getElem]
    intro i j hi hj hij
    have hlen : (0 :: running_offsets 0 counts).length = counts.length + 1 := by
      simp [running_offsets_length]
    have h1 := hg i (by omega)
    have h2 := hg j (by omega)
    rw [List.getElem?_eq_getElem hi] at h1
    rw [List.getElem?_eq_getElem hj] at h2
    simp only [Option.some.injEq] at h1 h2
    rw [h1, h2]
    have := sum_take_le counts i j (by omega)
    omega
  · intro i hi
    have h1 := hg i (by omega)
    have h2 := hg (i + 1) (by omega)
    simp only [List.getD_eq_getElem?_getD, h1, h2, Option.getD_some, Nat.zero_add]
    rw [List.sum_take_succ counts i hi, List.getElem?_eq_getElem hi]
    simp
  · have := hg counts.length (le_refl _)
    simpa using this

theorem jet_list_ragged {R H CS : Type} (query : CS → List (PseudoJet R H))
    (css : List CS) :
    JetListRagged (jet_list_to_numpy query css) (css.map fun cs => (query cs).length) := by
  refine ⟨_, _, _, _, _, jet_list_to_numpy_eq query css, ?_, ?_, ?_, ?_⟩
  · have h := ragged_running_offsets (css.map fun cs => (query cs).length)
    have e : (((css.map query).flatten.map (·.px)).map some).length
        = (css.map fun cs => (query cs).length).sum := by
      simp [List.length_flatten, Function.comp_def]
    rw [e]; exact h
  all_goals simp only [List.length_map]

theorem jet_columns_exact {R H CS : Type} (query : CS → List (PseudoJet R H))
    (css : List CS) :
    JetColumnsExact (jet_list_to_numpy query css) (css.map query) := by
  refine ⟨_, _, _, _, _, jet_list_to_numpy_eq query css, rfl, rfl, rfl, rfl, ?_⟩
  intro i j evt jet hi hj
  have hlen : i < (css.map query).length := by
    by_contra hc
    rw [List.getElem?_eq_none (by omega)] at hi
    cases hi
  have ho := running_offsets_getElem? (css.map fun cs => (query cs).length) 0 i
    (by simp at hlen ⊢; omega)
  have hf := flatten_getElem? (css.map query) i j evt jet hi hj
  have hc : (css.map query).map List.length = css.map fun cs => (query cs).length := by
    simp [Function.comp_def]
  rw [hc] at hf
  simp only [Nat.zero_add] at ho
  refine ⟨((css.map fun cs => (query cs).length).take i).sum, ?_, ?_, ?_, ?_, ?_⟩
  · rw [List.getElem?_map, ho]; rfl
  all_goals simp only [List.getElem?_map, hf, Option.map_some']

/-- C1.  For every batch handle, each of the nine jet-list extractions returns
its buffers (no fault), and the offsets follow the RaggedArray convention: they
have `eventCount + 1` entries, start at `0`, are non-decreasing, consecutive
entries differ by the number of items the engine returns for the event, and the
last entry is the length of every value column. -/
theorem jet_list_extractions_ragged {R H CS : Type} (ow : output_wrapper CS R H)
    (inclusive_jets : CS → R → List (PseudoJet R H)) (min_pt : R)
    (exclusive_jets_n : CS → Int → List (PseudoJet R H)) (n_jets : Int)
    (exclusive_jets_up_to : CS → Int → List (PseudoJet R H)) (n_up_to : Int)
    (exclusive_jets_d : CS → R → List (PseudoJet R H)) (dcut : R)
    (exclusive_jets_ycut : CS → R → List (PseudoJet R H)) (ycut : R)
    (unclustered_particles childless_pseudojets jets : CS → List (PseudoJet R H))
    (unique_history_order : CS → List Int) :
    JetListRagged (to_numpy inclusive_jets ow min_pt)
        (ow.cse.map fun cs => (inclusive_jets cs min_pt).length) ∧
      JetListRagged (to_numpy_exclusive_njet exclusive_jets_n ow n_jets)
        (ow.cse.map fun cs => (exclusive_jets_n cs n_jets).length) ∧
      JetListRagged (to_numpy_exclusive_njet_up_to exclusive_jets_up_to ow n_up_to)
        (ow.cse.map fun cs => (exclusive_jets_up_to cs n_up_to).length) ∧
      JetListRagged (to_numpy_exclusive_dcut exclusive_jets_d ow dcut)
        (ow.cse.map fun cs => (exclusive_jets_d cs dcut).length) ∧
      JetListRagged (to_numpy_exclusive_ycut exclusive_jets_ycut ow ycut)
        (ow.cse.map fun cs => (exclusive_jets_ycut cs ycut).length) ∧
      JetListRagged (to_numpy_unclustered_particles unclustered_particles ow)
        (ow.cse.map fun cs => (unclustered_particles cs).length) ∧
      JetListRagged (to_numpy_childless_pseudojets childless_pseudojets ow)
        (ow.cse.map fun cs => (childless_pseudojets cs).length) ∧
      JetListRagged (to_numpy_jets jets ow) (ow.cse.map fun cs => (jets cs).length) ∧
      IdListRagged (to_numpy_unique_history_order unique_history_order ow)
        (ow.cse.map fun cs => (unique_history_order cs).length) := by
  refine ⟨jet_list_ragged _ ow.cse, jet_list_ragged _ ow.cse, jet_list_ragged _ ow.cse,
    jet_list_ragged _ ow.cse, jet_list_ragged _ ow.cse, jet_list_ragged _ ow.cse, jet_list_ragged _ ow.cse,
    jet_list_ragged _ ow.cse, ?_⟩
  refine ⟨_, _, to_numpy_unique_history_order_eq unique_history_order ow, ?_⟩
  have h := ragged_running_offsets (ow.cse.map fun cs => (unique_history_order cs).length)
  have e : ((ow.cse.map unique_history_order).flatten.map some).length
      = (ow.cse.map fun cs => (unique_history_order cs).length).sum := by
    simp [List.length_flatten, Function.comp_def]
  rw [e]; exact h

/-- C2.  For `to_numpy` and the seven other four-momentum jet-list extractions
sharing its loop, the value columns are the concatenation, in event order and
in the engine's order, of the components of the per-event jet lists, and the
cells `off[i] + j` of `px`, `py`, `pz`, `E` hold the four components of the
`j`-th jet the engine returns for event `i`. -/
theorem jet_list_extractions_exact {R H CS : Type} (ow : output_wrapper CS R H)
    (inclusive_jets : CS → R → List (PseudoJet R H)) (min_pt : R)
    (exclusive_jets_n : CS → Int → List (PseudoJet R H)) (n_jets : Int)
    (exclusive_jets_up_to : CS → Int → List (PseudoJet R H)) (n_up_to : Int)
    (exclusive_jets_d : CS → R → List (PseudoJet R H)) (dcut : R)
    (exclusive_jets_ycut : CS → R → List (PseudoJet R H)) (ycut : R)
    (unclustered_particles childless_pseudojets jets : CS → List (PseudoJet R H)) :
    JetColumnsExact (to_numpy inclusive_jets ow min_pt)
        (ow.cse.map fun cs => inclusive_jets cs min_pt) ∧
      JetColumnsExact (to_numpy_exclusive_njet exclusive_jets_n ow n_jets)
        (ow.cse.map fun cs => exclusive_jets_n cs n_jets) ∧
      JetColumnsExact (to_numpy_exclusive_njet_up_to exclusive_jets_up_to ow n_up_to)
        (ow.cse.map fun cs => exclusive_jets_up_to cs n_up_to) ∧
      JetColumnsExact (to_numpy_exclusive_dcut exclusive_jets_d ow dcut)
        (ow.cse.map fun cs => exclusive_jets_d cs dcut) ∧
      JetColumnsExact (to_numpy_exclusive_ycut exclusive_jets_ycut ow ycut)
        (ow.cse.map fun cs => exclusive_jets_ycut cs ycut) ∧
      JetColumnsExact (to_numpy_unclustered_particles unclustered_particles ow)
        (ow.cse.map unclustered_particles) ∧
      JetColumnsExact (to_numpy_childless_pseudojets childless_pseudojets ow)
        (ow.cse.map childless_pseudojets) ∧
      JetColumnsExact (to_numpy_jets jets ow) (ow.cse.map jets) :=
  ⟨jet_columns_exact _ ow.cse, jet_columns_exact _ ow.cse, jet_columns_exact _ ow.cse,
    jet_columns_exact _ ow.cse, jet_columns_exact _ ow.cse, jet_columns_exact _ ow.cse,
    jet_columns_exact _ ow.cse, jet_columns_exact _ ow.cse⟩

/-! ## The batch builder -/

theorem to_size_t_int_sub_of_le (start stop : Int) (h : start ≤ stop)
    (h2 : stop - start < 2 ^ 31) : to_size_t (int_sub stop start) = (stop - start).toNat := by
  unfold to_size_t int_sub Int.bmod
  have e : (stop - start) % ((2 ^ 32 : Nat) : Int) = stop - start :=
    Int.emod_eq_of_lt (by omega) (by norm_num; omega)
  rw [e]
  have : stop - start < (((2 ^ 32 : Nat) : Int) + 1) / 2 := by norm_num; omega
  rw [if_pos this]
  congr 1
  exact Int.emod_eq_of_lt (by omega) (by omega)

theorem reserve_of_le (lim : VectorLimits) (start stop : Int) (h : start ≤ stop)
    (h2 : stop - start < 2 ^ 31) : reserve lim (to_size_t (int_sub stop start)) = .ok () := by
  rw [to_size_t_int_sub_of_le start stop h h2]
  unfold reserve
  have := lim.int_max_lt
  rw [if_neg]
  omega

theorem reserve_of_lt (lim : VectorLimits) (start stop : Int) (h : stop < start)
    (h2 : -(2 ^ 31) ≤ stop - start) :
    reserve lim (to_size_t (int_sub stop start)) = .error .length_error := by
  have e1 : int_sub stop start = stop - start := by
    unfold int_sub Int.bmod
    have e : (stop - start) % ((2 ^ 32 : Nat) : Int) = stop - start + 2 ^ 32 := by
      norm_num
      omega
    rw [e]
    have : ¬ stop - start + 2 ^ 32 < (((2 ^ 32 : Nat) : Int) + 1) / 2 := by norm_num; omega
    rw [if_neg this]
    norm_num
  have e2 : to_size_t (stop - start) = (stop - start + 2 ^ 64).toNat := by
    unfold to_size_t
    congr 1
    omega
  rw [e1, e2]
  unfold reserve
  have := lim.max_size_lt
  rw [if_pos]
  omega

/-- C3 (code defect).  With `px = [10, 11]`, `starts = [1]`, `stops = [2]` the
particle retained for event 0 is the one of buffer index 0, while the slice
`[starts[0], stops[0])` of the buffers is the particle of index 1: the builder
reads from the start of the buffers, whatever `starts[0]` is. -/
theorem interfacemulti_reads_from_buffer_start {CS : Type} (lim : VectorLimits)
    (cluster : List (PseudoJet Int Unit) → Unit → CS) :
    interfacemulti lim cluster [10, 11] [20, 21] [30, 31] [40, 41] [1] [2] ()
        = .ok { cse := [cluster [PseudoJet.ofMomentum 10 20 30 40] ()],
                parts := [[PseudoJet.ofMomentum 10 20 30 40]] } ∧
      slice_particles [10, 11] [20, 21] [30, 31] [40, 41] 1 2
        = [(PseudoJet.ofMomentum 11 21 31 41 : PseudoJet Int Unit)] := by
  constructor
  · simp [interfacemulti, build_events, reserve_of_le, read_particles]
  · rfl

/-- C4 (code defect).  With buffers of length `N = 1` and the two overlapping
slices `[0, 1)` and `[0, 1)`, which satisfy `0 ≤ starts[i] ≤ stops[i] ≤ N`, the
builder reads the buffers at index 1, outside `[0, N)`. -/
theorem interfacemulti_overlap_out_of_bounds {CS : Type} (lim : VectorLimits)
    (cluster : List (PseudoJet Int Unit) → Unit → CS) :
    interfacemulti lim cluster [10] [20] [30] [40] [0, 0] [1, 1] ()
      = .error .out_of_bounds := by
  simp [interfacemulti, build_events, reserve_of_le, read_particles]

/-- C5 (code defect).  With one event whose `stops[0] = 0` is below
`starts[0] = 1`, the call fails: `particles.reserve(*stopsptr - *startsptr)`
receives `-1` converted to `size_t` and throws `std::length_error`. -/
theorem interfacemulti_reversed_slice_fails {CS : Type} (lim : VectorLimits)
    (cluster : List (PseudoJet Int Unit) → Unit → CS) :
    interfacemulti lim cluster [10] [20] [30] [40] [1] [0] ()
      = .error .length_error := by
  simp [interfacemulti, build_events, reserve_of_lt]

/-! ## Jet identity resolution -/

/-- The comparison of `Dbl` is symmetric and transitive, as `==` on `double`. -/
instance : PartialEquivBEq Dbl where
  symm := by
    intro a b h
    cases a <;> cases b <;> simp_all [BEq.beq, Dbl.beq]
  trans := by
    intro a b c h1 h2
    cases a <;> cases b <;> cases c <;> simp_all [BEq.beq, Dbl.beq]

theorem umap_find_fill_umap {R H K : Type} [BEq K] [PartialEquivBEq K]
    (rapidity : R → R → R → R → K) (key : K) (jets : List (PseudoJet R H)) :
    ∀ (j : Nat) (umap : List (K × Nat)),
      (umap_find (fill_umap rapidity jets j umap) key).map Prod.snd
        = match umap_find umap key with
          | some got => some got.2
          | none => (first_rap_index rapidity key jets).map (· + j) := by
  induction jets with
  | nil =>
    intro j umap
    cases h : umap_find umap key <;> simp [fill_umap, first_rap_index, h]
  | cons jet jets ih =>
    intro j umap
    rw [fill_umap, ih]
    by_cases hany : (umap.any fun entry => entry.1 == jet.rap rapidity) = true
    · -- the table already has an entry for the rapidity of `jet`
      rw [umap_insert, if_pos hany]
      cases h : umap_find umap key with
      | some got => rfl
      | none =>
        have hne : (jet.rap rapidity == key) = false := by
          cases hk : jet.rap rapidity == key with
          | false => rfl
          | true =>
            obtain ⟨entry, hmem, he⟩ := List.any_eq_true.mp hany
            have := List.find?_eq_none.mp h entry hmem
            exact absurd (BEq.trans he hk) this
        simp only [first_rap_index, hne, Bool.false_eq_true, if_false, Option.map_map]
        congr 1
        funext k
        simp only [Function.comp_apply]
        omega
    · -- a new entry `(jet.rap(), j)` is appended
      rw [umap_insert, if_neg hany]
      simp only [umap_find, List.find?_append] at *
      cases h : umap.find? (fun entry => entry.1 == key) with
      | some got => simp
      | none =>
        cases hk : jet.rap rapidity == key with
        | true => simp [first_rap_index, hk, List.find?]
        | false =>
          simp only [first_rap_index, hk, List.find?, Option.or, Bool.false_eq_true, if_false,
            Option.map_map]
          congr 1
          funext k
          simp only [Function.comp_apply]
          omega

theorem resolve_jet_eq {R H K : Type} [BEq K] [PartialEquivBEq K]
    (rapidity : R → R → R → R → K) (jets : List (PseudoJet R H)) (particle : PseudoJet R H) :
    resolve_jet rapidity jets particle
      = match first_rap_index rapidity (particle.rap rapidity) jets with
        | some k => .ok k
        | none => .error .jet_not_found := by
  have h := umap_find_fill_umap rapidity (particle.rap rapidity) jets 0 []
  simp only [umap_find, List.find?_nil, Nat.add_zero, Option.map_id'] at h
  unfold resolve_jet
  simp only [umap_find]
  cases hf : List.find? (fun entry => entry.1 == particle.rap rapidity)
      (fill_umap rapidity jets 0 []) with
  | none => rw [hf] at h; simp at h; rw [← h]
  | some got => rw [hf] at h; simp at h; rw [← h]

theorem first_rap_index_some {R H K : Type} [BEq K] (rapidity : R → R → R → R → K) (key : K)
    (jets : List (PseudoJet R H)) :
    ∀ k, first_rap_index rapidity key jets = some k →
      (∃ jet, jets[k]? = some jet ∧ (jet.rap rapidity == key) = true) ∧
      ∀ i jet, i < k → jets[i]? = some jet → (jet.rap rapidity == key) = false := by
  induction jets with
  | nil => intro k h; simp [first_rap_index] at h
  | cons jet jets ih =>
    intro k h
    unfold first_rap_index at h
    by_cases hk : (jet.rap rapidity == key) = true
    · rw [if_pos hk] at h
      cases h
      exact ⟨⟨jet, by simp, hk⟩, fun i _ hi => absurd hi (Nat.not_lt_zero i)⟩
    · rw [if_neg hk] at h
      obtain ⟨k', hk', rfl⟩ := Option.map_eq_some'.mp h
      obtain ⟨h1, h2⟩ := ih k' hk'
      refine ⟨by simpa using h1, ?_⟩
      intro i jet' hi hjet
      cases i with
      | zero =>
        simp only [List.getElem?_cons_zero, Option.some.injEq] at hjet
        subst hjet
        simpa using hk
      | succ i => exact h2 i jet' (by omega) (by simpa using hjet)

theorem first_rap_index_none {R H K : Type} [BEq K] (rapidity : R → R → R → R → K) (key : K)
    (jets : List (PseudoJet R H)) :
    first_rap_index rapidity key jets = none ↔
      ∀ jet ∈ jets, (jet.rap rapidity == key) = false := by
  induction jets with
  | nil => simp [first_rap_index]
  | cons jet jets ih =>
    unfold first_rap_index
    by_cases hk : (jet.rap rapidity == key) = true
    · simp [hk]
    · simp only [if_neg hk, Option.map_eq_none', ih, List.mem_cons, forall_eq_or_imp]
      simp only [Bool.not_eq_true] at hk
      simp [hk]

theorem read_particles_ok {R H : Type} (px py pz E : List R) :
    ∀ (n c : Nat) (acc : List (PseudoJet R H)),
      c + n ≤ px.length → c + n ≤ py.length → c + n ≤ pz.length → c + n ≤ E.length →
      ∃ ps : List (PseudoJet R H),
        read_particles px py pz E n c acc = .ok (acc ++ ps, c + n) ∧ ps.length = n ∧
        ∀ (k : Nat) (x y z e : R), px[c + k]? = some x → py[c + k]? = some y →
          pz[c + k]? = some z → E[c + k]? = some e → k < n →
          ps[k]? = some (PseudoJet.ofMomentum x y z e) := by
  intro n
  induction n with
  | zero =>
    intro c acc _ _ _ _
    exact ⟨[], by simp [read_particles], rfl, fun k _ _ _ _ _ _ _ _ hk => absurd hk (by omega)⟩
  | succ n ih =>
    intro c acc h1 h2 h3 h4
    obtain ⟨x, hx⟩ : ∃ x, px[c]? = some x := ⟨px[c], List.getElem?_eq_getElem (by omega)⟩
    obtain ⟨y, hy⟩ : ∃ y, py[c]? = some y := ⟨py[c], List.getElem?_eq_getElem (by omega)⟩
    obtain ⟨z, hz⟩ : ∃ z, pz[c]? = some z := ⟨pz[c], List.getElem?_eq_getElem (by omega)⟩
    obtain ⟨e, he⟩ : ∃ e, E[c]? = some e := ⟨E[c], List.getElem?_eq_getElem (by omega)⟩
    obtain ⟨ps, hps, hlen, hget⟩ := ih (c + 1) (acc ++ [PseudoJet.ofMomentum x y z e])
      (by omega) (by omega) (by omega) (by omega)
    refine ⟨PseudoJet.ofMomentum x y z e :: ps, ?_, by simp [hlen], ?_⟩
    · simp only [read_particles, hx, hy, hz, he, hps, List.append_assoc, List.singleton_append]
      congr 2
      omega
    · intro k x' y' z' e' hx' hy' hz' he' hk
      cases k with
      | zero =>
        simp only [Nat.add_zero] at hx' hy' hz' he'
        rw [hx] at hx'; rw [hy] at hy'; rw [hz] at hz'; rw [he] at he'
        cases hx'; cases hy'; cases hz'; cases he'
        simp
      | succ k =>
        have e1 : c + (k + 1) = c + 1 + k := by omega
        rw [e1] at hx' hy' hz' he'
        simpa using hget k x' y' z' e' hx' hy' hz' he' (by omega)

theorem resolve_jet_error {R H K : Type} [BEq K] (rapidity : R → R → R → R → K)
    (jets : List (PseudoJet R H)) (particle : PseudoJet R H) (f : Fault)
    (h : resolve_jet rapidity jets particle = .error f) : f = .jet_not_found := by
  unfold resolve_jet at h
  split at h
  · cases h; rfl
  · cases h

theorem resolve_indices_fails {R H K CS : Type} [BEq K] [Zero R]
    (rapidity : R → R → R → R → K) (inclusive_jets : CS → R → List (PseudoJet R H))
    (particles : List (PseudoJet R H)) (css : List CS) :
    ∀ (i0 i : Nat) (cs : CS) (particle : PseudoJet R H),
      css[i]? = some cs → particles[i0 + i]? = some particle →
      resolve_jet rapidity (inclusive_jets cs 0) particle = .error .jet_not_found →
      resolve_indices rapidity inclusive_jets particles css i0 = .error .jet_not_found := by
  induction css with
  | nil => intro i0 i cs particle h; simp at h
  | cons c css ih =>
    intro i0 i cs particle hcs hp hres
    have hlt : i0 + i < particles.length := by
      by_contra hc
      rw [List.getElem?_eq_none (by omega)] at hp
      cases hp
    cases i with
    | zero =>
      simp only [List.getElem?_cons_zero, Option.some.injEq] at hcs
      subst hcs
      simp only [Nat.add_zero] at hp
      simp [resolve_indices, hp, hres]
    | succ i =>
      simp only [List.getElem?_cons_succ] at hcs
      have e1 : i0 + (i + 1) = i0 + 1 + i := by omega
      rw [e1] at hp
      have hrec := ih (i0 + 1) i cs particle hcs hp hres
      obtain ⟨p0, h0⟩ : ∃ p0, particles[i0]? = some p0 :=
        ⟨particles[i0], List.getElem?_eq_getElem (by omega)⟩
      simp only [resolve_indices, h0]
      cases hr : resolve_jet rapidity (inclusive_jets c 0) p0 with
      | error f => rw [resolve_jet_error rapidity _ _ f hr]
      | ok index => simp only [hrec]

theorem resolve_all_fails {R H K CS : Type} [BEq K] [Zero R]
    (rapidity : R → R → R → R → K) (inclusive_jets : CS → R → List (PseudoJet R H))
    (ow : output_wrapper CS R H) (px py pz E : List R)
    (hpy : py.length = px.length) (hpz : pz.length = px.length) (hE : E.length = px.length)
    (i : Nat) (cs : CS) (x y z e : R) (hcs : ow.cse[i]? = some cs)
    (hx : px[i]? = some x) (hy : py[i]? = some y) (hz : pz[i]? = some z) (he : E[i]? = some e)
    (hres : resolve_jet rapidity (inclusive_jets cs 0) (PseudoJet.ofMomentum x y z e)
      = .error .jet_not_found) :
    resolve_all rapidity inclusive_jets ow px py pz E = .error .jet_not_found := by
  obtain ⟨ps, hps, _, hget⟩ := read_particles_ok (H := H) px py pz E px.length 0 []
    (by omega) (by omega) (by omega) (by omega)
  have hi : i < px.length := by
    by_contra hc
    rw [List.getElem?_eq_none (by omega)] at hx
    cases hx
  have hp := hget i x y z e (by simpa using hx) (by simpa using hy) (by simpa using hz)
    (by simpa using he) hi
  have hf := resolve_indices_fails rapidity inclusive_jets ps ow.cse 0 i cs _ hcs
    (by simpa using hp) hres
  simp only [List.nil_append] at hps
  simp only [resolve_all, hps, bind, Except.bind, hf]

/-- C7.  The resolution of an event throws `"Jet Not in this ClusterSequence"`
if and only if no inclusive jet of the event has a rapidity that compares equal
to the rapidity of the supplied jet; in particular a supplied four-momentum
`(0, 0, 0, 0)` whose rapidity matches no inclusive jet makes it throw. -/
theorem resolve_jet_fails_iff {R H K : Type} [BEq K] [PartialEquivBEq K] [Zero R]
    (rapidity : R → R → R → R → K) (jets : List (PseudoJet R H)) (particle : PseudoJet R H) :
    (resolve_jet rapidity jets particle = .error .jet_not_found ↔
        ∀ jet ∈ jets, (jet.rap rapidity == particle.rap rapidity) = false) ∧
      ((∀ jet ∈ jets, (jet.rap rapidity == rapidity 0 0 0 0) = false) →
        resolve_jet rapidity jets (PseudoJet.ofMomentum 0 0 0 0) = .error .jet_not_found) := by
  have key : ∀ p : PseudoJet R H, resolve_jet rapidity jets p = .error .jet_not_found ↔
      ∀ jet ∈ jets, (jet.rap rapidity == p.rap rapidity) = false := by
    intro p
    rw [resolve_jet_eq, ← first_rap_index_none]
    cases first_rap_index rapidity (p.rap rapidity) jets <;> simp
  exact ⟨key particle, fun h => (key _).mpr h⟩

/-- C7, worked example: the rapidity of `(0, 0, 0, 0)` is none of the two jets'. -/
theorem resolve_jet_fails_iff_witness :
    resolve_jet (fun _ _ pz _ => pz)
        [PseudoJet.mk 1 0 5 9 (some ()), PseudoJet.mk 2 0 7 9 (some ())]
        (PseudoJet.ofMomentum (0 : Int) 0 0 0) = .error .jet_not_found :=
  (resolve_jet_fails_iff (fun _ _ pz _ => pz)
    [PseudoJet.mk 1 0 5 9 (some ()), PseudoJet.mk 2 0 7 9 (some ())]
    (PseudoJet.ofMomentum (0 : Int) 0 0 0)).2 (by decide)

/-- C8 (as amended).  Self-lookup: resolving the four-momentum of the `j`-th
inclusive jet of an event against that event succeeds, provided the rapidity of
that jet compares equal to itself, that is, is not NaN. -/
theorem self_lookup_succeeds {R H K : Type} [BEq K] [PartialEquivBEq K]
    (rapidity : R → R → R → R → K) (jets : List (PseudoJet R H)) (j : Nat)
    (jet : PseudoJet R H) (h : jets[j]? = some jet)
    (hnum : (jet.rap rapidity == jet.rap rapidity) = true) :
    ∃ k, resolve_jet rapidity jets (PseudoJet.ofMomentum jet.px jet.py jet.pz jet.E)
      = .ok k := by
  rw [resolve_jet_eq]
  cases hf : first_rap_index rapidity
      ((PseudoJet.ofMomentum jet.px jet.py jet.pz jet.E : PseudoJet R H).rap rapidity) jets with
  | some k => exact ⟨k, rfl⟩
  | none =>
    have := (first_rap_index_none rapidity _ jets).mp hf jet (List.mem_iff_getElem?.mpr ⟨j, h⟩)
    simp only [PseudoJet.rap, PseudoJet.ofMomentum] at this hnum
    rw [hnum] at this
    cases this

/-- C8, worked example: the second of two jets; the rapidity of the first is NaN,
the rapidity of the second is a number. -/
theorem self_lookup_succeeds_witness :
    [PseudoJet.mk (Dbl.num 1) (Dbl.num 0) Dbl.nan (Dbl.num 9) (some ()),
        PseudoJet.mk (Dbl.num 2) (Dbl.num 0) (Dbl.num 7) (Dbl.num 9) (some ())][1]?
        = some (PseudoJet.mk (Dbl.num 2) (Dbl.num 0) (Dbl.num 7) (Dbl.num 9) (some ())) ∧
      ∃ k, resolve_jet (fun _ _ pz _ => pz)
        [PseudoJet.mk (Dbl.num 1) (Dbl.num 0) Dbl.nan (Dbl.num 9) (some ()),
          PseudoJet.mk (Dbl.num 2) (Dbl.num 0) (Dbl.num 7) (Dbl.num 9) (some ())]
        (PseudoJet.ofMomentum (Dbl.num 2) (Dbl.num 0) (Dbl.num 7) (Dbl.num 9)) = .ok k :=
  ⟨rfl, self_lookup_succeeds (fun _ _ pz _ => pz)
    [PseudoJet.mk (Dbl.num 1) (Dbl.num 0) Dbl.nan (Dbl.num 9) (some ()),
      PseudoJet.mk (Dbl.num 2) (Dbl.num 0) (Dbl.num 7) (Dbl.num 9) (some ())] 1
    (PseudoJet.mk (Dbl.num 2) (Dbl.num 0) (Dbl.num 7) (Dbl.num 9) (some ())) rfl rfl⟩

/-- C8 as stated fails: an event whose only inclusive jet has a NaN rapidity (its
`pz` is NaN, and the rapidity of the example is `pz`).  The table receives the
entry `(NaN, 0)`, the lookup of NaN compares unequal to it, and the call throws;
no index is returned. -/
theorem self_lookup_fails_for_nan :
    [PseudoJet.mk (Dbl.num 1) (Dbl.num 0) Dbl.nan (Dbl.num 1) (some ())][0]?
        = some (PseudoJet.mk (Dbl.num 1) (Dbl.num 0) Dbl.nan (Dbl.num 1) (some ())) ∧
      resolve_jet (fun _ _ pz _ => pz)
        [PseudoJet.mk (Dbl.num 1) (Dbl.num 0) Dbl.nan (Dbl.num 1) (some ())]
        (PseudoJet.ofMomentum (Dbl.num 1) (Dbl.num 0) Dbl.nan (Dbl.num 1))
        = .error .jet_not_found ∧
      ¬ ∃ k, resolve_jet (fun _ _ pz _ => pz)
        [PseudoJet.mk (Dbl.num 1) (Dbl.num 0) Dbl.nan (Dbl.num 1) (some ())]
        (PseudoJet.ofMomentum (Dbl.num 1) (Dbl.num 0) Dbl.nan (Dbl.num 1)) = .ok k := by
  refine ⟨rfl, rfl, ?_⟩
  rintro ⟨k, hk⟩
  cases hk

/-- C9 (as amended).  Round trip: when the rapidities of the inclusive jets of an
event are pairwise distinct and the rapidity of the `j`-th jet compares equal to
itself (is not NaN), resolving the four-momentum of the `j`-th inclusive jet
returns exactly `j`. -/
theorem self_lookup_returns_position {R H K : Type} [BEq K] [PartialEquivBEq K]
    (rapidity : R → R → R → R → K) (jets : List (PseudoJet R H))
    (hdistinct : jets.Pairwise fun a b => (a.rap rapidity == b.rap rapidity) = false)
    (j : Nat) (jet : PseudoJet R H) (h : jets[j]? = some jet)
    (hnum : (jet.rap rapidity == jet.rap rapidity) = true) :
    resolve_jet rapidity jets (PseudoJet.ofMomentum jet.px jet.py jet.pz jet.E) = .ok j := by
  have hj : j < jets.length := by
    by_contra hc
    rw [List.getElem?_eq_none (by omega)] at h
    cases h
  have hkey : (PseudoJet.ofMomentum jet.px jet.py jet.pz jet.E : PseudoJet R H).rap rapidity
      = jet.rap rapidity := rfl
  rw [resolve_jet_eq, hkey]
  cases hf : first_rap_index rapidity (jet.rap rapidity) jets with
  | none =>
    have := (first_rap_index_none rapidity _ jets).mp hf jet (List.mem_iff_getElem?.mpr ⟨j, h⟩)
    rw [hnum] at this
    cases this
  | some k =>
    obtain ⟨⟨jet', hjet', hk⟩, hmin⟩ := first_rap_index_some rapidity _ jets k hf
    have hk' : k < jets.length := by
      by_contra hc
      rw [List.getElem?_eq_none (by omega)] at hjet'
      cases hjet'
    rcases Nat.lt_trichotomy k j with hlt | heq | hgt
    · have := (List.pairwise_iff_getElem.mp hdistinct) k j hk' hj hlt
      rw [List.getElem?_eq_getElem hk'] at hjet'
      rw [List.getElem?_eq_getElem hj] at h
      cases hjet'; cases h
      rw [hk] at this
      cases this
    · rw [heq]
    · have := hmin j jet hgt h
      rw [hnum] at this
      cases this

/-- C9, worked example: three jets of distinct rapidities, the first of them NaN;
the third is found at position 2. -/
theorem self_lookup_returns_position_witness :
    ([PseudoJet.mk (Dbl.num 1) (Dbl.num 0) Dbl.nan (Dbl.num 9) (some ()),
        PseudoJet.mk (Dbl.num 2) (Dbl.num 0) (Dbl.num 7) (Dbl.num 9) (some ()),
        PseudoJet.mk (Dbl.num 3) (Dbl.num 0) (Dbl.num 8) (Dbl.num 9) (some ())].Pairwise
        fun a b => (a.rap (fun _ _ pz _ => pz) == b.rap (fun _ _ pz _ => pz)) = false) ∧
      resolve_jet (fun _ _ pz _ => pz)
        [PseudoJet.mk (Dbl.num 1) (Dbl.num 0) Dbl.nan (Dbl.num 9) (some ()),
          PseudoJet.mk (Dbl.num 2) (Dbl.num 0) (Dbl.num 7) (Dbl.num 9) (some ()),
          PseudoJet.mk (Dbl.num 3) (Dbl.num 0) (Dbl.num 8) (Dbl.num 9) (some ())]
        (PseudoJet.ofMomentum (Dbl.num 3) (Dbl.num 0) (Dbl.num 8) (Dbl.num 9)) = .ok 2 :=
  ⟨by decide, self_lookup_returns_position (fun _ _ pz _ => pz)
    [PseudoJet.mk (Dbl.num 1) (Dbl.num 0) Dbl.nan (Dbl.num 9) (some ()),
      PseudoJet.mk (Dbl.num 2) (Dbl.num 0) (Dbl.num 7) (Dbl.num 9) (some ()),
      PseudoJet.mk (Dbl.num 3) (Dbl.num 0) (Dbl.num 8) (Dbl.num 9) (some ())] (by decide) 2
    (PseudoJet.mk (Dbl.num 3) (Dbl.num 0) (Dbl.num 8) (Dbl.num 9) (some ())) rfl rfl⟩

/-- C9 as stated fails: two inclusive jets whose rapidities, NaN and 7, are
pairwise distinct; resolving the four-momentum of the first does not return
position 0, the call throws. -/
theorem round_trip_fails_for_nan :
    ([PseudoJet.mk (Dbl.num 1) (Dbl.num 0) Dbl.nan (Dbl.num 1) (some ()),
        PseudoJet.mk (Dbl.num 2) (Dbl.num 0) (Dbl.num 7) (Dbl.num 9) (some ())].Pairwise
        fun a b => (a.rap (fun _ _ pz _ => pz) == b.rap (fun _ _ pz _ => pz)) = false) ∧
      resolve_jet (fun _ _ pz _ => pz)
        [PseudoJet.mk (Dbl.num 1) (Dbl.num 0) Dbl.nan (Dbl.num 1) (some ()),
          PseudoJet.mk (Dbl.num 2) (Dbl.num 0) (Dbl.num 7) (Dbl.num 9) (some ())]
        (PseudoJet.ofMomentum (Dbl.num 1) (Dbl.num 0) Dbl.nan (Dbl.num 1))
        ≠ .ok 0 := by
  refine ⟨by decide, ?_⟩
  intro h
  cases h

/-- C10.  All-or-nothing failure: when the buffers supplied to one of the eleven
lambdas that resolve a jet per event have a common length, and the jet supplied
for some event `i` cannot be resolved, the whole call throws
`"Jet Not in this ClusterSequence"` and returns no buffer, whatever the jets
supplied for the other events are. -/
theorem unresolved_jet_fails_whole_call {R H K CS : Type} [BEq K] [Zero R]
    (rapidity : R → R → R → R → K) (inclusive_jets : CS → R → List (PseudoJet R H))
    (exclusive_subjets_d : CS → PseudoJet R H → R → List (PseudoJet R H))
    (exclusive_subjets_n exclusive_subjets_up_to :
      CS → PseudoJet R H → Int → List (PseudoJet R H))
    (exclusive_subdmerge exclusive_subdmerge_max : CS → PseudoJet R H → Int → R)
    (n_exclusive_subjets : CS → PseudoJet R H → R → Int)
    (has_parents : CS → PseudoJet R H → Bool × PseudoJet R H × PseudoJet R H)
    (has_child : CS → PseudoJet R H → Bool × PseudoJet R H)
    (jet_scale_for_algorithm : CS → PseudoJet R H → R)
    (ow : output_wrapper CS R H) (px py pz E : List R) (dcut : R) (nsub : Int)
    (hpy : py.length = px.length) (hpz : pz.length = px.length) (hE : E.length = px.length)
    (i : Nat) (cs : CS) (x y z e : R) (hcs : ow.cse[i]? = some cs)
    (hx : px[i]? = some x) (hy : py[i]? = some y) (hz : pz[i]? = some z) (he : E[i]? = some e)
    (hres : resolve_jet rapidity (inclusive_jets cs 0) (PseudoJet.ofMomentum x y z e)
      = .error .jet_not_found) :
    to_numpy_exclusive_subjets_dcut rapidity inclusive_jets exclusive_subjets_d ow px py pz E dcut
        = .error .jet_not_found ∧
      to_numpy_exclusive_subjets_nsub rapidity inclusive_jets exclusive_subjets_n ow px py pz E
        nsub = .error .jet_not_found ∧
      to_numpy_exclusive_subjets_up_to rapidity inclusive_jets exclusive_subjets_up_to ow
        px py pz E nsub = .error .jet_not_found ∧
      to_numpy_exclusive_subdmerge rapidity inclusive_jets exclusive_subdmerge ow px py pz E
        nsub = .error .jet_not_found ∧
      to_numpy_exclusive_subdmerge_max rapidity inclusive_jets exclusive_subdmerge_max ow
        px py pz E nsub = .error .jet_not_found ∧
      to_numpy_n_exclusive_subjets rapidity inclusive_jets n_exclusive_subjets ow px py pz E
        dcut = .error .jet_not_found ∧
      to_numpy_has_parents rapidity inclusive_jets has_parents ow px py pz E
        = .error .jet_not_found ∧
      to_numpy_has_child rapidity inclusive_jets has_child ow px py pz E
        = .error .jet_not_found ∧
      to_numpy_jet_scale_for_algorithm rapidity inclusive_jets jet_scale_for_algorithm ow
        px py pz E = .error .jet_not_found ∧
      to_numpy_get_parents rapidity inclusive_jets has_parents ow px py pz E
        = .error .jet_not_found ∧
      to_numpy_get_child rapidity inclusive_jets has_child ow px py pz E
        = .error .jet_not_found := by
  have h := resolve_all_fails rapidity inclusive_jets ow px py pz E hpy hpz hE i cs x y z e
    hcs hx hy hz he hres
  refine ⟨?_, ?_, ?_, ?_, ?_, ?_, ?_, ?_, ?_, ?_, ?_⟩
  · simp only [to_numpy_exclusive_subjets_dcut, h, bind, Except.bind]
  · simp only [to_numpy_exclusive_subjets_nsub, h, bind, Except.bind]
  · simp only [to_numpy_exclusive_subjets_up_to, h, bind, Except.bind]
  · simp only [to_numpy_exclusive_subdmerge, h, bind, Except.bind]
  · simp only [to_numpy_exclusive_subdmerge_max, h, bind, Except.bind]
  · simp only [to_numpy_n_exclusive_subjets, h, bind, Except.bind]
  · simp only [to_numpy_has_parents, h, bind, Except.bind]
  · simp only [to_numpy_has_child, h, bind, Except.bind]
  · simp only [to_numpy_jet_scale_for_algorithm, h, bind, Except.bind]
  · simp only [to_numpy_get_parents, h, bind, Except.bind]
  · simp only [to_numpy_get_child, h, bind, Except.bind]

/-- C10, worked example: two events; the jet supplied for the first resolves, the
four-momentum `(0, 0, 0, 0)` supplied for the second does not, and the calls
return nothing. -/
theorem unresolved_jet_fails_whole_call_witness :
    to_numpy_exclusive_subjets_dcut (fun _ _ pz _ => pz)
        (fun (cs : List (PseudoJet Int Unit)) _ => cs) (fun _ jet _ => [jet])
        { cse := [[PseudoJet.mk 1 0 5 9 (some ())], [PseudoJet.mk 2 0 7 9 (some ())]],
          parts := [] }
        [1, 0] [0, 0] [5, 0] [9, 0] 0 = .error .jet_not_found ∧
      to_numpy_get_child (fun _ _ pz _ => pz)
        (fun (cs : List (PseudoJet Int Unit)) _ => cs) (fun _ jet => (true, jet))
        { cse := [[PseudoJet.mk 1 0 5 9 (some ())], [PseudoJet.mk 2 0 7 9 (some ())]],
          parts := [] }
        [1, 0] [0, 0] [5, 0] [9, 0] = .error .jet_not_found :=
  have h := unresolved_jet_fails_whole_call (fun _ _ pz _ => pz)
    (fun (cs : List (PseudoJet Int Unit)) _ => cs) (fun _ jet _ => [jet])
    (fun _ jet _ => [jet]) (fun _ jet _ => [jet]) (fun _ _ _ => 0) (fun _ _ _ => 0)
    (fun _ _ _ => 0) (fun _ jet => (true, jet, jet)) (fun _ jet => (true, jet))
    (fun _ _ => 0)
    { cse := [[PseudoJet.mk 1 0 5 9 (some ())], [PseudoJet.mk 2 0 7 9 (some ())]],
      parts := [] }
    [1, 0] [0, 0] [5, 0] [9, 0] 0 0 rfl rfl rfl 1 [PseudoJet.mk 2 0 7 9 (some ())] 0 0 0 0
    rfl rfl rfl rfl rfl rfl
  ⟨h.1, h.2.2.2.2.2.2.2.2.2.2⟩

/-! ## One value per event -/

theorem running_offsets_ones (n : Nat) :
    ∀ prev : Nat, running_offsets prev (List.replicate n 1)
      = (List.range n).map fun i => prev + (i + 1) := by
  induction n with
  | zero => intro prev; simp [running_offsets]
  | succ n ih =>
    intro prev
    rw [List.replicate_succ, running_offsets, ih, List.range_succ_eq_map]
    simp only [List.map_cons, List.map_map]
    congr 1
    · omega
    · apply List.map_congr_left
      intro i _
      simp only [Function.comp_apply]
      omega

theorem event_scalar_loop_filled {CS V : Type} (value : CS → V) (css : List CS) :
    ∀ (done : List V) (k : Nat) (offs : List Nat) (k2 prev : Nat),
      event_scalar_loop value css (filled done (css.length + k)) done.length
          (filled offs (css.length + k2)) offs.length prev
        = .ok (filled (done ++ css.map value) k, done.length + css.length,
            filled (offs ++ running_offsets prev (List.replicate css.length 1)) k2,
            offs.length + css.length,
            (prev :: running_offsets prev (List.replicate css.length 1)).getLastD 0) := by
  induction css with
  | nil => intro done k offs k2 prev; simp [event_scalar_loop, running_offsets]
  | cons cs css ih =>
    intro done k offs k2 prev
    have e1 : (cs :: css).length + k = (css.length + k) + 1 := by simp; omega
    have e2 : (cs :: css).length + k2 = (css.length + k2) + 1 := by simp; omega
    have hs := buf_store_filled done (css.length + k) (value cs)
    have ho := buf_store_filled offs (css.length + k2) (1 + prev)
    have hl : buf_load (filled (offs ++ [1 + prev]) (css.length + k2)) offs.length
        = .ok (1 + prev) := by
      apply buf_load_filled
      simp
    rw [e1, e2]
    simp only [event_scalar_loop, hs, ho, hl, except_ok_bind]
    have := ih (done ++ [value cs]) k (offs ++ [1 + prev]) k2 (1 + prev)
    simp only [List.length_append, List.length_cons, List.length_nil, Nat.zero_add] at this
    rw [this]
    simp [running_offsets, List.replicate_succ]
    omega

/-- The result of the shared body in closed form: the values of the events and the
offsets `1, 2, ..., len`. -/
theorem event_scalar_to_numpy_eq {CS V : Type} (value : CS → V) (css : List CS) :
    event_scalar_to_numpy value css
      = .ok ((css.map value).map some, (List.range css.length).map fun i => some (i + 1)) := by
  have h := event_scalar_loop_filled value css [] 0 [] 0 0
  have hc : ∀ (β : Type) (n : Nat), (buf_alloc n : Buffer β) = filled ([] : List β) (n + 0) := by
    intro β n; simp [filled, buf_alloc]
  simp only [List.length_nil, List.nil_append, Nat.zero_add] at h
  simp only [event_scalar_to_numpy, hc, h, except_ok_bind, pure, Except.pure]
  simp [filled, running_offsets_ones]

/-- C11 (code defect).  For every batch handle, each of the eight
one-value-per-event lambdas returns an offsets buffer of `eventCount` cells
holding `1, 2, ..., eventCount`: the buffer is allocated with `len` cells and the
loop starts with `1 + eventprev`, so the leading `0` of `[0, 1, ..., eventCount]`
is missing. -/
theorem event_scalar_offsets_start_at_one {R H CS : Type} (ow : output_wrapper CS R H)
    (exclusive_dmerge exclusive_dmerge_max exclusive_ymerge exclusive_ymerge_max :
      CS → Int → R) (njets : Int) (Q Q2 : CS → R) (n_particles : CS → Nat)
    (n_exclusive_jets : CS → R → Int) (dcut : R) :
    OffsetsFromOne (to_numpy_exclusive_dmerge exclusive_dmerge ow njets) ow.cse.length ∧
      OffsetsFromOne (to_numpy_exclusive_dmerge_max exclusive_dmerge_max ow njets)
        ow.cse.length ∧
      OffsetsFromOne (to_numpy_exclusive_ymerge exclusive_ymerge ow njets) ow.cse.length ∧
      OffsetsFromOne (to_numpy_exclusive_ymerge_max exclusive_ymerge_max ow njets)
        ow.cse.length ∧
      OffsetsFromOne (to_numpy_q Q ow) ow.cse.length ∧
      OffsetsFromOne (to_numpy_q2 Q2 ow) ow.cse.length ∧
      OffsetsFromOne (to_numpy_n_particles n_particles ow) ow.cse.length ∧
      OffsetsFromOne (to_numpy_n_exclusive_jets n_exclusive_jets ow dcut) ow.cse.length :=
  ⟨⟨_, event_scalar_to_numpy_eq _ _⟩, ⟨_, event_scalar_to_numpy_eq _ _⟩,
    ⟨_, event_scalar_to_numpy_eq _ _⟩, ⟨_, event_scalar_to_numpy_eq _ _⟩,
    ⟨_, event_scalar_to_numpy_eq _ _⟩, ⟨_, event_scalar_to_numpy_eq _ _⟩,
    ⟨_, event_scalar_to_numpy_eq _ _⟩, ⟨_, event_scalar_to_numpy_eq _ _⟩⟩

/-! ## One value per resolved jet -/

theorem buf_store_filled_full {β : Type} (vals : List β) (v : β) :
    buf_store (filled vals 0) vals.length v = .error .out_of_bounds := by
  unfold buf_store
  rw [if_neg]
  simp [filled]

theorem scalar_loop_ok {C V : Type} (value : C → V) (targets : List C) :
    ∀ (done : List V) (k : Nat) (pre : List Nat) (prev : Nat)
      (res : Buffer V × Nat × Buffer Nat × Nat),
      scalar_loop value targets (filled done k) done.length
          (filled (pre ++ [prev]) targets.length) (pre.length + 1) = .ok res →
      targets.length ≤ k ∧
        res = (filled (done ++ targets.map value) (k - targets.length),
          done.length + targets.length,
          filled (pre ++ [prev] ++ running_offsets prev (List.replicate targets.length 1)) 0,
          pre.length + 1 + targets.length) := by
  induction targets with
  | nil =>
    intro done k pre prev res h
    simp only [scalar_loop, Except.ok.injEq] at h
    subst h
    simp [running_offsets]
  | cons target targets ih =>
    intro done k pre prev res h
    cases k with
    | zero =>
      simp only [scalar_loop, buf_store_filled_full, bind, Except.bind] at h
      cases h
    | succ k =>
      have hs := buf_store_filled done k (value target)
      have hl : buf_load (filled (pre ++ [prev]) (targets.length + 1)) pre.length = .ok prev :=
        buf_load_filled _ _ _ _ (by simp)
      have ho := buf_store_filled (pre ++ [prev]) targets.length (1 + prev)
      simp only [List.length_append, List.length_cons, List.length_nil, Nat.zero_add] at ho
      simp only [scalar_loop, hs, except_ok_bind, List.length_cons, Nat.add_sub_cancel, hl,
        ho] at h
      have := ih (done ++ [value target]) k (pre ++ [prev]) (1 + prev) res
      simp only [List.length_append, List.length_cons, List.length_nil, Nat.zero_add] at this
      obtain ⟨hk, hres⟩ := this h
      refine ⟨by simp; omega, ?_⟩
      rw [hres]
      simp [running_offsets, List.replicate_succ]
      omega

/-- A successful run of the part after the resolution: the offsets are
`0, 1, ..., len`, the value buffer has `dimpy` cells and its first `len` cells
hold the values of the events. -/
theorem resolved_scalar_to_numpy_ok {C V : Type} (value : C → V) (targets : List C)
    (dimpy : Nat) (out_value : Buffer V) (off : Buffer Nat)
    (h : resolved_scalar_to_numpy value targets dimpy = .ok (out_value, off)) :
    targets.length ≤ dimpy ∧
      off = (List.range (targets.length + 1)).map some ∧
      out_value = filled (targets.map value) (dimpy - targets.length) := by
  have h0 : buf_store (buf_alloc (targets.length + 1)) 0 (0 : Nat)
      = .ok (filled [0] targets.length) := by
    have := buf_store_filled ([] : List Nat) targets.length 0
    simpa [filled, buf_alloc] using this
  have hc : (buf_alloc dimpy : Buffer V) = filled ([] : List V) dimpy := by
    simp [filled, buf_alloc]
  simp only [resolved_scalar_to_numpy, h0, except_ok_bind, hc] at h
  cases hl : scalar_loop value targets (filled [] dimpy) 0 (filled [0] targets.length) 1 with
  | error f => rw [hl] at h; cases h
  | ok res =>
    rw [hl] at h
    obtain ⟨hk, hres⟩ := scalar_loop_ok value targets [] dimpy [] 0 res hl
    subst hres
    simp only [except_ok_bind, pure, Except.pure, Except.ok.injEq, Prod.mk.injEq] at h
    obtain ⟨h1, h2⟩ := h
    refine ⟨hk, ?_, by rw [← h1]; simp⟩
    rw [← h2]
    simp [filled, running_offsets_ones, List.range_succ_eq_map, Function.comp_def]

theorem resolve_indices_length {R H K CS : Type} [BEq K] [Zero R]
    (rapidity : R → R → R → R → K) (inclusive_jets : CS → R → List (PseudoJet R H))
    (particles : List (PseudoJet R H)) (css : List CS) :
    ∀ (i : Nat) (indices : List Nat),
      resolve_indices rapidity inclusive_jets particles css i = .ok indices →
      indices.length = css.length := by
  induction css with
  | nil => intro i indices h; simp only [resolve_indices, Except.ok.injEq] at h; subst h; rfl
  | cons cs css ih =>
    intro i indices h
    unfold resolve_indices at h
    split at h
    · cases h
    · split at h
      · cases h
      · split at h
        · cases h
        · rename_i rest hrest
          simp only [Except.ok.injEq] at h
          subst h
          simp [ih _ _ hrest]

theorem resolved_jets_fst {R H CS : Type} [Zero R]
    (inclusive_jets : CS → R → List (PseudoJet R H)) (css : List CS) :
    ∀ (indices : List Nat) (targets : List (CS × PseudoJet R H)),
      resolved_jets inclusive_jets css indices = .ok targets →
      targets.map Prod.fst = css := by
  induction css with
  | nil => intro indices targets h; simp only [resolved_jets, Except.ok.injEq] at h; subst h; rfl
  | cons cs css ih =>
    intro indices targets h
    cases indices with
    | nil => simp only [resolved_jets] at h; cases h
    | cons index indices =>
      unfold resolved_jets at h
      split at h
      · cases h
      · split at h
        · cases h
        · rename_i rest hrest
          simp only [Except.ok.injEq] at h
          subst h
          simp [ih _ _ hrest]

/-- A successful resolution yields one resolved jet per event, paired with the
cluster sequence of the event. -/
theorem resolve_all_fst {R H K CS : Type} [BEq K] [Zero R]
    (rapidity : R → R → R → R → K) (inclusive_jets : CS → R → List (PseudoJet R H))
    (ow : output_wrapper CS R H) (px py pz E : List R) (targets : List (CS × PseudoJet R H))
    (h : resolve_all rapidity inclusive_jets ow px py pz E = .ok targets) :
    targets.map Prod.fst = ow.cse := by
  unfold resolve_all at h
  cases hr : read_particles (H := H) px py pz E px.length 0 [] with
  | error f => rw [hr] at h; cases h
  | ok res =>
    rw [hr] at h
    simp only [except_ok_bind] at h
    cases hi : resolve_indices rapidity inclusive_jets res.1 ow.cse 0 with
    | error f => rw [hi] at h; cases h
    | ok indices =>
      rw [hi] at h
      exact resolved_jets_fst inclusive_jets ow.cse indices targets h

theorem resolved_scalar_ragged {R H K CS V : Type} [BEq K] [Zero R]
    (rapidity : R → R → R → R → K) (inclusive_jets : CS → R → List (PseudoJet R H))
    (value : CS × PseudoJet R H → V) (ow : output_wrapper CS R H) (px py pz E : List R) :
    ResolvedScalarRagged
      (resolve_all rapidity inclusive_jets ow px py pz E >>= fun targets =>
        resolved_scalar_to_numpy value targets py.length)
      ow.cse.length py.length := by
  intro out_value off h
  cases hr : resolve_all rapidity inclusive_jets ow px py pz E with
  | error f => rw [hr] at h; cases h
  | ok targets =>
    rw [hr] at h
    simp only [except_ok_bind] at h
    have hlen : targets.length = ow.cse.length := by
      rw [← resolve_all_fst rapidity inclusive_jets ow px py pz E targets hr]
      simp
    obtain ⟨hk, hoff, hout⟩ := resolved_scalar_to_numpy_ok value targets py.length _ _ h
    rw [hlen] at hk hoff hout
    refine ⟨hoff, ?_, hk, ?_⟩
    · rw [hout, filled_length]
      simp only [List.length_map, hlen]
      omega
    · intro i hi
      have hi' : i < targets.length := by omega
      refine ⟨value targets[i], ?_⟩
      rw [hout, filled, List.getElem?_append_left (by simpa using hi')]
      simp [List.getElem?_eq_getElem hi']

/-- C12 (as amended).  For each of the six one-value-per-resolved-jet lambdas and
every input on which the call succeeds, the offsets are `0, 1, ..., eventCount`,
the value buffer has as many cells as the supplied `py` buffer, at least
`eventCount`, and its first `eventCount` cells are written; its length is
`offsets[eventCount] = eventCount` when the caller supplies `eventCount` jets. -/
theorem resolved_scalar_queries_ragged {R H K CS : Type} [BEq K] [Zero R]
    (rapidity : R → R → R → R → K) (inclusive_jets : CS → R → List (PseudoJet R H))
    (exclusive_subdmerge exclusive_subdmerge_max : CS → PseudoJet R H → Int → R)
    (n_exclusive_subjets : CS → PseudoJet R H → R → Int)
    (has_parents : CS → PseudoJet R H → Bool × PseudoJet R H × PseudoJet R H)
    (has_child : CS → PseudoJet R H → Bool × PseudoJet R H)
    (jet_scale_for_algorithm : CS → PseudoJet R H → R)
    (ow : output_wrapper CS R H) (px py pz E : List R) (dcut : R) (nsub : Int) :
    ResolvedScalarRagged
        (to_numpy_exclusive_subdmerge rapidity inclusive_jets exclusive_subdmerge ow
          px py pz E nsub) ow.cse.length py.length ∧
      ResolvedScalarRagged
        (to_numpy_exclusive_subdmerge_max rapidity inclusive_jets exclusive_subdmerge_max ow
          px py pz E nsub) ow.cse.length py.length ∧
      ResolvedScalarRagged
        (to_numpy_n_exclusive_subjets rapidity inclusive_jets n_exclusive_subjets ow
          px py pz E dcut) ow.cse.length py.length ∧
      ResolvedScalarRagged
        (to_numpy_has_parents rapidity inclusive_jets has_parents ow px py pz E)
        ow.cse.length py.length ∧
      ResolvedScalarRagged
        (to_numpy_has_child rapidity inclusive_jets has_child ow px py pz E)
        ow.cse.length py.length ∧
      ResolvedScalarRagged
        (to_numpy_jet_scale_for_algorithm rapidity inclusive_jets jet_scale_for_algorithm ow
          px py pz E) ow.cse.length py.length :=
  ⟨resolved_scalar_ragged rapidity inclusive_jets _ ow px py pz E,
    resolved_scalar_ragged rapidity inclusive_jets _ ow px py pz E,
    resolved_scalar_ragged rapidity inclusive_jets _ ow px py pz E,
    resolved_scalar_ragged rapidity inclusive_jets _ ow px py pz E,
    resolved_scalar_ragged rapidity inclusive_jets _ ow px py pz E,
    resolved_scalar_ragged rapidity inclusive_jets _ ow px py pz E⟩

/-- C12, worked example: one event, one supplied jet that resolves; the call to
`to_numpy_has_parents` succeeds and the value buffer has one cell. -/
theorem resolved_scalar_queries_ragged_witness :
    to_numpy_has_parents (fun _ _ pz _ => pz)
        (fun (cs : List (PseudoJet Int Unit)) _ => cs) (fun _ jet => (true, jet, jet))
        { cse := [[PseudoJet.mk 1 0 5 9 (some ())]], parts := [] } [1] [0] [5] [9]
        = .ok ([some true], [some 0, some 1]) ∧
      ([some true] : Buffer Bool).length = [(0 : Int)].length :=
  ⟨rfl, ((resolved_scalar_queries_ragged (fun _ _ pz _ => pz)
    (fun (cs : List (PseudoJet Int Unit)) _ => cs) (fun _ _ _ => 0) (fun _ _ _ => 0)
    (fun _ _ _ => 0) (fun _ jet => (true, jet, jet)) (fun _ jet => (true, jet))
    (fun _ _ => 0) { cse := [[PseudoJet.mk 1 0 5 9 (some ())]], parts := [] }
    [1] [0] [5] [9] 0 0).2.2.2.1 [some true] [some 0, some 1] rfl).2.1⟩

/-- C12 as stated fails: one event and two supplied jets, the first of which
resolves.  The call to `to_numpy_has_parents` succeeds, the offsets are `[0, 1]`,
and the value buffer has two cells, the second never written: its length is not
`offsets[eventCount] = 1`. -/
theorem resolved_scalar_value_buffer_too_long :
    to_numpy_has_parents (fun _ _ pz _ => pz)
        (fun (cs : List (PseudoJet Int Unit)) _ => cs) (fun _ jet => (true, jet, jet))
        { cse := [[PseudoJet.mk 1 0 5 9 (some ())]], parts := [] }
        [1, 2] [0, 0] [5, 7] [9, 9]
        = .ok ([some true, none], [some 0, some 1]) ∧
      ([some true, none] : Buffer Bool).length ≠ 1 :=
  ⟨rfl, by decide⟩

/-! ## Constituent indices -/

theorem write_matches_filled (idx : List Int) (k : Nat) (js : List Nat) :
    ∀ (done : List Nat) (free : Nat), (∀ j ∈ js, j < idx.length) →
      write_matches idx k js
          (filled done ((js.filter fun j => idx[j]? = some (k : Int)).length + free))
          done.length
        = .ok (filled (done ++ js.filter fun j => idx[j]? = some (k : Int)) free,
            done.length + (js.filter fun j => idx[j]? = some (k : Int)).length) := by
  induction js with
  | nil => intro done free _; simp [write_matches]
  | cons j js ih =>
    intro done free h
    have hj : j < idx.length := h j (List.mem_cons_self _ _)
    have hjs : ∀ j' ∈ js, j' < idx.length := fun j' hm => h j' (List.mem_cons_of_mem _ hm)
    have hget : idx[j]? = some idx[j] := List.getElem?_eq_getElem hj
    by_cases hk : idx[j] = (k : Int)
    · have hf : ((j :: js).filter fun j => idx[j]? = some (k : Int))
          = j :: js.filter fun j => idx[j]? = some (k : Int) := by
        simp [List.filter_cons, hget, hk]
      have hs := buf_store_filled done
        ((js.filter fun j => idx[j]? = some (k : Int)).length + free) j
      have := ih (done ++ [j]) free hjs
      simp only [List.length_append, List.length_cons, List.length_nil, Nat.zero_add] at this
      rw [hf, List.length_cons,
        show (js.filter fun j => idx[j]? = some (k : Int)).length + 1 + free
          = (js.filter fun j => idx[j]? = some (k : Int)).length + free + 1 by omega]
      simp only [write_matches, hget, hk, if_true, hs, except_ok_bind, this,
        List.append_assoc, List.singleton_append]
      congr 2
      omega
    · have hf : ((j :: js).filter fun j => idx[j]? = some (k : Int))
          = js.filter fun j => idx[j]? = some (k : Int) := by
        simp [List.filter_cons, hget, hk]
      rw [hf]
      simp only [write_matches, hget, hk, if_false]
      exact ih done free hjs

theorem write_groups_filled (idx : List Int) (sizz : Nat) (hidx : sizz ≤ idx.length)
    (ks : List Nat) :
    ∀ (done : List Nat) (free : Nat),
      write_groups idx sizz ks
          (filled done ((ks.map (jet_group idx sizz)).flatten.length + free)) done.length
        = .ok (filled (done ++ (ks.map (jet_group idx sizz)).flatten) free,
            done.length + (ks.map (jet_group idx sizz)).flatten.length) := by
  induction ks with
  | nil => intro done free; simp [write_groups]
  | cons k ks ih =>
    intro done free
    have hm := write_matches_filled idx k (List.range sizz) done
      ((ks.map (jet_group idx sizz)).flatten.length + free)
      (fun j hj => by have := List.mem_range.mp hj; omega)
    have e : ((k :: ks).map (jet_group idx sizz)).flatten.length + free
        = ((List.range sizz).filter fun j => idx[j]? = some (k : Int)).length
          + ((ks.map (jet_group idx sizz)).flatten.length + free) := by
      simp [jet_group]; omega
    rw [e]
    simp only [write_groups, hm, except_ok_bind]
    have := ih (done ++ (List.range sizz).filter fun j => idx[j]? = some (k : Int)) free
    simp only [List.length_append] at this
    rw [this]
    simp [jet_group]
    omega

theorem filter_length_split {α : Type} (p : α → Prop) [DecidablePred p] (js : List α) :
    (js.filter fun j => p j).length + (js.filter fun j => ¬ p j).length = js.length := by
  induction js with
  | nil => simp
  | cons j js ih =>
    by_cases h : p j
    · simp only [List.filter_cons, h, decide_True, if_true, not_true_eq_false, decide_False,
        List.length_cons]
      simp only [Bool.false_eq_true, if_false]
      omega
    · simp only [List.filter_cons, h, decide_False, not_false_eq_true, decide_True, if_true,
        List.length_cons]
      simp only [Bool.false_eq_true, if_false]
      omega

theorem flatten_filter_length_le {α : Type} (f : α → Option Int) (ks : List Nat)
    (hks : ks.Nodup) :
    ∀ js : List α,
      (ks.map fun (k : Nat) => js.filter fun j => f j = some (k : Int)).flatten.length
        ≤ js.length := by
  induction ks with
  | nil => intro js; simp
  | cons k ks ih =>
    intro js
    have hk : k ∉ ks := (List.nodup_cons.mp hks).1
    have hrest := ih (List.nodup_cons.mp hks).2 (js.filter fun j => ¬ f j = some (k : Int))
    have hsame : ∀ k' ∈ ks,
        ((js.filter fun j => ¬ f j = some (k : Int)).filter fun j => f j = some (k' : Int))
          = js.filter fun j => f j = some (k' : Int) := by
      intro k' hk'
      have hkk : k' ≠ k := fun e => hk (e ▸ hk')
      rw [List.filter_filter]
      apply List.filter_congr
      intro j _
      by_cases h : f j = some (k' : Int)
      · simp [h, hkk]
      · simp [h]
    have hmap : (ks.map fun (k' : Nat) =>
        (js.filter fun j => ¬ f j = some (k : Int)).filter fun j => f j = some (k' : Int))
          = ks.map fun (k' : Nat) => js.filter fun j => f j = some (k' : Int) :=
      List.map_congr_left hsame
    rw [hmap] at hrest
    have hsplit := filter_length_split (fun j => f j = some (k : Int)) js
    simp only [List.map_cons, List.flatten_cons, List.length_append]
    omega

/-- The number of positions written for an event never exceeds the number of its
particles. -/
theorem event_groups_length_le (idx : List Int) (sizz size : Nat) :
    (event_groups idx sizz size).flatten.length ≤ sizz := by
  have := flatten_filter_length_le (fun j => idx[j]?) (List.range size)
    (List.nodup_range size) (List.range sizz)
  simpa [event_groups, jet_group] using this

theorem running_offsets_append (a : List Nat) :
    ∀ (prev : Nat) (b : List Nat),
      running_offsets prev (a ++ b)
        = running_offsets prev a ++ running_offsets (prev + a.sum) b := by
  induction a with
  | nil => intro prev b; simp [running_offsets]
  | cons n a ih =>
    intro prev b
    rw [List.cons_append, running_offsets, running_offsets, ih, List.sum_cons,
      show prev + (n + a.sum) = n + prev + a.sum by omega]
    rfl

theorem running_offsets_split (sizes : List Nat) :
    ∀ (pre : List Nat) (prev : Nat),
      ∃ pre' : List Nat,
        pre ++ [prev] ++ running_offsets prev sizes = pre' ++ [prev + sizes.sum] ∧
        pre'.length = pre.length + sizes.length := by
  induction sizes with
  | nil => intro pre prev; exact ⟨pre, by simp [running_offsets], by simp⟩
  | cons n sizes ih =>
    intro pre prev
    obtain ⟨pre', h1, h2⟩ := ih (pre ++ [prev]) (n + prev)
    refine ⟨pre', ?_, by simp at h2 ⊢; omega⟩
    simp only [running_offsets, List.sum_cons]
    rw [show prev + (n + sizes.sum) = n + prev + sizes.sum by omega, ← h1]
    simp

theorem jetoffsets_loop_filled {R H : Type}
    (constituents : PseudoJet R H → List (PseudoJet R H)) (jets : List (PseudoJet R H)) :
    ∀ (pre : List Nat) (prev free : Nat),
      jetoffsets_loop constituents jets (filled (pre ++ [prev]) (jets.length + free))
          (pre.length + 1) prev
        = .ok (filled (pre ++ [prev] ++
              running_offsets prev (jets.map fun jet => (constituents jet).length)) free,
            pre.length + 1 + jets.length,
            prev + (jets.map fun jet => (constituents jet).length).sum) := by
  induction jets with
  | nil => intro pre prev free; simp [jetoffsets_loop, running_offsets]
  | cons jet jets ih =>
    intro pre prev free
    have hs := buf_store_filled (pre ++ [prev]) (jets.length + free)
      ((constituents jet).length + prev)
    simp only [List.length_append, List.length_cons, List.length_nil, Nat.zero_add] at hs
    have hl : buf_load (filled (pre ++ [prev] ++ [(constituents jet).length + prev])
        (jets.length + free)) (pre.length + 1) = .ok ((constituents jet).length + prev) := by
      apply buf_load_filled
      rw [List.getElem?_append_right (by simp)]
      simp
    rw [show (jet :: jets).length + free = jets.length + free + 1 by simp; omega]
    simp only [jetoffsets_loop, hs, hl, except_ok_bind]
    have := ih (pre ++ [prev]) ((constituents jet).length + prev) free
    simp only [List.length_append, List.length_cons, List.length_nil, Nat.zero_add] at this
    rw [this]
    simp [running_offsets]
    omega

theorem buf_load_filled_last {β : Type} (pre : List β) (prev : β) (free : Nat) :
    buf_load (filled (pre ++ [prev]) free) (pre.length + 1 - 1) = .ok prev :=
  buf_load_filled _ _ _ _ (by simp)

theorem constituents_loop_filled {R H CS : Type} (query : CS → List (PseudoJet R H))
    (particle_jet_indices : CS → List (PseudoJet R H) → List Int) (n_particles : CS → Nat)
    (constituents : PseudoJet R H → List (PseudoJet R H)) (css : List CS) :
    (∀ cs ∈ css, n_particles cs ≤ (particle_jet_indices cs (query cs)).length) →
    ∀ (pre : List Nat) (prev : Nat) (done : List Nat) (free : Nat) (epre : List Nat)
      (eprev : Nat),
      constituents_loop query particle_jet_indices n_particles constituents css
          (filled (pre ++ [prev]) (css.map fun cs => (query cs).length).sum) (pre.length + 1)
          (filled done ((css.map n_particles).sum + free)) done.length
          (filled (epre ++ [eprev]) css.length) (epre.length + 1) eprev
        = .ok
          (filled (pre ++ [prev] ++ running_offsets prev
              (css.map fun cs => (query cs).map fun jet => (constituents jet).length).flatten) 0,
            filled (done ++
                (css.map fun cs =>
                  (cs_groups query particle_jet_indices n_particles cs).flatten).flatten)
              ((css.map fun cs => n_particles cs
                  - (cs_groups query particle_jet_indices n_particles cs).flatten.length).sum
                + free),
            filled (epre ++ [eprev] ++
              running_offsets eprev (css.map fun cs => (query cs).length)) 0) := by
  induction css with
  | nil =>
    intro _ pre prev done free epre eprev
    simp [constituents_loop, running_offsets]
  | cons cs css ih =>
    intro hidx pre prev done free epre eprev
    have hcs : n_particles cs ≤ (particle_jet_indices cs (query cs)).length :=
      hidx cs (List.mem_cons_self _ _)
    have hrest : ∀ c ∈ css, n_particles c ≤ (particle_jet_indices c (query c)).length :=
      fun c hc => hidx c (List.mem_cons_of_mem _ hc)
    -- the jet offsets of the event
    have hload := buf_load_filled_last pre prev
      ((query cs).length + (css.map fun cs => (query cs).length).sum)
    have hjet := jetoffsets_loop_filled constituents (query cs) pre prev
      (css.map fun cs => (query cs).length).sum
    obtain ⟨pre', hsplit, hlen'⟩ := running_offsets_split
      ((query cs).map fun jet => (constituents jet).length) pre prev
    rw [hsplit] at hjet
    -- the particle positions of the event
    have hle := event_groups_length_le (particle_jet_indices cs (query cs)) (n_particles cs)
      (query cs).length
    have hwr := write_groups_filled (particle_jet_indices cs (query cs)) (n_particles cs) hcs
      (List.range (query cs).length) done
      ((css.map n_particles).sum + (n_particles cs
        - (cs_groups query particle_jet_indices n_particles cs).flatten.length + free))
    have efree : ((cs :: css).map n_particles).sum + free
        = ((List.range (query cs).length).map
              (jet_group (particle_jet_indices cs (query cs)) (n_particles cs))).flatten.length
          + ((css.map n_particles).sum + (n_particles cs
            - (cs_groups query particle_jet_indices n_particles cs).flatten.length + free)) := by
      simp only [cs_groups, event_groups, List.map_cons, List.sum_cons] at hle ⊢
      omega
    -- the event offsets
    have hst := buf_store_filled (epre ++ [eprev]) css.length ((query cs).length + eprev)
    simp only [List.length_append, List.length_cons, List.length_nil, Nat.zero_add] at hst
    have hld : buf_load (filled (epre ++ [eprev] ++ [(query cs).length + eprev]) css.length)
        (epre.length + 1) = .ok ((query cs).length + eprev) := by
      apply buf_load_filled
      rw [List.getElem?_append_right (by simp)]
      simp
    have hrec := ih hrest pre'
      (prev + ((query cs).map fun jet => (constituents jet).length).sum)
      (done ++ (cs_groups query particle_jet_indices n_particles cs).flatten)
      (n_particles cs
        - (cs_groups query particle_jet_indices n_particles cs).flatten.length + free)
      (epre ++ [eprev]) ((query cs).length + eprev)
    simp only [List.length_append, List.length_cons, List.length_nil, Nat.zero_add,
      List.length_map] at hrec hlen'
    rw [efree]
    simp only [constituents_loop, List.map_cons, List.sum_cons, List.length_cons, hload,
      except_ok_bind, hjet, hwr, hst, hld]
    rw [show pre.length + 1 + (query cs).length = pre'.length + 1 by omega]
    simp only [cs_groups, event_groups] at hrec ⊢
    rw [hrec]
    rw [← hsplit]
    simp only [List.flatten_cons, running_offsets_append, running_offsets, List.append_assoc,
      List.singleton_append, List.cons_append, List.nil_append, Except.ok.injEq, Prod.mk.injEq,
      true_and]
    refine ⟨?_, ?_⟩
    · congr 1
      omega
    · trivial

theorem foldl_add {CS : Type} (f : CS → Nat) (css : List CS) (n : Nat) :
    css.foldl (fun acc cs => acc + f cs) n = n + (css.map f).sum := by
  induction css generalizing n with
  | nil => simp
  | cons cs css ih => simp [ih]; omega

/-- The result of the shared body in closed form, when the engine's index vector
has an entry for every particle: the jet offsets are the running totals of the
constituent counts, `parid` holds the positions of the assigned particles, event
by event and jet index by jet index, followed by one unwritten cell for every
particle assigned to none of the jets, and the event offsets are the running
totals of the jet counts. -/
theorem constituents_to_numpy_eq {R H CS : Type} (query : CS → List (PseudoJet R H))
    (particle_jet_indices : CS → List (PseudoJet R H) → List Int) (n_particles : CS → Nat)
    (constituents : PseudoJet R H → List (PseudoJet R H)) (css : List CS)
    (hidx : ∀ cs ∈ css, n_particles cs ≤ (particle_jet_indices cs (query cs)).length) :
    constituents_to_numpy query particle_jet_indices n_particles constituents css
      = .ok
        ((0 :: running_offsets 0
            (css.map fun cs => (query cs).map fun jet => (constituents jet).length).flatten).map
            some,
          filled
            (css.map fun cs =>
              (cs_groups query particle_jet_indices n_particles cs).flatten).flatten
            (css.map fun cs => n_particles cs
              - (cs_groups query particle_jet_indices n_particles cs).flatten.length).sum,
          (0 :: running_offsets 0 (css.map fun cs => (query cs).length)).map some) := by
  have he : buf_store (buf_alloc (css.length + 1)) 0 (0 : Nat)
      = .ok (filled [0] css.length) := by
    have := buf_store_filled ([] : List Nat) css.length 0
    simpa [filled, buf_alloc] using this
  have hj : ∀ n : Nat, buf_store (buf_alloc (n + 1)) 0 (0 : Nat) = .ok (filled [0] n) := by
    intro n
    have := buf_store_filled ([] : List Nat) n 0
    simpa [filled, buf_alloc] using this
  have hc : ∀ n : Nat, (buf_alloc n : Buffer Nat) = filled ([] : List Nat) (n + 0) := by
    intro n; simp [filled, buf_alloc]
  have hl := constituents_loop_filled query particle_jet_indices n_particles constituents css
    hidx [] 0 [] 0 [] 0
  have hn : css.foldl (fun sizepar cs => sizepar + n_particles cs) 0
      = (css.map n_particles).sum := by
    simpa using foldl_add n_particles css 0
  simp only [List.nil_append, List.length_nil, Nat.zero_add] at hl
  simp only [constituents_to_numpy, foldl_sizes, hn, Nat.zero_add, he, hj, except_ok_bind,
    hc (css.map n_particles).sum, hl]
  simp [filled]

theorem ragged_slices_flatten {α : Type} (groups : List (List α)) :
    ∀ pre : List α,
      ragged_slices (pre ++ groups.flatten)
          (pre.length :: running_offsets pre.length (groups.map List.length))
        = groups := by
  induction groups with
  | nil => intro pre; simp [ragged_slices, running_offsets]
  | cons g groups ih =>
    intro pre
    have := ih (pre ++ g)
    simp only [List.length_append, List.append_assoc] at this
    simp only [List.map_cons, running_offsets, ragged_slices, List.flatten_cons,
      Nat.add_sub_cancel, List.drop_left, List.take_left, List.cons.injEq, true_and]
    rw [show g.length + pre.length = pre.length + g.length by omega]
    exact this

theorem event_groups_perm (idx : List Int) (sizz size : Nat)
    (hassigned : ∀ j, j < sizz → ∃ k, k < size ∧ idx[j]? = some (k : Int)) :
    (event_groups idx sizz size).flatten.Perm (List.range sizz) := by
  have hnodup : (event_groups idx sizz size).flatten.Nodup := by
    rw [List.nodup_flatten]
    constructor
    · intro l hl
      obtain ⟨k, _, rfl⟩ := List.mem_map.mp hl
      exact (List.nodup_range sizz).filter _
    · rw [event_groups, List.pairwise_map]
      apply (List.nodup_range size).pairwise_of_forall_ne
      intro k _ k' _ hne j hj hj'
      have h1 := (List.mem_filter.mp hj).2
      have h2 := (List.mem_filter.mp hj').2
      simp only [decide_eq_true_eq] at h1 h2
      rw [h1] at h2
      exact hne (by exact_mod_cast Option.some.inj h2)
  rw [List.perm_ext_iff_of_nodup hnodup (List.nodup_range sizz)]
  intro j
  constructor
  · intro hj
    obtain ⟨l, hl, hjl⟩ := List.mem_flatten.mp hj
    obtain ⟨k, _, rfl⟩ := List.mem_map.mp hl
    exact (List.mem_filter.mp hjl).1
  · intro hj
    obtain ⟨k, hk, hidx⟩ := hassigned j (List.mem_range.mp hj)
    refine List.mem_flatten.mpr ⟨jet_group idx sizz k, ?_, ?_⟩
    · exact List.mem_map.mpr ⟨k, List.mem_range.mpr hk, rfl⟩
    · exact List.mem_filter.mpr ⟨hj, by simpa using hidx⟩

theorem sum_map_eq_zero {CS : Type} (f : CS → Nat) (css : List CS)
    (h : ∀ cs ∈ css, f cs = 0) : (css.map f).sum = 0 := by
  induction css with
  | nil => rfl
  | cons cs css ih =>
    simp only [List.map_cons, List.sum_cons, h cs (List.mem_cons_self _ _), Nat.zero_add]
    exact ih fun c hc => h c (List.mem_cons_of_mem _ hc)

/-- C13 (as amended).  For `to_numpy_exclusive_njet_with_constituents`, when the
engine assigns every particle of every event to one of the returned jets and
reports for each jet as many constituents as particles assigned to it, the call
returns its buffers, `jetoffsets` delimits in `parid` the groups of the jets,
`eventoffsets` delimits the groups of each event, and the groups of an event
partition its particle-index set: their concatenation is a rearrangement of
`0, ..., n_particles - 1`. -/
theorem exclusive_constituents_partition {R H CS : Type}
    (exclusive_jets : CS → Int → List (PseudoJet R H))
    (particle_jet_indices : CS → List (PseudoJet R H) → List Int) (n_particles : CS → Nat)
    (constituents : PseudoJet R H → List (PseudoJet R H))
    (ow : output_wrapper CS R H) (n_jets : Int)
    (hassigned : ∀ cs ∈ ow.cse, ∀ j, j < n_particles cs →
      ∃ k, k < (exclusive_jets cs n_jets).length ∧
        (particle_jet_indices cs (exclusive_jets cs n_jets))[j]? = some (k : Int))
    (hcount : ∀ cs ∈ ow.cse, ∀ (k : Nat) (jet : PseudoJet R H),
      (exclusive_jets cs n_jets)[k]? = some jet →
      (constituents jet).length
        = (jet_group (particle_jet_indices cs (exclusive_jets cs n_jets)) (n_particles cs)
            k).length) :
    ∃ jetoffsets parid eventoffsets : List Nat,
      to_numpy_exclusive_njet_with_constituents exclusive_jets particle_jet_indices n_particles
          constituents ow n_jets
        = .ok (jetoffsets.map some, parid.map some, eventoffsets.map some) ∧
      ragged_slices parid jetoffsets
        = (ow.cse.map (cs_groups (fun cs => exclusive_jets cs n_jets) particle_jet_indices
            n_particles)).flatten ∧
      ragged_slices
          (ow.cse.map (cs_groups (fun cs => exclusive_jets cs n_jets) particle_jet_indices
            n_particles)).flatten eventoffsets
        = ow.cse.map (cs_groups (fun cs => exclusive_jets cs n_jets) particle_jet_indices
            n_particles) ∧
      ∀ cs ∈ ow.cse,
        (cs_groups (fun cs => exclusive_jets cs n_jets) particle_jet_indices n_particles
          cs).flatten.Perm (List.range (n_particles cs)) := by
  have hperm : ∀ cs ∈ ow.cse,
      (cs_groups (fun cs => exclusive_jets cs n_jets) particle_jet_indices n_particles
        cs).flatten.Perm (List.range (n_particles cs)) :=
    fun cs hcs => event_groups_perm _ _ _ (hassigned cs hcs)
  have hidx : ∀ cs ∈ ow.cse,
      n_particles cs ≤ (particle_jet_indices cs (exclusive_jets cs n_jets)).length := by
    intro cs hcs
    by_contra hc
    obtain ⟨k, _, hk⟩ := hassigned cs hcs
      (particle_jet_indices cs (exclusive_jets cs n_jets)).length (by omega)
    rw [List.getElem?_eq_none (le_refl _)] at hk
    cases hk
  have hslack : (ow.cse.map fun cs => n_particles cs
      - (cs_groups (fun cs => exclusive_jets cs n_jets) particle_jet_indices n_particles
          cs).flatten.length).sum = 0 := by
    apply sum_map_eq_zero
    intro cs hcs
    rw [(hperm cs hcs).length_eq, List.length_range]
    omega
  have hsizes : (ow.cse.map fun cs =>
      (exclusive_jets cs n_jets).map fun jet => (constituents jet).length)
      = ow.cse.map fun cs =>
        (cs_groups (fun cs => exclusive_jets cs n_jets) particle_jet_indices n_particles
          cs).map List.length := by
    apply List.map_congr_left
    intro cs hcs
    apply List.ext_getElem?
    intro k
    simp only [cs_groups, event_groups, List.getElem?_map, List.map_map]
    by_cases hk : k < (exclusive_jets cs n_jets).length
    · rw [List.getElem?_eq_getElem hk, List.getElem?_eq_getElem (by simpa using hk)]
      simp only [Option.map_some', List.getElem_range, Function.comp_apply, Option.some.injEq]
      exact hcount cs hcs k _ (List.getElem?_eq_getElem hk)
    · rw [List.getElem?_eq_none (by omega), List.getElem?_eq_none (by simpa using hk)]
      rfl
  have hcounts : (ow.cse.map fun cs => (exclusive_jets cs n_jets).length)
      = (ow.cse.map (cs_groups (fun cs => exclusive_jets cs n_jets) particle_jet_indices
          n_particles)).map List.length := by
    simp [cs_groups, event_groups, Function.comp_def]
  have hres := constituents_to_numpy_eq (fun cs => exclusive_jets cs n_jets)
    particle_jet_indices n_particles constituents ow.cse hidx
  rw [hslack, hsizes, hcounts] at hres
  have hj : (ow.cse.map fun cs =>
      (cs_groups (fun cs => exclusive_jets cs n_jets) particle_jet_indices n_particles
        cs).map List.length).flatten
      = (ow.cse.map (cs_groups (fun cs => exclusive_jets cs n_jets) particle_jet_indices
          n_particles)).flatten.map List.length := by
    rw [List.map_flatten, List.map_map]; rfl
  have hp : (ow.cse.map fun cs =>
      (cs_groups (fun cs => exclusive_jets cs n_jets) particle_jet_indices n_particles
        cs).flatten).flatten
      = (ow.cse.map (cs_groups (fun cs => exclusive_jets cs n_jets) particle_jet_indices
          n_particles)).flatten.flatten := by
    rw [List.flatten_flatten, List.map_map]; rfl
  rw [hj, hp] at hres
  refine ⟨0 :: running_offsets 0
      ((ow.cse.map (cs_groups (fun cs => exclusive_jets cs n_jets) particle_jet_indices
        n_particles)).flatten.map List.length),
    (ow.cse.map (cs_groups (fun cs => exclusive_jets cs n_jets) particle_jet_indices
      n_particles)).flatten.flatten,
    0 :: running_offsets 0
      ((ow.cse.map (cs_groups (fun cs => exclusive_jets cs n_jets) particle_jet_indices
        n_particles)).map List.length), ?_, ?_, ?_, hperm⟩
  · rw [to_numpy_exclusive_njet_with_constituents, hres]
    simp only [filled, List.replicate_zero, List.append_nil]
  · exact ragged_slices_flatten _ []
  · exact ragged_slices_flatten _ []

/-- C13, worked example: one event with two particles, both assigned to the only
jet, which has two constituents.  The call returns `jetoffsets = [0, 2]`,
`parid = [0, 1]` and `eventoffsets = [0, 1]`. -/
theorem exclusive_constituents_partition_witness :
    to_numpy_exclusive_njet_with_constituents
        (fun (_ : Unit) _ => [PseudoJet.mk (1 : Int) 0 5 9 (some ())])
        (fun _ _ => [0, 0]) (fun _ => 2) (fun jet => [jet, jet])
        { cse := [()], parts := [] } 1
        = .ok ([some 0, some 2], [some 0, some 1], [some 0, some 1]) ∧
      ∃ jetoffsets parid eventoffsets : List Nat,
        to_numpy_exclusive_njet_with_constituents
            (fun (_ : Unit) _ => [PseudoJet.mk (1 : Int) 0 5 9 (some ())])
            (fun _ _ => [0, 0]) (fun _ => 2) (fun jet => [jet, jet])
            { cse := [()], parts := [] } 1
          = .ok (jetoffsets.map some, parid.map some, eventoffsets.map some) ∧
        ragged_slices parid jetoffsets = [[0, 1]] ∧
        ragged_slices [[0, 1]] eventoffsets = [[[0, 1]]] :=
  have h := exclusive_constituents_partition
    (fun (_ : Unit) _ => [PseudoJet.mk (1 : Int) 0 5 9 (some ())])
    (fun _ _ => [0, 0]) (fun _ => 2) (fun jet => [jet, jet])
    { cse := [()], parts := [] } 1
    (by
      intro cs _ j hj
      have hj2 : j < 2 := hj
      refine ⟨0, Nat.zero_lt_one, ?_⟩
      have : j = 0 ∨ j = 1 := by omega
      rcases this with rfl | rfl <;> rfl)
    (by
      intro cs _ k jet hk
      cases k with
      | zero => cases hk; rfl
      | succ k => cases hk)
  ⟨rfl, by
    obtain ⟨jo, pa, eo, h1, h2, h3, _⟩ := h
    exact ⟨jo, pa, eo, h1, h2, h3⟩⟩

/-- C13 as stated fails: one event with two particles, of which the engine
assigns the first to no jet (index `-1`) and the second to the only jet.  The
call succeeds, the only group is `[1]`: particle index `0` is omitted, and the
second cell of `parid` is never written. -/
theorem exclusive_constituents_omit_unassigned :
    to_numpy_exclusive_njet_with_constituents
        (fun (_ : Unit) _ => [PseudoJet.mk (1 : Int) 0 5 9 (some ())])
        (fun _ _ => [-1, 0]) (fun _ => 2) (fun jet => [jet])
        { cse := [()], parts := [] } 1
        = .ok ([some 0, some 1], [some 1, none], [some 0, some 1]) ∧
      ragged_slices [1] [0, 1] = [[1]] ∧
      (0 : Nat) ∉ ([[1]] : List (List Nat)).flatten :=
  ⟨rfl, rfl, by decide⟩

theorem splittings_loop_eq {R L : Type} (Delta kt : L → R) (lund_result : List L) :
    ∀ Delta_vec kt_vec : List R,
      splittings_loop Delta kt lund_result Delta_vec kt_vec
        = (Delta_vec ++ lund_result.map Delta, kt_vec ++ lund_result.map kt) := by
  induction lund_result with
  | nil => intro Dv kv; simp [splittings_loop]
  | cons d ds ih => intro Dv kv; simp [splittings_loop, ih]

theorem lund_jets_loop_filled {R H L : Type} (result : PseudoJet R H → List L)
    (Delta kt : L → R) (jets : List (PseudoJet R H)) :
    ∀ (pre : List Nat) (prev free : Nat) (Delta_vec kt_vec : List R),
      lund_jets_loop result Delta kt jets (filled (pre ++ [prev]) (jets.length + free))
          (pre.length + 1) prev Delta_vec kt_vec
        = .ok (filled (pre ++ [prev] ++
              running_offsets prev (jets.map fun jet => (result jet).length)) free,
            pre.length + 1 + jets.length,
            prev + (jets.map fun jet => (result jet).length).sum,
            Delta_vec ++ (jets.map fun jet => (result jet).map Delta).flatten,
            kt_vec ++ (jets.map fun jet => (result jet).map kt).flatten) := by
  induction jets with
  | nil => intro pre prev free Dv kv; simp [lund_jets_loop, running_offsets]
  | cons jet jets ih =>
    intro pre prev free Dv kv
    have hs := buf_store_filled (pre ++ [prev]) (jets.length + free)
      ((result jet).length + prev)
    simp only [List.length_append, List.length_cons, List.length_nil, Nat.zero_add] at hs
    have hl : buf_load (filled (pre ++ [prev] ++ [(result jet).length + prev])
        (jets.length + free)) (pre.length + 1) = .ok ((result jet).length + prev) := by
      apply buf_load_filled
      rw [List.getElem?_append_right (by simp)]
      simp
    rw [show (jet :: jets).length + free = jets.length + free + 1 by simp; omega]
    simp only [lund_jets_loop, splittings_loop_eq, hs, hl, except_ok_bind]
    have := ih (pre ++ [prev]) ((result jet).length + prev) free
      (Dv ++ (result jet).map Delta) (kv ++ (result jet).map kt)
    simp only [List.length_append, List.length_cons, List.length_nil, Nat.zero_add] at this
    rw [this]
    simp [running_offsets]
    omega

theorem lund_loop_filled {R H L CS : Type} (query : CS → List (PseudoJet R H))
    (result : PseudoJet R H → List L) (Delta kt : L → R) (css : List CS) :
    ∀ (pre : List Nat) (prev : Nat) (Delta_vec kt_vec : List R) (epre : List Nat)
      (eprev : Nat),
      lund_loop query result Delta kt css
          (filled (pre ++ [prev]) (css.map fun cs => (query cs).length).sum) (pre.length + 1)
          Delta_vec kt_vec (filled (epre ++ [eprev]) css.length) (epre.length + 1) eprev
        = .ok
          (filled (pre ++ [prev] ++ running_offsets prev
              ((css.map query).flatten.map fun jet => (result jet).length)) 0,
            Delta_vec ++ ((css.map query).flatten.map fun jet => (result jet).map Delta).flatten,
            kt_vec ++ ((css.map query).flatten.map fun jet => (result jet).map kt).flatten,
            filled (epre ++ [eprev] ++
              running_offsets eprev (css.map fun cs => (query cs).length)) 0) := by
  induction css with
  | nil =>
    intro pre prev Dv kv epre eprev
    simp [lund_loop, running_offsets]
  | cons cs css ih =>
    intro pre prev Dv kv epre eprev
    have hload := buf_load_filled_last pre prev
      ((query cs).length + (css.map fun cs => (query cs).length).sum)
    have hjet := lund_jets_loop_filled result Delta kt (query cs) pre prev
      (css.map fun cs => (query cs).length).sum Dv kv
    obtain ⟨pre', hsplit, hlen'⟩ := running_offsets_split
      ((query cs).map fun jet => (result jet).length) pre prev
    rw [hsplit] at hjet
    have hst := buf_store_filled (epre ++ [eprev]) css.length ((query cs).length + eprev)
    simp only [List.length_append, List.length_cons, List.length_nil, Nat.zero_add] at hst
    have hld : buf_load (filled (epre ++ [eprev] ++ [(query cs).length + eprev]) css.length)
        (epre.length + 1) = .ok ((query cs).length + eprev) := by
      apply buf_load_filled
      rw [List.getElem?_append_right (by simp)]
      simp
    have hrec := ih pre'
      (prev + ((query cs).map fun jet => (result jet).length).sum)
      (Dv ++ ((query cs).map fun jet => (result jet).map Delta).flatten)
      (kv ++ ((query cs).map fun jet => (result jet).map kt).flatten)
      (epre ++ [eprev]) ((query cs).length + eprev)
    simp only [List.length_append, List.length_cons, List.length_nil, Nat.zero_add,
      List.length_map] at hrec hlen'
    simp only [lund_loop, List.map_cons, List.sum_cons, List.length_cons, hload,
      except_ok_bind, hjet, hst, hld]
    rw [show pre.length + 1 + (query cs).length = pre'.length + 1 by omega]
    rw [hrec]
    rw [← hsplit]
    simp only [List.flatten_cons, List.map_append, List.flatten_append, running_offsets_append,
      running_offsets, List.append_assoc,
      List.singleton_append, List.cons_append, List.nil_append, Except.ok.injEq, Prod.mk.injEq,
      true_and, and_true]

/-- The result of the Lund lambda in closed form. -/
theorem to_numpy_exclusive_njet_lund_declusterings_eq {R H L CS : Type}
    (exclusive_jets : CS → Int → List (PseudoJet R H))
    (result : PseudoJet R H → List L) (Delta kt : L → R)
    (ow : output_wrapper CS R H) (n_jets : Int) :
    to_numpy_exclusive_njet_lund_declusterings exclusive_jets result Delta kt ow n_jets
      = .ok
        ((0 :: running_offsets 0
            ((ow.cse.map fun cs => exclusive_jets cs n_jets).flatten.map
              fun jet => (result jet).length)).map some,
          (((ow.cse.map fun cs => exclusive_jets cs n_jets).flatten.map
              fun jet => (result jet).map Delta).flatten).map some,
          (((ow.cse.map fun cs => exclusive_jets cs n_jets).flatten.map
              fun jet => (result jet).map kt).flatten).map some,
          (0 :: running_offsets 0
            (ow.cse.map fun cs => (exclusive_jets cs n_jets).length)).map some) := by
  have he : buf_store (buf_alloc (ow.cse.length + 1)) 0 (0 : Nat)
      = .ok (filled [0] ow.cse.length) := by
    have := buf_store_filled ([] : List Nat) ow.cse.length 0
    simpa [filled, buf_alloc] using this
  have hj : ∀ n : Nat, buf_store (buf_alloc (n + 1)) 0 (0 : Nat) = .ok (filled [0] n) := by
    intro n
    have := buf_store_filled ([] : List Nat) n 0
    simpa [filled, buf_alloc] using this
  have hl := lund_loop_filled (fun cs => exclusive_jets cs n_jets) result Delta kt ow.cse
    [] 0 [] [] [] 0
  simp only [List.nil_append, List.length_nil, Nat.zero_add] at hl
  simp only [to_numpy_exclusive_njet_lund_declusterings, foldl_sizes, Nat.zero_add, he, hj,
    except_ok_bind, hl]
  simp [filled]

theorem length_flatten_map_map {α β γ : Type} (f : α → List β) (g : β → γ) (l : List α) :
    ((l.map fun a => (f a).map g).flatten).length = (l.map fun a => (f a).length).sum := by
  induction l with
  | nil => rfl
  | cons a l ih => simp [ih]

/-- C14.  The Lund lambda returns its four buffers for every batch; the event
offsets have `eventCount + 1` entries, start at `0`, are non-decreasing and end
at the total number of jets `J`; the jet offsets have `J + 1` entries, start at
`0`, are non-decreasing, consecutive entries differ by the number of splittings
of the jet, and the last entry is the common length of `Deltas` and `kts`. -/
theorem lund_declusterings_nested_ragged {R H L CS : Type}
    (exclusive_jets : CS → Int → List (PseudoJet R H))
    (result : PseudoJet R H → List L) (Delta kt : L → R)
    (ow : output_wrapper CS R H) (n_jets : Int) :
    LundNestedRagged
      (to_numpy_exclusive_njet_lund_declusterings exclusive_jets result Delta kt ow n_jets)
      (ow.cse.map fun cs => exclusive_jets cs n_jets) result := by
  refine ⟨_, _, _, _,
    to_numpy_exclusive_njet_lund_declusterings_eq exclusive_jets result Delta kt ow n_jets,
    ?_, ?_, ?_, ?_⟩
  · have h := ragged_running_offsets (ow.cse.map fun cs => (exclusive_jets cs n_jets).length)
    simpa [List.length_flatten, Function.comp_def] using h
  · have h := ragged_running_offsets
      ((ow.cse.map fun cs => exclusive_jets cs n_jets).flatten.map
        fun jet => (result jet).length)
    rw [List.length_map, length_flatten_map_map]
    exact h
  · simp only [List.length_map, length_flatten_map_map]
  · simp only [List.length_map, List.length_cons, running_offsets_length]

theorem relatives_loop_filled {R H C : Type} (relatives : C → Bool × List (PseudoJet R H))
    (n : Nat) (hn : ∀ target, (relatives target).2.length = n) (targets : List C) :
    ∀ (done : List (PseudoJet R H)) (k : Nat) (pre : List Nat) (prev : Nat),
      relatives_loop relatives n targets
          (cols_filled done
            ((targets.map fun t => (relatives_rows relatives t).length).sum + k)) done.length
          (filled (pre ++ [prev]) targets.length) (pre.length + 1)
        = .ok (cols_filled (done ++ (targets.map (relatives_rows relatives)).flatten) k,
            done.length + (targets.map fun t => (relatives_rows relatives t).length).sum,
            filled (pre ++ [prev] ++
              running_offsets prev (targets.map fun t => (relatives_rows relatives t).length)) 0,
            pre.length + 1 + targets.length) := by
  induction targets with
  | nil => intro done k pre prev; simp [relatives_loop, running_offsets]
  | cons t targets ih =>
    intro done k pre prev
    have hl : buf_load (filled (pre ++ [prev]) (targets.length + 1)) pre.length = .ok prev :=
      buf_load_filled _ _ _ _ (by simp)
    by_cases hv : (relatives t).1 = true
    · have hrows : relatives_rows relatives t = (relatives t).2 := by
        simp [relatives_rows, hv]
      have hw := write_jets_filled (relatives t).2 done
        ((targets.map fun t => (relatives_rows relatives t).length).sum + k)
      have hs := buf_store_filled (pre ++ [prev]) targets.length (n + prev)
      simp only [List.length_append, List.length_cons, List.length_nil] at hs
      have e : ((t :: targets).map fun t => (relatives_rows relatives t).length).sum + k
          = (relatives t).2.length
            + ((targets.map fun t => (relatives_rows relatives t).length).sum + k) := by
        simp [hrows]; omega
      rw [e]
      simp only [relatives_loop, hv, if_true, hw, except_ok_bind, List.length_cons,
        Nat.add_sub_cancel, hl, Nat.zero_add, hs]
      have := ih (done ++ (relatives t).2) k (pre ++ [prev]) (n + prev)
      simp only [List.length_append, List.length_cons, List.length_nil, Nat.zero_add] at this
      rw [this]
      simp [running_offsets, hrows, hn]
      omega
    · have hrows : relatives_rows relatives t = [] := by
        simp [relatives_rows, hv]
      have hs := buf_store_filled (pre ++ [prev]) targets.length prev
      simp only [List.length_append, List.length_cons, List.length_nil] at hs
      have e : ((t :: targets).map fun t => (relatives_rows relatives t).length).sum + k
          = (targets.map fun t => (relatives_rows relatives t).length).sum + k := by
        simp [hrows]
      rw [e]
      simp only [relatives_loop, hv, if_false, except_ok_bind, List.length_cons,
        Nat.add_sub_cancel, hl, Nat.zero_add, hs]
      have := ih done k (pre ++ [prev]) prev
      simp only [List.length_append, List.length_cons, List.length_nil, Nat.zero_add] at this
      rw [this]
      simp [running_offsets, hrows]
      omega

theorem foldl_relatives {R H C : Type} (relatives : C → Bool × List (PseudoJet R H))
    (n : Nat) (hn : ∀ target, (relatives target).2.length = n) (targets : List C) (m : Nat) :
    targets.foldl (fun jk target => if (relatives target).1 = true then jk + n else jk) m
      = m + (targets.map fun t => (relatives_rows relatives t).length).sum := by
  induction targets generalizing m with
  | nil => simp
  | cons t targets ih =>
    by_cases hv : (relatives t).1 = true
    · simp [ih, relatives_rows, hv, hn]; omega
    · simp [ih, relatives_rows, hv]

/-- The part after the resolution in closed form: the same result as a jet-list
extraction whose per-event jet lists are `relatives_rows`. -/
theorem relatives_to_numpy_eq {R H C : Type} (relatives : C → Bool × List (PseudoJet R H))
    (n : Nat) (hn : ∀ target, (relatives target).2.length = n) (targets : List C) :
    relatives_to_numpy relatives n targets
      = .ok ((((targets.map (relatives_rows relatives)).flatten.map (·.px)).map some,
          ((targets.map (relatives_rows relatives)).flatten.map (·.py)).map some,
          ((targets.map (relatives_rows relatives)).flatten.map (·.pz)).map some,
          ((targets.map (relatives_rows relatives)).flatten.map (·.E)).map some,
          (0 :: running_offsets 0
            (targets.map fun t => (relatives_rows relatives t).length)).map some) :
          Buffer R × Buffer R × Buffer R × Buffer R × Buffer Nat) := by
  have h0 : buf_store (buf_alloc (targets.length + 1)) 0 (0 : Nat)
      = .ok (filled [0] targets.length) := by
    have := buf_store_filled ([] : List Nat) targets.length 0
    simpa [filled, buf_alloc] using this
  have hl := relatives_loop_filled relatives n hn targets [] 0 [] 0
  have hc : ∀ m : Nat, (JetColumns.mk (buf_alloc m) (buf_alloc m) (buf_alloc m) (buf_alloc m) :
      JetColumns R) = cols_filled ([] : List (PseudoJet R H)) (m + 0) := by
    intro m; simp [cols_filled, filled, buf_alloc]
  simp only [List.nil_append, List.length_nil, Nat.zero_add] at hl
  simp only [relatives_to_numpy, foldl_relatives relatives n hn, Nat.zero_add, h0,
    except_ok_bind, hc, hl]
  simp [cols_filled, filled, pure, Except.pure]

theorem relatives_to_numpy_eq_jet_list {R H C : Type}
    (relatives : C → Bool × List (PseudoJet R H))
    (n : Nat) (hn : ∀ target, (relatives target).2.length = n) (targets : List C) :
    relatives_to_numpy relatives n targets
      = jet_list_to_numpy (relatives_rows relatives) targets := by
  rw [relatives_to_numpy_eq relatives n hn, jet_list_to_numpy_eq]


theorem build_events_insert {R H JD CS : Type} (lim : VectorLimits)
    (cluster : List (PseudoJet R H) → JD → CS) (jetdef : JD) (px py pz E : List R) (s : Int) :
    ∀ (p : Nat) (starts stops : List Int) (c : Nat)
      (events : List (CS × List (PseudoJet R H))),
      build_events lim cluster jetdef px py pz E starts stops c = .ok events →
      p ≤ starts.length →
      build_events lim cluster jetdef px py pz E (insert_at p s starts) (insert_at p s stops) c
        = .ok (insert_at p (cluster [] jetdef, []) events) := by
  have hres : reserve lim (to_size_t (int_sub s s)) = .ok () :=
    reserve_of_le lim s s (le_refl _) (by simp)
  intro p
  induction p with
  | zero =>
    intro starts stops c events h _
    simp only [insert_at, List.take_zero, List.drop_zero, List.nil_append, build_events, hres,
      Int.sub_self, Int.toNat_zero, read_particles, h]
  | succ p ih =>
    intro starts stops c events h hp
    cases starts with
    | nil => simp at hp
    | cons start starts =>
      cases stops with
      | nil => simp only [build_events] at h; cases h
      | cons stop stops =>
        unfold build_events at h
        split at h
        · cases h
        · split at h
          · cases h
          · split at h
            · cases h
            · rename_i _ hreserve _ particles c2 hread _ rest hrest
              simp only [Except.ok.injEq] at h
              subst h
              have hrec := ih starts stops c2 rest hrest (by simpa using hp)
              simp only [insert_at, List.take_succ_cons, List.drop_succ_cons,
                List.cons_append] at hrec ⊢
              unfold build_events
              simp only [*]

theorem running_offsets_insert_zero :
    ∀ (p prev : Nat) (counts : List Nat), p ≤ counts.length →
      prev :: running_offsets prev (insert_at p 0 counts)
        = duplicate_at p (prev :: running_offsets prev counts) := by
  intro p
  induction p with
  | zero =>
    intro prev counts _
    simp [insert_at, duplicate_at, running_offsets]
  | succ p ih =>
    intro prev counts hp
    cases counts with
    | nil => simp at hp
    | cons n counts =>
      have := ih (n + prev) counts (by simpa using hp)
      simp only [insert_at, duplicate_at, List.take_succ_cons, List.drop_succ_cons,
        List.cons_append, running_offsets] at this ⊢
      exact congrArg (List.cons prev) this

theorem slices_of_column {α β : Type} (f : α → β) (events : List (List α)) :
    ragged_slices (events.flatten.map f) (0 :: running_offsets 0 (events.map List.length))
      = events.map (List.map f) := by
  have h := ragged_slices_flatten (events.map (List.map f)) []
  simp only [List.nil_append, List.length_nil, List.map_map] at h
  rw [List.map_flatten]
  have e : (List.length ∘ List.map f : List α → Nat) = List.length := by
    funext l; simp
  rw [e] at h
  exact h

theorem flatten_insert_nil {α : Type} (p : Nat) (events : List (List α)) :
    (insert_at p [] events).flatten = events.flatten := by
  simp only [insert_at, List.flatten_append, List.flatten_cons, List.nil_append]
  rw [← List.flatten_append, List.take_append_drop]

theorem map_insert_at {α β : Type} (f : α → β) (p : Nat) (x : α) (xs : List α) :
    (insert_at p x xs).map f = insert_at p (f x) (xs.map f) := by
  simp [insert_at, List.map_take, List.map_drop]

theorem slices_keep_column {α β : Type} (f : α → β) (events : List (List α)) (p : Nat)
    (hp : p ≤ events.length) :
    SlicesKeep (events.flatten.map f) (0 :: running_offsets 0 (events.map List.length))
      (duplicate_at p (0 :: running_offsets 0 (events.map List.length))) p := by
  unfold SlicesKeep
  rw [← running_offsets_insert_zero p 0 _ (by simpa using hp), slices_of_column]
  have h := slices_of_column f (insert_at p [] events)
  rw [flatten_insert_nil, map_insert_at, map_insert_at] at h
  exact h

theorem build_events_length {R H JD CS : Type} (lim : VectorLimits)
    (cluster : List (PseudoJet R H) → JD → CS) (jetdef : JD) (px py pz E : List R) :
    ∀ (starts stops : List Int) (c : Nat) (events : List (CS × List (PseudoJet R H))),
      build_events lim cluster jetdef px py pz E starts stops c = .ok events →
      events.length = starts.length := by
  intro starts
  induction starts with
  | nil =>
    intro stops c events h
    simp only [build_events, Except.ok.injEq] at h
    subst h; rfl
  | cons start starts ih =>
    intro stops c events h
    cases stops with
    | nil => simp only [build_events] at h; cases h
    | cons stop stops =>
      unfold build_events at h
      split at h
      · cases h
      · split at h
        · cases h
        · split at h
          · cases h
          · rename_i _ _ _ _ c2 _ _ rest hrest
            simp only [Except.ok.injEq] at h
            subst h
            simp [ih stops c2 rest hrest]

theorem duplicate_at_getElem? (off : List Nat) (p : Nat) (hp : p < off.length) :
    ∃ o, (duplicate_at p off)[p]? = some o ∧ (duplicate_at p off)[p + 1]? = some o := by
  refine ⟨off[p], ?_, ?_⟩
  · simp only [duplicate_at]
    rw [List.getElem?_append_left (by simp; omega), List.getElem?_take_of_lt (by omega),
      List.getElem?_eq_getElem hp]
  · simp only [duplicate_at]
    rw [List.getElem?_append_right (by simp)]
    simp only [List.length_take, List.getElem?_drop]
    rw [show p + (p + 1 - min (p + 1) off.length) = p by omega, List.getElem?_eq_getElem hp]

/-- C16.  Inserting at position `p` of a batch an event whose `inclusive_jets`
query is empty leaves the four value columns of `to_numpy` unchanged and changes
the offsets only by duplicating the entry at position `p`, so that the inserted
event has `offsets[p + 1] = offsets[p]` and the slices of the other events keep
their order, contents and widths.  On the builder side, inserting a slice with
`start = stop` at position `p` of a call of `interfacemulti` that succeeds
inserts one event with an empty particle list and leaves the other events as
they were. -/
theorem empty_event_does_not_perturb {R H JD CS : Type}
    (inclusive_jets : CS → R → List (PseudoJet R H)) (min_pt : R)
    (ow : output_wrapper CS R H) (cs0 : CS) (ps0 : List (PseudoJet R H)) (p : Nat)
    (hp : p ≤ ow.cse.length) (hempty : inclusive_jets cs0 min_pt = []) :
    (∃ (px py pz E : List R) (off : List Nat),
      to_numpy inclusive_jets ow min_pt
        = .ok (px.map some, py.map some, pz.map some, E.map some, off.map some) ∧
      to_numpy inclusive_jets
          { cse := insert_at p cs0 ow.cse, parts := insert_at p ps0 ow.parts } min_pt
        = .ok (px.map some, py.map some, pz.map some, E.map some,
            (duplicate_at p off).map some) ∧
      (∃ o, (duplicate_at p off)[p]? = some o ∧ (duplicate_at p off)[p + 1]? = some o) ∧
      SlicesKeep px off (duplicate_at p off) p ∧ SlicesKeep py off (duplicate_at p off) p ∧
      SlicesKeep pz off (duplicate_at p off) p ∧ SlicesKeep E off (duplicate_at p off) p) ∧
    ∀ (lim : VectorLimits) (cluster : List (PseudoJet R H) → JD → CS)
      (bpx bpy bpz bE : List R) (starts stops : List Int) (jetdef : JD) (s : Int),
      interfacemulti lim cluster bpx bpy bpz bE starts stops jetdef = .ok ow →
      interfacemulti lim cluster bpx bpy bpz bE (insert_at p s starts) (insert_at p s stops)
          jetdef
        = .ok { cse := insert_at p (cluster [] jetdef) ow.cse,
                parts := insert_at p [] ow.parts } := by
  constructor
  · have hq : ((insert_at p cs0 ow.cse).map fun cs => inclusive_jets cs min_pt)
        = insert_at p [] (ow.cse.map fun cs => inclusive_jets cs min_pt) := by
      rw [map_insert_at, hempty]
    have hl : (ow.cse.map fun cs => (inclusive_jets cs min_pt).length)
        = (ow.cse.map fun cs => inclusive_jets cs min_pt).map List.length := by
      simp [Function.comp_def]
    have hl2 : ((insert_at p cs0 ow.cse).map fun cs => (inclusive_jets cs min_pt).length)
        = insert_at p 0 (ow.cse.map fun cs => (inclusive_jets cs min_pt).length) := by
      rw [map_insert_at, hempty]; rfl
    have hp2 : p ≤ (ow.cse.map fun cs => inclusive_jets cs min_pt).length := by simpa using hp
    refine ⟨_, _, _, _, _, jet_list_to_numpy_eq _ ow.cse, ?_, ?_, ?_, ?_, ?_, ?_⟩
    · rw [to_numpy, jet_list_to_numpy_eq]
      simp only [hq, flatten_insert_nil, hl2]
      rw [running_offsets_insert_zero p 0 _ (by simpa using hp)]
    · exact duplicate_at_getElem? _ p (by simp [running_offsets_length]; omega)
    · rw [hl]; exact slices_keep_column _ _ p hp2
    · rw [hl]; exact slices_keep_column _ _ p hp2
    · rw [hl]; exact slices_keep_column _ _ p hp2
    · rw [hl]; exact slices_keep_column _ _ p hp2
  · intro lim cluster bpx bpy bpz bE starts stops jetdef s h
    unfold interfacemulti at h ⊢
    cases hb : build_events lim cluster jetdef bpx bpy bpz bE starts stops 0 with
    | error f => rw [hb] at h; cases h
    | ok events =>
      rw [hb] at h
      simp only [Except.ok.injEq] at h
      subst h
      have hlen := build_events_length lim cluster jetdef bpx bpy bpz bE starts stops 0 events hb
      rw [build_events_insert lim cluster jetdef bpx bpy bpz bE s p starts stops 0 events hb
        (by simp at hp; omega)]
      simp only [map_insert_at]

/-- C16, worked example: a batch of one event with one jet, and an empty event
inserted in front of it.  The columns are unchanged and the offsets `[0, 1]`
become `[0, 0, 1]`. -/
theorem empty_event_does_not_perturb_witness :
    to_numpy (fun (cs : List (PseudoJet Int Unit)) (_ : Int) => cs)
        { cse := [[], [PseudoJet.mk 1 0 5 9 (some ())]], parts := [[], []] } 0
        = .ok ([some 1], [some 0], [some 5], [some 9], [some 0, some 0, some 1]) ∧
      ∃ (px py pz E : List Int) (off : List Nat),
        to_numpy (fun (cs : List (PseudoJet Int Unit)) (_ : Int) => cs)
            { cse := [[PseudoJet.mk 1 0 5 9 (some ())]], parts := [[]] } 0
          = .ok (px.map some, py.map some, pz.map some, E.map some, off.map some) ∧
        to_numpy (fun (cs : List (PseudoJet Int Unit)) (_ : Int) => cs)
            { cse := insert_at 0 [] [[PseudoJet.mk 1 0 5 9 (some ())]],
              parts := insert_at 0 [] [[]] } 0
          = .ok (px.map some, py.map some, pz.map some, E.map some,
              (duplicate_at 0 off).map some) :=
  ⟨rfl, by
    obtain ⟨px, py, pz, E, off, h1, h2, _⟩ :=
      (@empty_event_does_not_perturb Int Unit Unit (List (PseudoJet Int Unit))
        (fun cs _ => cs) 0 { cse := [[PseudoJet.mk 1 0 5 9 (some ())]], parts := [[]] }
        [] [] 0 (Nat.zero_le _) rfl).1
    exact ⟨px, py, pz, E, off, h1, h2⟩⟩

theorem running_offsets_shift (counts : List Nat) :
    ∀ prev k : Nat,
      running_offsets (prev + k) counts = (running_offsets prev counts).map (· + k) := by
  induction counts with
  | nil => intro prev k; rfl
  | cons n counts ih =>
    intro prev k
    simp only [running_offsets, List.map_cons]
    rw [show n + (prev + k) = n + prev + k by omega, ih]

theorem running_offsets_getLastD (counts : List Nat) :
    ∀ prev : Nat,
      (prev :: running_offsets prev counts).getLastD 0 = prev + counts.sum := by
  induction counts with
  | nil => intro prev; simp [running_offsets]
  | cons n counts ih =>
    intro prev
    have := ih (n + prev)
    simp only [running_offsets, List.getLastD_cons, List.sum_cons] at this ⊢
    rw [this]; omega

/-- C17.  For two batch handles `A` and `B`, `to_numpy` of the concatenated batch
returns value columns that are the columns of `A` followed by the columns of
`B`, and offsets that are the offsets of `A` followed by every entry of the
offsets of `B` except the first, each increased by the last entry of the offsets
of `A`. -/
theorem to_numpy_concatenated_batches {R H CS : Type}
    (inclusive_jets : CS → R → List (PseudoJet R H)) (min_pt : R)
    (A B : output_wrapper CS R H) :
    ∃ (pxA pyA pzA EA : List R) (offA : List Nat) (pxB pyB pzB EB : List R)
      (offB : List Nat),
      to_numpy inclusive_jets A min_pt
        = .ok (pxA.map some, pyA.map some, pzA.map some, EA.map some, offA.map some) ∧
      to_numpy inclusive_jets B min_pt
        = .ok (pxB.map some, pyB.map some, pzB.map some, EB.map some, offB.map some) ∧
      to_numpy inclusive_jets { cse := A.cse ++ B.cse, parts := A.parts ++ B.parts } min_pt
        = .ok ((pxA ++ pxB).map some, (pyA ++ pyB).map some, (pzA ++ pzB).map some,
            (EA ++ EB).map some,
            (offA ++ offB.tail.map (· + offA.getLastD 0)).map some) := by
  refine ⟨_, _, _, _, _, _, _, _, _, _, jet_list_to_numpy_eq _ A.cse,
    jet_list_to_numpy_eq _ B.cse, ?_⟩
  rw [to_numpy, jet_list_to_numpy_eq]
  simp only [List.map_append, List.flatten_append, running_offsets_append, List.tail_cons,
    running_offsets_getLastD, Nat.zero_add, List.cons_append]
  rw [← running_offsets_shift _ 0 _, Nat.zero_add]

theorem ecf_jets_loop_some {R H : Type} (result : FunctionOfPseudoJet R → PseudoJet R H → R)
    (correlator : FunctionOfPseudoJet R) (jets : List (PseudoJet R H)) :
    ∀ ECF_vec : List R,
      ecf_jets_loop result (some correlator) jets ECF_vec
        = .ok (ECF_vec ++ jets.map (result correlator)) := by
  induction jets with
  | nil => intro v; simp [ecf_jets_loop]
  | cons jet jets ih => intro v; simp [ecf_jets_loop, ih]

theorem ecf_loop_some {R H CS : Type} (query : CS → List (PseudoJet R H))
    (result : FunctionOfPseudoJet R → PseudoJet R H → R)
    (correlator : FunctionOfPseudoJet R) (css : List CS) :
    ∀ ECF_vec : List R,
      ecf_loop query result (some correlator) css ECF_vec
        = .ok (ECF_vec ++ (css.map query).flatten.map (result correlator)) := by
  induction css with
  | nil => intro v; simp [ecf_loop]
  | cons cs css ih => intro v; simp [ecf_loop, ecf_jets_loop_some, ih]

theorem ecf_loop_none {R H CS : Type} (query : CS → List (PseudoJet R H))
    (result : FunctionOfPseudoJet R → PseudoJet R H → R) (css : List CS)
    (hjet : ∃ cs ∈ css, query cs ≠ []) :
    ∀ ECF_vec : List R,
      ecf_loop query result none css ECF_vec = .error .null_dereference := by
  induction css with
  | nil => obtain ⟨cs, hcs, _⟩ := hjet; cases hcs
  | cons cs css ih =>
    intro v
    cases hq : query cs with
    | cons jet jets => simp only [ecf_loop, hq, ecf_jets_loop]; rfl
    | nil =>
      have hrest : ∃ c ∈ css, query c ≠ [] := by
        obtain ⟨c, hc, hne⟩ := hjet
        rcases List.mem_cons.mp hc with rfl | hc
        · exact absurd hq hne
        · exact ⟨c, hc, hne⟩
      simp [ecf_loop, hq, ecf_jets_loop, ih hrest]

theorem energy_correlator_none {R : Type} (func : String) (normalized : Bool)
    (beta npoint : R) (angles : Int) (alpha : R) (hfunc : func ∉ correlator_names) :
    energy_correlator func normalized beta npoint angles alpha = none := by
  simp only [correlator_names, List.mem_cons, List.mem_singleton, not_or, List.mem_nil_iff,
    or_false] at hfunc
  obtain ⟨h1, h2, h3, h4, h5, h6, h7, h8, h9, h10, h11, h12, h13, h14, h15, h16, h17, h18⟩ :=
    hfunc
  simp [energy_correlator, h1, h2, h3, h4, h5, h6, h7, h8, h9, h10, h11, h12, h13, h14, h15,
    h16, h17, h18]

theorem lookup_none_of_not_mem {β : Type} (name : String) (table : List (String × β))
    (h : name ∉ table.map Prod.fst) : table.lookup name = none := by
  induction table with
  | nil => rfl
  | cons e table ih =>
    obtain ⟨k, v⟩ := e
    simp only [List.map_cons, List.mem_cons, not_or] at h
    have hne : (name == k) = false := by simpa using h.1
    simp only [List.lookup, hne]
    exact ih h.2

/-- C18.  An unrecognised name selects the default of its family in four of the
five families: `NormalizedMeasure` and `KT_Axes` in `to_numpy_njettiness`,
`scalar_z` and `larger_pt` in `to_numpy_softdrop_grooming`.  In
`to_numpy_energy_correlators` it selects nothing: the pointer stays null, and
on a batch in which some event has an exclusive jet the call through it is a
fault. -/
theorem unrecognized_correlator_name_faults {R H CS : Type}
    (exclusive_jets : CS → Int → List (PseudoJet R H))
    (result : FunctionOfPseudoJet R → PseudoJet R H → R)
    (ow : output_wrapper CS R H) (n_jets : Int) (beta npoint : R) (angles : Int) (alpha : R)
    (func : String) (normalized : Bool)
    (measure_definition axes_definition symmetry_measure recursion_choice : String)
    (symmetry_cut R0 Rcutoff mu_cut akAxesR0 : R) (nPass : Int)
    (hmeasure : measure_definition ∉ measure_def_names_to_enum.map Prod.fst)
    (haxes : axes_definition ∉ axis_def_names_to_enum.map Prod.fst)
    (hsymmetry : symmetry_measure ∉ symmetry_measure_names)
    (hrecursion : recursion_choice ∉ recursion_choice_names)
    (hfunc : tolower func ∉ correlator_names)
    (hjet : ∃ cs ∈ ow.cse, exclusive_jets cs n_jets ≠ []) :
    routine measure_definition axes_definition beta R0 Rcutoff nPass akAxesR0
        = { axes_def := .KT_Axes, measure_def := .NormalizedMeasure beta R0 } ∧
      sd beta symmetry_cut symmetry_measure R0 recursion_choice mu_cut
        = { beta := beta, symmetry_cut := symmetry_cut, symmetry_measure := .scalar_z,
            R0 := R0, mu_cut := mu_cut, recursion_choice := .larger_pt } ∧
      energy_correlator (tolower func) normalized beta npoint angles alpha = none ∧
      to_numpy_energy_correlators exclusive_jets result ow n_jets beta npoint angles alpha
          func normalized
        = .error .null_dereference := by
  refine ⟨?_, ?_, energy_correlator_none _ _ _ _ _ _ hfunc, ?_⟩
  · simp only [routine, measdefenum, axesdefenum, lookup_none_of_not_mem _ _ hmeasure,
      lookup_none_of_not_mem _ _ haxes, measureDef, axesDef]
  · simp only [symmetry_measure_names, recursion_choice_names, List.mem_cons,
      List.mem_singleton, not_or, List.mem_nil_iff, or_false] at hsymmetry hrecursion
    obtain ⟨s1, s2, s3, s4, s5⟩ := hsymmetry
    obtain ⟨r1, r2, r3, r4⟩ := hrecursion
    simp [sd, sym_meas, rec_choice, s1, s2, s3, s4, s5, r1, r2, r3, r4]
  · simp only [to_numpy_energy_correlators, energy_correlator_none _ _ _ _ _ _ hfunc,
      ecf_loop_none _ result ow.cse hjet]
    rfl

/-- C18, worked example: the name `bogus` in each family, on a batch of one event
with one jet. -/
theorem unrecognized_correlator_name_faults_witness :
    to_numpy_energy_correlators (fun (cs : List (PseudoJet Int Unit)) _ => cs)
        (fun _ jet => jet.E) { cse := [[PseudoJet.mk 1 0 5 9 (some ())]], parts := [[]] }
        1 1 0 0 0 "bogus" true
      = .error .null_dereference ∧
    routine "bogus" "bogus" (1 : Int) 2 3 4 5
      = { axes_def := .KT_Axes, measure_def := .NormalizedMeasure 1 2 } :=
  have h := unrecognized_correlator_name_faults
    (fun (cs : List (PseudoJet Int Unit)) _ => cs) (fun _ jet => jet.E)
    { cse := [[PseudoJet.mk 1 0 5 9 (some ())]], parts := [[]] } 1 1 0 0 0 "bogus" true
    "bogus" "bogus" "bogus" "bogus" 0 2 3 0 5 4
    (by decide) (by decide) (by decide) (by decide) (by decide)
    ⟨[PseudoJet.mk 1 0 5 9 (some ())], List.mem_singleton.mpr rfl, by simp⟩
  ⟨h.2.2.2, h.1⟩

/-- C19 (as amended).  In `to_numpy_njettiness`, each of the five measure names
and each of the eleven axes names for which the `switch` has a case selects the
object of the class of the same name, whatever the other arguments; hence two
distinct such measure names select distinct measures and two distinct such axes
names select distinct axes definitions. -/
theorem njettiness_switched_names_select_same_name {R : Type} (beta R0 Rcutoff akAxesR0 : R)
    (nPass : Int) (measure_definition axes_definition : String)
    (hmeasure : measure_definition ∈ switched_measure_names)
    (haxes : axes_definition ∈ switched_axes_names) :
    (routine measure_definition axes_definition beta R0 Rcutoff nPass akAxesR0).measure_def.name
        = measure_definition ∧
      (routine measure_definition axes_definition beta R0 Rcutoff nPass akAxesR0).axes_def.name
        = axes_definition ∧
      (∀ other ∈ switched_measure_names, other ≠ measure_definition →
        (routine other axes_definition beta R0 Rcutoff nPass akAxesR0).measure_def
          ≠ (routine measure_definition axes_definition beta R0 Rcutoff nPass
              akAxesR0).measure_def) ∧
      (∀ other ∈ switched_axes_names, other ≠ axes_definition →
        (routine measure_definition other beta R0 Rcutoff nPass akAxesR0).axes_def
          ≠ (routine measure_definition axes_definition beta R0 Rcutoff nPass
              akAxesR0).axes_def) := by
  have hm : ∀ m ∈ switched_measure_names,
      (measureDef beta R0 Rcutoff (measdefenum m)).name = m := by
    intro m hmem
    simp only [switched_measure_names, List.mem_cons, List.mem_singleton, List.mem_nil_iff,
      or_false] at hmem
    rcases hmem with rfl | rfl | rfl | rfl | rfl <;> rfl
  have ha : ∀ a ∈ switched_axes_names,
      (axesDef nPass akAxesR0 (axesdefenum a)).name = a := by
    intro a hmem
    simp only [switched_axes_names, List.mem_cons, List.mem_singleton, List.mem_nil_iff,
      or_false] at hmem
    rcases hmem with rfl | rfl | rfl | rfl | rfl | rfl | rfl | rfl | rfl | rfl | rfl <;> rfl
  refine ⟨hm _ hmeasure, ha _ haxes, ?_, ?_⟩
  · intro other hother hne heq
    apply hne
    have := congrArg MeasureDefinition.name heq
    simp only [routine] at this
    rw [hm _ hother, hm _ hmeasure] at this
    exact this
  · intro other hother hne heq
    apply hne
    have := congrArg AxesDefinition.name heq
    simp only [routine] at this
    rw [ha _ hother, ha _ haxes] at this
    exact this

/-- C19, worked example: the names `UnnormalizedCutoffMeasure` and
`OnePass_AntiKT_Axes` select the objects of these classes. -/
theorem njettiness_switched_names_select_same_name_witness :
    routine "UnnormalizedCutoffMeasure" "OnePass_AntiKT_Axes" (1 : Int) 2 3 4 5
        = { axes_def := .OnePass_AntiKT_Axes 5, measure_def := .UnnormalizedCutoffMeasure 1 3 } ∧
      (routine "UnnormalizedCutoffMeasure" "OnePass_AntiKT_Axes" (1 : Int) 2 3 4
          5).measure_def.name = "UnnormalizedCutoffMeasure" ∧
      (routine "UnnormalizedCutoffMeasure" "OnePass_AntiKT_Axes" (1 : Int) 2 3 4
          5).axes_def.name = "OnePass_AntiKT_Axes" :=
  have h := njettiness_switched_names_select_same_name (1 : Int) 2 3 5 4
    "UnnormalizedCutoffMeasure" "OnePass_AntiKT_Axes" (by decide) (by decide)
  ⟨rfl, h.1, h.2.1⟩

/-- C19 as stated fails: the names `GeometricCutoffMeasure`, `Manual_Axes` and
`OnePass_Manual_Axes` are in the tables, with enumeration values of their own,
but the `switch` statements have no case for these values: the first selects
the same measure as `NormalizedMeasure`, the other two the same axes as
`KT_Axes`. -/
theorem njettiness_recognized_names_collide :
    measure_def_names_to_enum.lookup "GeometricCutoffMeasure"
        = some MeasureDefinition_t.GeometricCutoffMeasure ∧
      axis_def_names_to_enum.lookup "Manual_Axes" = some AxesDefinition_t.Manual_Axes ∧
      axis_def_names_to_enum.lookup "OnePass_Manual_Axes"
        = some AxesDefinition_t.OnePass_Manual_Axes ∧
      routine "GeometricCutoffMeasure" "Manual_Axes" (1 : Int) 2 3 4 5
        = routine "NormalizedMeasure" "KT_Axes" 1 2 3 4 5 ∧
      routine "GeometricCutoffMeasure" "OnePass_Manual_Axes" (1 : Int) 2 3 4 5
        = { axes_def := .KT_Axes, measure_def := .NormalizedMeasure 1 2 } :=
  ⟨rfl, rfl, rfl, rfl, rfl⟩

/-- C20.  In `to_numpy_energy_correlators`, for every batch and all other
arguments, the call with `func = "generic"` and `normalized = true` returns the
same array as the call with `func = "generalized"` (with either value of
`normalized`): both return the values of the generalized correlator built from
`angles`, `npoint` and `beta` on the exclusive jets, in event order then jet
order. -/
theorem generic_normalized_equals_generalized {R H CS : Type}
    (exclusive_jets : CS → Int → List (PseudoJet R H))
    (result : FunctionOfPseudoJet R → PseudoJet R H → R)
    (ow : output_wrapper CS R H) (n_jets : Int) (beta npoint : R) (angles : Int) (alpha : R)
    (normalized : Bool) :
    to_numpy_energy_correlators exclusive_jets result ow n_jets beta npoint angles alpha
          "generic" true
        = to_numpy_energy_correlators exclusive_jets result ow n_jets beta npoint angles alpha
          "generalized" normalized ∧
      to_numpy_energy_correlators exclusive_jets result ow n_jets beta npoint angles alpha
          "generic" true
        = .ok (((ow.cse.map fun cs => exclusive_jets cs n_jets).flatten.map
            (result (.EnergyCorrelatorGeneralized angles npoint beta))).map some) := by
  have h1 : energy_correlator (tolower "generic") true beta npoint angles alpha
      = some (.EnergyCorrelatorGeneralized angles npoint beta) := rfl
  have h2 : energy_correlator (tolower "generalized") normalized beta npoint angles alpha
      = some (.EnergyCorrelatorGeneralized angles npoint beta) := rfl
  simp only [to_numpy_energy_correlators, h1, h2, ecf_loop_some, List.nil_append,
    except_ok_bind, and_self]

theorem push_constituents_eq {R H : Type} (cs : List (PseudoJet R H)) :
    ∀ v : GroomedVectors R,
      push_constituents cs v
        = { v with
            consts_groomed_px := v.consts_groomed_px ++ cs.map (·.px),
            consts_groomed_py := v.consts_groomed_py ++ cs.map (·.py),
            consts_groomed_pz := v.consts_groomed_pz ++ cs.map (·.pz),
            consts_groomed_E := v.consts_groomed_E ++ cs.map (·.E) } := by
  induction cs with
  | nil => intro v; simp [push_constituents]
  | cons c cs ih => intro v; simp [push_constituents, ih]

theorem push_rows_nil {R H CS : Type} (engine : SoftDropEngine R H CS) (quiet_NaN : R)
    (v : GroomedVectors R) : push_rows engine quiet_NaN [] v = v := by
  simp [push_rows]

theorem push_rows_append {R H CS : Type} (engine : SoftDropEngine R H CS) (quiet_NaN : R)
    (a b : List (PseudoJet R H)) (v : GroomedVectors R) :
    push_rows engine quiet_NaN b (push_rows engine quiet_NaN a v)
      = push_rows engine quiet_NaN (a ++ b) v := by
  simp [push_rows]

theorem returned_constituents_ok {R H CS : Type} (engine : SoftDropEngine R H CS)
    (soft : PseudoJet R H) (constituents : List (PseudoJet R H))
    (h : engine.constituents soft = .ok constituents) :
    returned_constituents engine soft = constituents := by
  simp [returned_constituents, h]

/-- One iteration of the jet loop whose call of `constituents()` returns. -/
theorem groom_jet_step {R H CS : Type} (engine : SoftDropEngine R H CS) (quiet_NaN : R)
    (soft : PseudoJet R H) (constituents : List (PseudoJet R H))
    (h : engine.constituents soft = .ok constituents) (v : GroomedVectors R) :
    push_constituents constituents
        { push_jet_row engine quiet_NaN soft v with
          nconstituents := (push_jet_row engine quiet_NaN soft v).nconstituents
            ++ [constituents.length] }
      = push_rows engine quiet_NaN [soft] v := by
  rw [push_constituents_eq]
  by_cases hz : engine.ne_zero soft = true <;>
    simp [push_jet_row, push_rows, jet_row, hz, returned_constituents_ok engine soft _ h]

theorem groom_jets_loop_inv {R H CS : Type} (engine : SoftDropEngine R H CS) (quiet_NaN : R)
    (sd : SoftDrop R) (jets : List (PseudoJet R H)) :
    ∀ v w : GroomedVectors R,
      groom_jets_loop engine quiet_NaN sd jets v = .ok w →
      ConstituentsReturn engine (jets.map (engine.result sd)) ∧
        w = push_rows engine quiet_NaN (jets.map (engine.result sd)) v := by
  induction jets with
  | nil =>
    intro v w h
    simp only [groom_jets_loop, Except.ok.injEq] at h
    subst h
    exact ⟨fun soft hs => by simp at hs, by simp [push_rows_nil]⟩
  | cons jet jets ih =>
    intro v w h
    simp only [groom_jets_loop] at h
    cases hc : engine.constituents (engine.result sd jet) with
    | error f => rw [hc] at h; cases h
    | ok constituents =>
      rw [hc] at h
      simp only [except_ok_bind] at h
      rw [groom_jet_step engine quiet_NaN _ constituents hc] at h
      obtain ⟨h1, h2⟩ := ih _ w h
      refine ⟨?_, ?_⟩
      · intro soft hs
        simp only [List.map_cons, List.mem_cons] at hs
        rcases hs with rfl | hs
        · exact ⟨constituents, hc⟩
        · exact h1 soft hs
      · rw [h2, push_rows_append]
        rfl

theorem groom_jets_loop_ok {R H CS : Type} (engine : SoftDropEngine R H CS) (quiet_NaN : R)
    (sd : SoftDrop R) (jets : List (PseudoJet R H)) :
    ∀ v : GroomedVectors R, ConstituentsReturn engine (jets.map (engine.result sd)) →
      groom_jets_loop engine quiet_NaN sd jets v
        = .ok (push_rows engine quiet_NaN (jets.map (engine.result sd)) v) := by
  induction jets with
  | nil => intro v _; simp [groom_jets_loop, push_rows_nil]
  | cons jet jets ih =>
    intro v hret
    obtain ⟨constituents, hc⟩ := hret (engine.result sd jet) (by simp)
    simp only [groom_jets_loop, hc, except_ok_bind]
    rw [groom_jet_step engine quiet_NaN _ constituents hc,
      ih _ fun soft hs => hret soft (by simp only [List.map_cons, List.mem_cons]; exact Or.inr hs),
      push_rows_append]
    rfl

theorem groom_loop_inv {R H CS : Type} (engine : SoftDropEngine R H CS) (quiet_NaN : R)
    (sd : SoftDrop R) (n_jets : Int) (css : List CS) :
    ∀ v w : GroomedVectors R,
      groom_loop engine quiet_NaN sd n_jets css v = .ok w →
      ConstituentsReturn engine (groomed_jets engine sd n_jets css) ∧
        w = push_rows engine quiet_NaN (groomed_jets engine sd n_jets css) v := by
  induction css with
  | nil =>
    intro v w h
    simp only [groom_loop, Except.ok.injEq] at h
    subst h
    exact ⟨fun soft hs => by simp [groomed_jets] at hs, by simp [groomed_jets, push_rows_nil]⟩
  | cons cs css ih =>
    intro v w h
    simp only [groom_loop] at h
    cases hj : groom_jets_loop engine quiet_NaN sd (engine.exclusive_jets cs n_jets) v with
    | error f => rw [hj] at h; cases h
    | ok u =>
      rw [hj] at h
      simp only [except_ok_bind] at h
      obtain ⟨h1, h2⟩ := groom_jets_loop_inv engine quiet_NaN sd _ v u hj
      obtain ⟨h3, h4⟩ := ih u w h
      refine ⟨?_, ?_⟩
      · intro soft hs
        simp only [groomed_jets, List.map_cons, List.flatten_cons, List.mem_append] at hs
        rcases hs with hs | hs
        · exact h1 soft hs
        · exact h3 soft hs
      · rw [h4, h2, push_rows_append]
        simp [groomed_jets]

theorem groom_loop_ok {R H CS : Type} (engine : SoftDropEngine R H CS) (quiet_NaN : R)
    (sd : SoftDrop R) (n_jets : Int) (css : List CS) :
    ∀ v : GroomedVectors R, ConstituentsReturn engine (groomed_jets engine sd n_jets css) →
      groom_loop engine quiet_NaN sd n_jets css v
        = .ok (push_rows engine quiet_NaN (groomed_jets engine sd n_jets css) v) := by
  induction css with
  | nil => intro v _; simp [groom_loop, groomed_jets, push_rows_nil]
  | cons cs css ih =>
    intro v hret
    have h1 : ConstituentsReturn engine
        ((engine.exclusive_jets cs n_jets).map (engine.result sd)) := fun soft hs =>
      hret soft (by
        simp only [groomed_jets, List.map_cons, List.flatten_cons, List.mem_append]
        exact Or.inl hs)
    have h2 : ConstituentsReturn engine (groomed_jets engine sd n_jets css) := fun soft hs =>
      hret soft (by
        simp only [groomed_jets, List.map_cons, List.flatten_cons, List.mem_append]
        exact Or.inr hs)
    simp only [groom_loop, groom_jets_loop_ok engine quiet_NaN sd _ v h1, except_ok_bind,
      ih _ h2, push_rows_append]
    simp [groomed_jets]

/-- When the call returns, every call of `constituents()` returned and the arrays
are those made from the rows of the groomed jets, in event order then jet
order. -/
theorem to_numpy_softdrop_grooming_inv {R H CS : Type} (engine : SoftDropEngine R H CS)
    (quiet_NaN : R) (ow : output_wrapper CS R H) (n_jets : Int) (beta symmetry_cut : R)
    (symmetry_measure : String) (R0 : R) (recursion_choice : String) (mu_cut : R)
    (arrays : GroomedArrays R)
    (h : to_numpy_softdrop_grooming engine quiet_NaN ow n_jets beta symmetry_cut
      symmetry_measure R0 recursion_choice mu_cut = .ok arrays) :
    ConstituentsReturn engine
        (groomed_jets engine (sd beta symmetry_cut symmetry_measure R0 recursion_choice mu_cut)
          n_jets ow.cse) ∧
      arrays = groomed_arrays engine quiet_NaN
        (groomed_jets engine (sd beta symmetry_cut symmetry_measure R0 recursion_choice mu_cut)
          n_jets ow.cse) := by
  simp only [to_numpy_softdrop_grooming] at h
  cases hl : groom_loop engine quiet_NaN
      (sd beta symmetry_cut symmetry_measure R0 recursion_choice mu_cut) n_jets ow.cse
      { consts_groomed_px := [], consts_groomed_py := [], consts_groomed_pz := [],
        consts_groomed_E := [], nconstituents := [], jet_groomed_pt := [],
        jet_groomed_eta := [], jet_groomed_phi := [], jet_groomed_m := [], jet_groomed_E := [],
        jet_groomed_pz := [], jet_groomed_delta_R := [], jet_groomed_symmetry := [] } with
  | error f => rw [hl] at h; cases h
  | ok w =>
    rw [hl] at h
    simp only [except_ok_bind, Except.ok.injEq] at h
    obtain ⟨h1, h2⟩ := groom_loop_inv engine quiet_NaN _ n_jets ow.cse _ w hl
    refine ⟨h1, ?_⟩
    rw [← h, h2]
    rfl

/-- When every call of `constituents()` returns, the call returns. -/
theorem to_numpy_softdrop_grooming_ok {R H CS : Type} (engine : SoftDropEngine R H CS)
    (quiet_NaN : R) (ow : output_wrapper CS R H) (n_jets : Int) (beta symmetry_cut : R)
    (symmetry_measure : String) (R0 : R) (recursion_choice : String) (mu_cut : R)
    (hret : ConstituentsReturn engine
      (groomed_jets engine (sd beta symmetry_cut symmetry_measure R0 recursion_choice mu_cut)
        n_jets ow.cse)) :
    to_numpy_softdrop_grooming engine quiet_NaN ow n_jets beta symmetry_cut symmetry_measure
        R0 recursion_choice mu_cut
      = .ok (groomed_arrays engine quiet_NaN
        (groomed_jets engine (sd beta symmetry_cut symmetry_measure R0 recursion_choice mu_cut)
          n_jets ow.cse)) := by
  simp only [to_numpy_softdrop_grooming, groom_loop_ok engine quiet_NaN _ n_jets ow.cse _ hret,
    except_ok_bind]
  rfl

/-- When one call of `constituents()` throws, the call fails. -/
theorem to_numpy_softdrop_grooming_fails {R H CS : Type} (engine : SoftDropEngine R H CS)
    (quiet_NaN : R) (ow : output_wrapper CS R H) (n_jets : Int) (beta symmetry_cut : R)
    (symmetry_measure : String) (R0 : R) (recursion_choice : String) (mu_cut : R)
    (soft : PseudoJet R H) (f : Fault)
    (hs : soft ∈ groomed_jets engine
      (sd beta symmetry_cut symmetry_measure R0 recursion_choice mu_cut) n_jets ow.cse)
    (hf : engine.constituents soft = .error f) :
    Fails (to_numpy_softdrop_grooming engine quiet_NaN ow n_jets beta symmetry_cut
      symmetry_measure R0 recursion_choice mu_cut) := by
  cases hres : to_numpy_softdrop_grooming engine quiet_NaN ow n_jets beta symmetry_cut
      symmetry_measure R0 recursion_choice mu_cut with
  | error f2 => exact ⟨f2, rfl⟩
  | ok arrays =>
    obtain ⟨hret, _⟩ := to_numpy_softdrop_grooming_inv engine quiet_NaN ow n_jets beta
      symmetry_cut symmetry_measure R0 recursion_choice mu_cut arrays hres
    obtain ⟨l, hl⟩ := hret soft hs
    rw [hf] at hl
    cases hl

theorem groomed_jets_getElem? {R H CS : Type} (engine : SoftDropEngine R H CS)
    (sd : SoftDrop R) (n_jets : Int) (css : List CS) (i j : Nat) (cs : CS)
    (jet : PseudoJet R H) (hi : css[i]? = some cs)
    (hj : (engine.exclusive_jets cs n_jets)[j]? = some jet) :
    (groomed_jets engine sd n_jets css)[row_index engine n_jets css i j]?
      = some (engine.result sd jet) := by
  have h := flatten_getElem?
    (css.map fun cs => (engine.exclusive_jets cs n_jets).map (engine.result sd)) i j
    ((engine.exclusive_jets cs n_jets).map (engine.result sd)) (engine.result sd jet)
    (by simp [hi]) (by simp [hj])
  simp only [List.map_map] at h
  have e : (List.length ∘ fun cs => (engine.exclusive_jets cs n_jets).map (engine.result sd))
      = fun cs => (engine.exclusive_jets cs n_jets).length := by
    funext c; simp
  rw [e] at h
  exact h

theorem groomed_jets_length {R H CS : Type} (engine : SoftDropEngine R H CS)
    (sd : SoftDrop R) (n_jets : Int) (css : List CS) :
    (groomed_jets engine sd n_jets css).length
      = (css.map fun cs => (engine.exclusive_jets cs n_jets).length).sum := by
  simp [groomed_jets, List.length_flatten, Function.comp_def]

theorem length_flatten_map {α β : Type} (f : α → List β) (l : List α) :
    (l.map f).flatten.length = (l.map fun a => (f a).length).sum := by
  simp [List.length_flatten, Function.comp_def]

theorem groomed_arrays_rows {R H CS : Type} (engine : SoftDropEngine R H CS) (quiet_NaN : R)
    (softs : List (PseudoJet R H)) :
    GroomedRows (groomed_arrays engine quiet_NaN softs) engine quiet_NaN softs := by
  simp only [GroomedRows, groomed_arrays, push_rows, List.nil_append, and_self]

theorem groomed_arrays_lengths {R H CS : Type} (engine : SoftDropEngine R H CS) (quiet_NaN : R)
    (softs : List (PseudoJet R H)) :
    GroomedLengths (groomed_arrays engine quiet_NaN softs) softs.length := by
  simp only [GroomedLengths, groomed_arrays, push_rows, List.nil_append, List.length_map,
    true_and]
  exact ⟨_, rfl, (length_flatten_map _ _).symm, trivial⟩

theorem groomed_arrays_nan_row {R H CS : Type} (engine : SoftDropEngine R H CS) (quiet_NaN : R)
    (softs : List (PseudoJet R H)) (g : Nat) (soft : PseudoJet R H)
    (hg : softs[g]? = some soft) (hnull : engine.ne_zero soft = false) :
    NaNRow (groomed_arrays engine quiet_NaN softs) quiet_NaN g := by
  simp only [NaNRow, groomed_arrays, push_rows, List.nil_append, List.getElem?_map, hg,
    Option.map_some', jet_row, hnull, Bool.false_eq_true, if_false, and_self]

/-- C22.  In `to_numpy_softdrop_grooming`, take an exclusive jet whose groomed jet
compares equal to zero (the null jet that the groomer returns when no split
survives), the `j`-th exclusive jet of event `i`.  The `else` branch pushes the
NaN value to all eight jet-level vectors `pt`, `eta`, `phi`, `m`, `E`, `pz`,
`delta_R`, `symmetry`, so whenever the call returns, the row of index `row_index`
holds the NaN value in all eight columns.  After the branch the lambda calls
`constituents()` on the groomed jet unconditionally: when the engine throws
there, as it does for a jet without structure, the call fails and returns no
row. -/
theorem null_groomed_jet_row_then_constituents {R H CS : Type}
    (engine : SoftDropEngine R H CS)
    (quiet_NaN : R) (ow : output_wrapper CS R H) (n_jets : Int) (beta symmetry_cut : R)
    (symmetry_measure : String) (R0 : R) (recursion_choice : String) (mu_cut : R)
    (i j : Nat) (cs : CS) (jet : PseudoJet R H) (hi : ow.cse[i]? = some cs)
    (hj : (engine.exclusive_jets cs n_jets)[j]? = some jet)
    (hnull : engine.ne_zero
      (engine.result (sd beta symmetry_cut symmetry_measure R0 recursion_choice mu_cut) jet)
      = false) :
    (∀ f, engine.constituents
        (engine.result (sd beta symmetry_cut symmetry_measure R0 recursion_choice mu_cut) jet)
        = .error f →
      Fails (to_numpy_softdrop_grooming engine quiet_NaN ow n_jets beta symmetry_cut
        symmetry_measure R0 recursion_choice mu_cut)) ∧
    ∀ arrays, to_numpy_softdrop_grooming engine quiet_NaN ow n_jets beta symmetry_cut
        symmetry_measure R0 recursion_choice mu_cut = .ok arrays →
      NaNRow arrays quiet_NaN (row_index engine n_jets ow.cse i j) := by
  have hg := groomed_jets_getElem? engine
    (sd beta symmetry_cut symmetry_measure R0 recursion_choice mu_cut) n_jets ow.cse i j cs jet
    hi hj
  refine ⟨?_, ?_⟩
  · intro f hf
    exact to_numpy_softdrop_grooming_fails engine quiet_NaN ow n_jets beta symmetry_cut
      symmetry_measure R0 recursion_choice mu_cut _ f (List.mem_iff_getElem?.2 ⟨_, hg⟩) hf
  · intro arrays h
    obtain ⟨_, harr⟩ := to_numpy_softdrop_grooming_inv engine quiet_NaN ow n_jets beta
      symmetry_cut symmetry_measure R0 recursion_choice mu_cut arrays h
    rw [harr]
    exact groomed_arrays_nan_row engine quiet_NaN _ _ _ hg hnull

/-- C22, worked example: one event with one exclusive jet, for which the groomer
returns the null jet; `-1` stands for the NaN value.  With an engine whose
`constituents()` throws for a jet without structure the call fails, with the
engine's error.  With an engine whose `constituents()` returns the empty list for
it, the call returns and the row of index `0` holds the NaN value in all eight
columns. -/
theorem null_groomed_jet_row_then_constituents_witness :
    Fails
        (to_numpy_softdrop_grooming
          { exclusive_jets := fun (cs : List (PseudoJet Int Unit)) _ => cs,
            result := fun _ _ => PseudoJet.mk 0 0 0 0 none,
            ne_zero := fun soft => decide (soft.E ≠ 0),
            pt := fun soft => soft.px, eta := fun soft => soft.py, phi := fun soft => soft.pz,
            m := fun soft => soft.E, delta_R := fun _ => 0, symmetry := fun _ => 0,
            constituents := fun soft =>
              match soft.hist with
              | none => .error .engine_error
              | some _ => .ok [soft] }
          (-1) { cse := [[PseudoJet.mk 1 0 5 9 (some ())]], parts := [[]] } 1 0 0 "scalar_z" 0
          "larger_pt" 0) ∧
      to_numpy_softdrop_grooming
          { exclusive_jets := fun (cs : List (PseudoJet Int Unit)) _ => cs,
            result := fun _ _ => PseudoJet.mk 0 0 0 0 none,
            ne_zero := fun soft => decide (soft.E ≠ 0),
            pt := fun soft => soft.px, eta := fun soft => soft.py, phi := fun soft => soft.pz,
            m := fun soft => soft.E, delta_R := fun _ => 0, symmetry := fun _ => 0,
            constituents := fun soft =>
              match soft.hist with
              | none => .error .engine_error
              | some _ => .ok [soft] }
          (-1) { cse := [[PseudoJet.mk 1 0 5 9 (some ())]], parts := [[]] } 1 0 0 "scalar_z" 0
          "larger_pt" 0
        = .error .engine_error ∧
      ∃ arrays,
        to_numpy_softdrop_grooming
            { exclusive_jets := fun (cs : List (PseudoJet Int Unit)) _ => cs,
              result := fun _ _ => PseudoJet.mk 0 0 0 0 none,
              ne_zero := fun soft => decide (soft.E ≠ 0),
              pt := fun soft => soft.px, eta := fun soft => soft.py,
              phi := fun soft => soft.pz, m := fun soft => soft.E, delta_R := fun _ => 0,
              symmetry := fun _ => 0, constituents := fun _ => .ok [] }
            (-1) { cse := [[PseudoJet.mk 1 0 5 9 (some ())]], parts := [[]] } 1 0 0
            "scalar_z" 0 "larger_pt" 0
          = .ok arrays ∧
        arrays.jet_pt = [some (-1)] ∧ arrays.jet_symmetry = [some (-1)] ∧
        NaNRow arrays (-1) 0 :=
  ⟨(null_groomed_jet_row_then_constituents
      { exclusive_jets := fun (cs : List (PseudoJet Int Unit)) _ => cs,
        result := fun _ _ => PseudoJet.mk 0 0 0 0 none,
        ne_zero := fun soft => decide (soft.E ≠ 0),
        pt := fun soft => soft.px, eta := fun soft => soft.py, phi := fun soft => soft.pz,
        m := fun soft => soft.E, delta_R := fun _ => 0, symmetry := fun _ => 0,
        constituents := fun soft =>
          match soft.hist with
          | none => .error .engine_error
          | some _ => .ok [soft] }
      (-1) { cse := [[PseudoJet.mk 1 0 5 9 (some ())]], parts := [[]] } 1 0 0 "scalar_z" 0
      "larger_pt" 0 0 0 [PseudoJet.mk 1 0 5 9 (some ())] (PseudoJet.mk 1 0 5 9 (some ()))
      rfl rfl rfl).1 Fault.engine_error rfl,
    rfl,
    _, rfl, rfl, rfl,
    (null_groomed_jet_row_then_constituents
      { exclusive_jets := fun (cs : List (PseudoJet Int Unit)) _ => cs,
        result := fun _ _ => PseudoJet.mk 0 0 0 0 none,
        ne_zero := fun soft => decide (soft.E ≠ 0),
        pt := fun soft => soft.px, eta := fun soft => soft.py, phi := fun soft => soft.pz,
        m := fun soft => soft.E, delta_R := fun _ => 0, symmetry := fun _ => 0,
        constituents := fun _ => .ok [] }
      (-1) { cse := [[PseudoJet.mk 1 0 5 9 (some ())]], parts := [[]] } 1 0 0 "scalar_z" 0
      "larger_pt" 0 0 0 [PseudoJet.mk 1 0 5 9 (some ())] (PseudoJet.mk 1 0 5 9 (some ()))
      rfl rfl rfl).2 _ rfl⟩

theorem foldl_push {α β : Type} (f : α → β) (l : List α) :
    ∀ acc : List β, l.foldl (fun acc a => acc ++ [f a]) acc = acc ++ l.map f := by
  induction l with
  | nil => intro acc; simp
  | cons a l ih => intro acc; simp [ih]

theorem foldl_push_rows {α β : Type} (row : α → List β) (l : List α) :
    ∀ acc : List β, l.foldl (fun acc a => acc ++ row a) acc = acc ++ (l.map row).flatten := by
  induction l with
  | nil => intro acc; simp
  | cons a l ih => intro acc; simp [ih]

/-- The vector `taus` in closed form: one row per retained particle list, one
value per entry of `njets`. -/
theorem taus_eq {R H : Type} (getTau : Njettiness R → Nat → List (PseudoJet R H) → R)
    (routine : Njettiness R) (constituents : List (List (PseudoJet R H))) (njets : List Nat) :
    taus getTau routine constituents njets
      = (constituents.map fun particles =>
          njets.map fun n => getTau routine n particles).flatten := by
  unfold taus
  have h : (fun (taus : List R) (particles : List (PseudoJet R H)) =>
        njets.foldl (fun taus n => taus ++ [getTau routine n particles]) taus)
      = fun taus particles => taus ++ njets.map fun n => getTau routine n particles := by
    funext acc particles
    exact foldl_push (fun n => getTau routine n particles) njets acc
  rw [h, foldl_push_rows]
  simp

theorem taus_length {R H : Type} (getTau : Njettiness R → Nat → List (PseudoJet R H) → R)
    (routine : Njettiness R) (constituents : List (List (PseudoJet R H))) (njets : List Nat) :
    (taus getTau routine constituents njets).length = constituents.length * njets.length := by
  rw [taus_eq]
  induction constituents with
  | nil => simp
  | cons ps constituents ih =>
    simp only [List.map_cons, List.flatten_cons, List.length_append, List.length_map, ih,
      List.length_cons]
    ring

theorem taus_getElem? {R H : Type} (getTau : Njettiness R → Nat → List (PseudoJet R H) → R)
    (routine : Njettiness R) (constituents : List (List (PseudoJet R H))) (njets : List Nat)
    (i k n : Nat) (particles : List (PseudoJet R H)) (hi : constituents[i]? = some particles)
    (hk : njets[k]? = some n) :
    (taus getTau routine constituents njets)[i * njets.length + k]?
      = some (getTau routine n particles) := by
  rw [taus_eq]
  have h := flatten_getElem?
    (constituents.map fun particles => njets.map fun n => getTau routine n particles) i k
    (njets.map fun n => getTau routine n particles) (getTau routine n particles)
    (by simp [hi]) (by simp [hk])
  have e : (((constituents.map fun particles =>
        njets.map fun n => getTau routine n particles).map List.length).take i).sum
      = i * njets.length := by
    have hlt : i < constituents.length := by
      by_contra hc
      rw [List.getElem?_eq_none (by omega)] at hi
      cases hi
    simp only [List.map_map, Function.comp_def, List.length_map, List.map_const',
      List.take_replicate, List.sum_replicate, smul_eq_mul]
    rw [Nat.min_eq_left (by omega)]
  rw [e] at h
  exact h

theorem interfacemulti_lengths {R H JD CS : Type} (lim : VectorLimits)
    (cluster : List (PseudoJet R H) → JD → CS) (px py pz E : List R) (starts stops : List Int)
    (jetdef : JD) (ow : output_wrapper CS R H)
    (h : interfacemulti lim cluster px py pz E starts stops jetdef = .ok ow) :
    ow.cse.length = starts.length ∧ ow.parts.length = starts.length := by
  unfold interfacemulti at h
  cases hb : build_events lim cluster jetdef px py pz E starts stops 0 with
  | error f => rw [hb] at h; cases h
  | ok events =>
    rw [hb] at h
    simp only [Except.ok.injEq] at h
    subst h
    have := build_events_length lim cluster jetdef px py pz E starts stops 0 events hb
    simp [this]

/-- C23.  For `to_numpy_njettiness` with a non-empty list `njets`, the call returns
an array of shape `(ow.parts.size(), njets.size())` whose entry `(i, k)`, stored
at position `i * njets.size() + k`, is the value `getTau(njets[k], parts[i])` of
the selected routine on the retained particle list of event `i`.  The result is
the same for every batch with the same retained particle lists, whatever its
cluster sequences, and a batch built by `interfacemulti` has one retained
particle list per event, so the row count is `eventCount`. -/
theorem njettiness_matrix {R H JD CS : Type}
    (getTau : Njettiness R → Nat → List (PseudoJet R H) → R)
    (ow : output_wrapper CS R H) (measure_definition axes_definition : String)
    (njets : List Nat) (beta R0 Rcutoff : R) (nPass : Int) (akAxesR0 : R)
    (hnjets : njets ≠ []) :
    (∃ data : List R,
      to_numpy_njettiness getTau ow measure_definition axes_definition njets beta R0 Rcutoff
          nPass akAxesR0
        = .ok ((ow.parts.length, njets.length), data.map some) ∧
      data.length = ow.parts.length * njets.length ∧
      ∀ (i k n : Nat) (particles : List (PseudoJet R H)),
        ow.parts[i]? = some particles → njets[k]? = some n →
        data[i * njets.length + k]?
          = some (getTau
              (routine measure_definition axes_definition beta R0 Rcutoff nPass akAxesR0)
              n particles)) ∧
    (∀ cse : List CS,
      to_numpy_njettiness getTau { cse := cse, parts := ow.parts } measure_definition
          axes_definition njets beta R0 Rcutoff nPass akAxesR0
        = to_numpy_njettiness getTau ow measure_definition axes_definition njets beta R0
          Rcutoff nPass akAxesR0) ∧
    ∀ (lim : VectorLimits) (cluster : List (PseudoJet R H) → JD → CS)
      (px py pz E : List R) (starts stops : List Int) (jetdef : JD),
      interfacemulti lim cluster px py pz E starts stops jetdef = .ok ow →
      ow.parts.length = ow.cse.length := by
  have hlen : njets.length ≠ 0 := by
    cases njets with
    | nil => exact absurd rfl hnjets
    | cons n njets => simp
  refine ⟨⟨taus getTau
      (routine measure_definition axes_definition beta R0 Rcutoff nPass akAxesR0) ow.parts njets,
    ?_, taus_length getTau _ ow.parts njets, ?_⟩, fun _ => rfl, ?_⟩
  · simp only [to_numpy_njettiness, hlen, if_false, taus_length]
    rw [Nat.mul_div_cancel _ (Nat.pos_of_ne_zero hlen)]
  · intro i k n particles hi hk
    exact taus_getElem? getTau _ ow.parts njets i k n particles hi hk
  · intro lim cluster px py pz E starts stops jetdef h
    have := interfacemulti_lengths lim cluster px py pz E starts stops jetdef ow h
    omega

/-- C23, worked example: two events with one and two retained particles and
`njets = [1, 2]`, with a stand-in for `getTau` that returns `n` plus the number
of particles.  The result has shape `(2, 2)` and the rows `[2, 3]` and
`[3, 4]`. -/
theorem njettiness_matrix_witness :
    to_numpy_njettiness (fun _ n (particles : List (PseudoJet Int Unit)) => n + particles.length)
        ({ cse := [(), ()],
           parts := [[PseudoJet.mk 1 0 5 9 none],
                     [PseudoJet.mk 1 0 5 9 none, PseudoJet.mk 2 0 6 8 none]] } :
          output_wrapper Unit Int Unit)
        "NormalizedMeasure" "KT_Axes" [1, 2] 1 1 1 0 1
      = .ok ((2, 2), [some 2, some 3, some 3, some 4]) ∧
    ∃ data : List Int,
      to_numpy_njettiness
          (fun _ n (particles : List (PseudoJet Int Unit)) => n + particles.length)
          ({ cse := [(), ()],
             parts := [[PseudoJet.mk 1 0 5 9 none],
                       [PseudoJet.mk 1 0 5 9 none, PseudoJet.mk 2 0 6 8 none]] } :
            output_wrapper Unit Int Unit)
          "NormalizedMeasure" "KT_Axes" [1, 2] 1 1 1 0 1
        = .ok ((2, 2), data.map some) ∧ data.length = 2 * 2 :=
  ⟨rfl, by
    obtain ⟨data, h1, h2, _⟩ :=
      (@njettiness_matrix Int Unit Unit Unit
        (fun _ n (particles : List (PseudoJet Int Unit)) => n + particles.length)
        { cse := [(), ()],
          parts := [[PseudoJet.mk 1 0 5 9 none],
                    [PseudoJet.mk 1 0 5 9 none, PseudoJet.mk 2 0 6 8 none]] }
        "NormalizedMeasure" "KT_Axes" [1, 2] 1 1 1 0 1 (by decide)).1
    exact ⟨data, h1, h2⟩⟩

/-- C24.  When the resolution of a supplied jet against the inclusive jets of an
event succeeds with the position `k`, the jet at `k` has a rapidity that compares
equal to the supplied one and `k` is the smallest such position: every
inclusive jet whose rapidity compares equal sits at a position `i ≥ k`.  The
table keeps its first entry for a key: an insertion whose key compares equal to
the key of an entry leaves the table unchanged.  (The comparison of the keys is
symmetric and transitive, as `==` on `double` is.) -/
theorem resolver_returns_smallest_position {R H K : Type} [BEq K] [PartialEquivBEq K]
    (rapidity : R → R → R → R → K) (jets : List (PseudoJet R H)) (particle : PseudoJet R H)
    (k : Nat) (h : resolve_jet rapidity jets particle = .ok k) :
    (∃ jet, jets[k]? = some jet ∧ (jet.rap rapidity == particle.rap rapidity) = true) ∧
      (∀ (i : Nat) (jet : PseudoJet R H), jets[i]? = some jet →
        (jet.rap rapidity == particle.rap rapidity) = true → k ≤ i) ∧
      ∀ (umap : List (K × Nat)) (key : K) (val : Nat),
        (umap.any fun entry => entry.1 == key) = true → umap_insert umap key val = umap := by
  rw [resolve_jet_eq] at h
  cases hf : first_rap_index rapidity (particle.rap rapidity) jets with
  | none => rw [hf] at h; cases h
  | some k0 =>
    rw [hf] at h
    simp only [Except.ok.injEq] at h
    subst h
    obtain ⟨hk, hmin⟩ := first_rap_index_some rapidity (particle.rap rapidity) jets k0 hf
    refine ⟨hk, ?_, ?_⟩
    · intro i jet hi heq
      by_contra hlt
      have := hmin i jet (by omega) hi
      rw [heq] at this
      cases this
    · intro umap key val hany
      simp [umap_insert, hany]

/-- C24, worked example: three inclusive jets of which the second and the third
have the rapidity of the supplied jet; the resolver returns position `1`. -/
theorem resolver_returns_smallest_position_witness :
    resolve_jet (fun _ _ (pz : Int) _ => pz)
        [(PseudoJet.mk 1 0 4 9 (some ()) : PseudoJet Int Unit), PseudoJet.mk 2 0 5 9 (some ()),
          PseudoJet.mk 3 0 5 9 (some ())]
        (PseudoJet.mk 3 0 5 9 none) = .ok 1 ∧
      ∀ (i : Nat) (jet : PseudoJet Int Unit),
        [(PseudoJet.mk 1 0 4 9 (some ()) : PseudoJet Int Unit), PseudoJet.mk 2 0 5 9 (some ()),
          PseudoJet.mk 3 0 5 9 (some ())][i]? = some jet →
        (jet.rap (fun _ _ (pz : Int) _ => pz)
          == (PseudoJet.mk 3 0 5 9 none : PseudoJet Int Unit).rap (fun _ _ (pz : Int) _ => pz))
          = true →
        1 ≤ i :=
  ⟨rfl, (resolver_returns_smallest_position (fun _ _ (pz : Int) _ => pz)
    [(PseudoJet.mk 1 0 4 9 (some ()) : PseudoJet Int Unit), PseudoJet.mk 2 0 5 9 (some ()),
      PseudoJet.mk 3 0 5 9 (some ())]
    (PseudoJet.mk 3 0 5 9 none) 1 (by rfl)).2.1⟩

theorem seq_particles_succ {R H : Type} (px py pz E : List R) (c n : Nat) (x y z e : R)
    (hx : px[c]? = some x) (hy : py[c]? = some y) (hz : pz[c]? = some z) (he : E[c]? = some e) :
    (seq_particles px py pz E c (n + 1) : List (PseudoJet R H))
      = PseudoJet.ofMomentum x y z e :: seq_particles px py pz E (c + 1) n := by
  unfold seq_particles
  rw [List.range_succ_eq_map, List.filterMap_cons]
  simp only [Nat.add_zero, hx, hy, hz, he, List.filterMap_map]
  congr 1
  apply List.filterMap_congr
  intro k _
  simp only [Function.comp_apply, Nat.succ_eq_add_one]
  rw [show c + (k + 1) = c + 1 + k by omega]

theorem read_particles_eq {R H : Type} (px py pz E : List R) :
    ∀ (n c : Nat) (acc ps : List (PseudoJet R H)) (c2 : Nat),
      read_particles px py pz E n c acc = .ok (ps, c2) →
      c2 = c + n ∧ ps = acc ++ seq_particles px py pz E c n := by
  intro n
  induction n with
  | zero =>
    intro c acc ps c2 h
    simp only [read_particles, Except.ok.injEq, Prod.mk.injEq] at h
    simp [seq_particles, h.1, h.2]
  | succ n ih =>
    intro c acc ps c2 h
    unfold read_particles at h
    split at h
    · rename_i x y z e hx hy hz he
      obtain ⟨h1, h2⟩ := ih (c + 1) _ ps c2 h
      refine ⟨by omega, ?_⟩
      rw [h2, seq_particles_succ px py pz E c n x y z e hx hy hz he]
      simp
    · cases h

theorem build_events_sequential {R H JD CS : Type} (lim : VectorLimits)
    (cluster : List (PseudoJet R H) → JD → CS) (jetdef : JD) (px py pz E : List R) :
    ∀ (starts stops : List Int) (c : Nat) (events : List (CS × List (PseudoJet R H))),
      build_events lim cluster jetdef px py pz E starts stops c = .ok events →
      ∀ (i : Nat) (start stop : Int), starts[i]? = some start → stops[i]? = some stop →
        events[i]? = some
          (cluster (seq_particles px py pz E (c + read_position starts stops i)
              (stop - start).toNat) jetdef,
            seq_particles px py pz E (c + read_position starts stops i)
              (stop - start).toNat) := by
  intro starts
  induction starts with
  | nil => intro stops c events _ i start stop hi; simp at hi
  | cons start0 starts ih =>
    intro stops c events h i start stop hi hj
    cases stops with
    | nil => simp at hj
    | cons stop0 stops =>
      unfold build_events at h
      split at h
      · cases h
      · split at h
        · cases h
        · split at h
          · cases h
          · rename_i _ _ _ particles c2 hread _ rest hrest
            simp only [Except.ok.injEq] at h
            subst h
            obtain ⟨hc2, hps⟩ := read_particles_eq px py pz E _ c [] particles c2 hread
            simp only [List.nil_append] at hps
            cases i with
            | zero =>
              simp only [List.getElem?_cons_zero, Option.some.injEq] at hi hj
              subst hi; subst hj
              simp [read_position, hps]
            | succ i =>
              simp only [List.getElem?_cons_succ] at hi hj
              have := ih stops c2 rest hrest i start stop hi hj
              rw [List.getElem?_cons_succ, this, hc2]
              have e : c + read_position (start0 :: starts) (stop0 :: stops) (i + 1)
                  = c + (stop0 - start0).toNat + read_position starts stops i := by
                simp [read_position, event_sizes]
                omega
              rw [e]

theorem contiguous_position :
    ∀ (starts stops : List Int) (c : Int) (i : Nat) (start : Int),
      0 ≤ c → Contiguous c starts stops → starts[i]? = some start →
      c.toNat + read_position starts stops i = start.toNat := by
  intro starts
  induction starts with
  | nil => intro stops c i start _ _ hi; simp at hi
  | cons start0 starts ih =>
    intro stops c i start hc hcont hi
    cases stops with
    | nil => exact absurd hcont (by simp [Contiguous])
    | cons stop0 stops =>
      obtain ⟨h1, h2, h3⟩ := hcont
      cases i with
      | zero =>
        simp only [List.getElem?_cons_zero, Option.some.injEq] at hi
        subst hi
        simp [read_position, h1]
      | succ i =>
        simp only [List.getElem?_cons_succ] at hi
        have := ih stops stop0 i start (by omega) h3 hi
        rw [← this]
        simp [read_position, event_sizes]
        omega

theorem build_events_contiguous {R H JD CS : Type} (lim : VectorLimits)
    (cluster : List (PseudoJet R H) → JD → CS) (jetdef : JD) (px py pz E : List R) :
    ∀ (starts stops : List Int) (c : Int), 0 ≤ c → Contiguous c starts stops →
      (∀ stop ∈ stops, stop ≤ px.length ∧ stop ≤ py.length ∧ stop ≤ pz.length ∧
        stop ≤ E.length ∧ stop < 2 ^ 31) →
      ∃ events, build_events lim cluster jetdef px py pz E starts stops c.toNat = .ok events := by
  intro starts
  induction starts with
  | nil => intro stops c _ _ _; exact ⟨[], by simp [build_events]⟩
  | cons start0 starts ih =>
    intro stops c hc hcont hbound
    cases stops with
    | nil => exact absurd hcont (by simp [Contiguous])
    | cons stop0 stops =>
      obtain ⟨h1, h2, h3⟩ := hcont
      obtain ⟨b1, b2, b3, b4, b5⟩ := hbound stop0 (List.mem_cons_self _ _)
      have hres := reserve_of_le lim start0 stop0 h2 (by omega)
      obtain ⟨ps, hps, _, _⟩ := read_particles_ok (H := H) px py pz E (stop0 - start0).toNat
        c.toNat [] (by omega) (by omega) (by omega) (by omega)
      obtain ⟨rest, hrest⟩ := ih stops stop0 (by omega) h3
        (fun s hs => hbound s (List.mem_cons_of_mem _ hs))
      have e : c.toNat + (stop0 - start0).toNat = stop0.toNat := by omega
      rw [e] at hps
      refine ⟨(cluster ([] ++ ps) jetdef, [] ++ ps) :: rest, ?_⟩
      simp only [build_events, hres, hps, hrest]

/-- C25.  `interfacemulti` consumes the momentum buffers sequentially: when it
returns, the batch has one entry per slice and the retained particle list of
event `i` is made from the buffer cells at the positions `[c_i, c_i + n_i)` with
`n_i = max(0, stops[i] - starts[i])` and `c_i` the sum of the `n_k` for `k < i`,
and its cluster sequence is built from that list.  When the slices are
contiguous from `0` (`starts[0] = 0`, `starts[i] ≤ stops[i]`,
`starts[i + 1] = stops[i]`) and every stop is within the four buffers (and an
`int`), the call returns, the batch has one entry per slice and the retained
particle list of event `i` is the buffer slice `[starts[i], stops[i])`. -/
theorem interfacemulti_sequential {R H JD CS : Type} (lim : VectorLimits)
    (cluster : List (PseudoJet R H) → JD → CS) (px py pz E : List R) (starts stops : List Int)
    (jetdef : JD) :
    (∀ ow : output_wrapper CS R H,
      interfacemulti lim cluster px py pz E starts stops jetdef = .ok ow →
      ow.cse.length = starts.length ∧ ow.parts.length = starts.length ∧
      ∀ (i : Nat) (start stop : Int), starts[i]? = some start → stops[i]? = some stop →
        ow.parts[i]? = some
          (seq_particles px py pz E (read_position starts stops i) (stop - start).toNat) ∧
        ow.cse[i]? = some
          (cluster (seq_particles px py pz E (read_position starts stops i)
            (stop - start).toNat) jetdef)) ∧
    (Contiguous 0 starts stops →
      (∀ stop ∈ stops, stop ≤ px.length ∧ stop ≤ py.length ∧ stop ≤ pz.length ∧
        stop ≤ E.length ∧ stop < 2 ^ 31) →
      ∃ ow : output_wrapper CS R H,
        interfacemulti lim cluster px py pz E starts stops jetdef = .ok ow ∧
        ow.cse.length = starts.length ∧ ow.parts.length = starts.length ∧
        ∀ (i : Nat) (start stop : Int), starts[i]? = some start → stops[i]? = some stop →
          ow.parts[i]? = some (slice_particles px py pz E start stop)) := by
  constructor
  · intro ow h
    have hlen := interfacemulti_lengths lim cluster px py pz E starts stops jetdef ow h
    refine ⟨hlen.1, hlen.2, ?_⟩
    intro i start stop hi hj
    unfold interfacemulti at h
    cases hb : build_events lim cluster jetdef px py pz E starts stops 0 with
    | error f => rw [hb] at h; cases h
    | ok events =>
      rw [hb] at h
      simp only [Except.ok.injEq] at h
      subst h
      have := build_events_sequential lim cluster jetdef px py pz E starts stops 0 events hb
        i start stop hi hj
      simp only [Nat.zero_add] at this
      simp [List.getElem?_map, this]
  · intro hcont hbound
    obtain ⟨events, hb⟩ := build_events_contiguous lim cluster jetdef px py pz E starts stops 0
      (le_refl _) hcont hbound
    simp only [Int.toNat_zero] at hb
    have hlen := build_events_length lim cluster jetdef px py pz E starts stops 0 events hb
    refine ⟨{ cse := events.map Prod.fst, parts := events.map Prod.snd }, ?_, by simp [hlen],
      by simp [hlen], ?_⟩
    · simp only [interfacemulti, hb]
    · intro i start stop hi hj
      have h1 := build_events_sequential lim cluster jetdef px py pz E starts stops 0 events hb
        i start stop hi hj
      have h2 := contiguous_position starts stops 0 i start (le_refl _) hcont hi
      simp only [Int.toNat_zero] at h2
      rw [h2] at h1
      simp only [List.getElem?_map, h1, Option.map_some']
      rfl

/-- C25, worked example: three particles and the contiguous slices `[0, 1)` and
`[1, 3)`; the call returns two events whose retained particle lists are the two
buffer slices. -/
theorem interfacemulti_sequential_witness :
    Contiguous 0 [0, 1] [1, 3] ∧
      ∃ ow : output_wrapper (List (PseudoJet Int Unit)) Int Unit,
        interfacemulti { max_size := 2 ^ 62, max_size_lt := by decide, int_max_lt := by decide }
            (fun particles (_ : Unit) => particles)
            [10, 11, 12] [20, 21, 22] [30, 31, 32] [40, 41, 42] [0, 1] [1, 3] ()
          = .ok ow ∧
        ow.parts[1]?
          = some [PseudoJet.ofMomentum 11 21 31 41, PseudoJet.ofMomentum 12 22 32 42] :=
  have hcont : Contiguous 0 [0, 1] [1, 3] := ⟨rfl, by decide, rfl, by decide, trivial⟩
  ⟨hcont, by
    obtain ⟨ow, h1, _, _, h4⟩ :=
      (interfacemulti_sequential
        { max_size := 2 ^ 62, max_size_lt := by decide, int_max_lt := by decide }
        (fun (particles : List (PseudoJet Int Unit)) (_ : Unit) => particles)
        [10, 11, 12] [20, 21, 22] [30, 31, 32] [40, 41, 42] [0, 1] [1, 3] ()).2 hcont
        (by
          intro stop hs
          simp only [List.mem_cons, List.mem_singleton, List.mem_nil_iff, or_false] at hs
          rcases hs with rfl | rfl <;> simp)
    exact ⟨ow, h1, h4 1 1 3 rfl rfl⟩⟩

theorem constituents_groups_written {R H CS : Type} (query : CS → List (PseudoJet R H))
    (particle_jet_indices : CS → List (PseudoJet R H) → List Int) (n_particles : CS → Nat)
    (constituents : PseudoJet R H → List (PseudoJet R H)) (css : List CS)
    (hidx : ∀ cs ∈ css, n_particles cs ≤ (particle_jet_indices cs (query cs)).length) :
    constituents_to_numpy query particle_jet_indices n_particles constituents css
      = .ok
        ((0 :: running_offsets 0
            (css.map fun cs => (query cs).map fun jet => (constituents jet).length).flatten).map
            some,
          filled (css.map (cs_groups query particle_jet_indices n_particles)).flatten.flatten
            (css.map fun cs => n_particles cs
              - (cs_groups query particle_jet_indices n_particles cs).flatten.length).sum,
          (0 :: running_offsets 0 (css.map fun cs => (query cs).length)).map some) := by
  rw [constituents_to_numpy_eq query particle_jet_indices n_particles constituents css hidx]
  have hp : (css.map fun cs =>
      (cs_groups query particle_jet_indices n_particles cs).flatten).flatten
      = (css.map (cs_groups query particle_jet_indices n_particles)).flatten.flatten := by
    rw [List.flatten_flatten, List.map_map]; rfl
  rw [hp]

theorem constituent_sizes_eq {R H CS : Type} (query : CS → List (PseudoJet R H))
    (particle_jet_indices : CS → List (PseudoJet R H) → List Int) (n_particles : CS → Nat)
    (constituents : PseudoJet R H → List (PseudoJet R H)) (css : List CS)
    (hcount : ∀ cs ∈ css, ∀ (k : Nat) (jet : PseudoJet R H), (query cs)[k]? = some jet →
      (constituents jet).length
        = (jet_group (particle_jet_indices cs (query cs)) (n_particles cs) k).length) :
    (css.map fun cs => (query cs).map fun jet => (constituents jet).length).flatten
      = (css.map (cs_groups query particle_jet_indices n_particles)).flatten.map List.length := by
  have hsizes : (css.map fun cs => (query cs).map fun jet => (constituents jet).length)
      = css.map fun cs =>
        (cs_groups query particle_jet_indices n_particles cs).map List.length := by
    apply List.map_congr_left
    intro cs hcs
    apply List.ext_getElem?
    intro k
    simp only [cs_groups, event_groups, List.getElem?_map, List.map_map]
    by_cases hk : k < (query cs).length
    · rw [List.getElem?_eq_getElem hk, List.getElem?_eq_getElem (by simpa using hk)]
      simp only [Option.map_some', List.getElem_range, Function.comp_apply, Option.some.injEq]
      exact hcount cs hcs k _ (List.getElem?_eq_getElem hk)
    · rw [List.getElem?_eq_none (by omega), List.getElem?_eq_none (by simpa using hk)]
      rfl
  rw [hsizes, List.map_flatten, List.map_map]
  rfl

theorem constituents_groups {R H CS : Type} (query : CS → List (PseudoJet R H))
    (particle_jet_indices : CS → List (PseudoJet R H) → List Int) (n_particles : CS → Nat)
    (constituents : PseudoJet R H → List (PseudoJet R H)) (css : List CS)
    (hidx : ∀ cs ∈ css, n_particles cs ≤ (particle_jet_indices cs (query cs)).length) :
    ConstituentGroups
      (constituents_to_numpy query particle_jet_indices n_particles constituents css)
      (css.map (cs_groups query particle_jet_indices n_particles)) :=
  ⟨_, _, _, constituents_groups_written query particle_jet_indices n_particles constituents css
    hidx⟩

theorem constituents_groups_delimited {R H CS : Type} (query : CS → List (PseudoJet R H))
    (particle_jet_indices : CS → List (PseudoJet R H) → List Int) (n_particles : CS → Nat)
    (constituents : PseudoJet R H → List (PseudoJet R H)) (css : List CS)
    (hidx : ∀ cs ∈ css, n_particles cs ≤ (particle_jet_indices cs (query cs)).length)
    (hcount : ∀ cs ∈ css, ∀ (k : Nat) (jet : PseudoJet R H), (query cs)[k]? = some jet →
      (constituents jet).length
        = (jet_group (particle_jet_indices cs (query cs)) (n_particles cs) k).length) :
    GroupsDelimited
      (constituents_to_numpy query particle_jet_indices n_particles constituents css)
      (css.map (cs_groups query particle_jet_indices n_particles)) := by
  refine ⟨_, _, _, constituents_groups_written query particle_jet_indices n_particles
    constituents css hidx, ?_⟩
  rw [constituent_sizes_eq query particle_jet_indices n_particles constituents css hcount]
  exact ragged_slices_flatten _ []

theorem mem_jet_group (idx : List Int) (sizz k j : Nat) :
    j ∈ jet_group idx sizz k ↔ j < sizz ∧ idx[j]? = some (k : Int) := by
  simp [jet_group]

theorem jet_group_increasing (idx : List Int) (sizz k : Nat) :
    (jet_group idx sizz k).Pairwise (· < ·) :=
  (List.pairwise_lt_range sizz).filter _

/-- C26.  In `to_numpy_with_constituents` and
`to_numpy_exclusive_njet_with_constituents`, when the engine's index vector has
an entry for every particle, the call returns and the written part of `parid` is,
event after event and in increasing jet index `k`, the group of the positions
`j < n_particles` whose engine jet index is `k`, in strictly increasing order of
`j`.  When moreover the engine's constituent count of every jet is the size of
its group, `jetoffsets` delimits exactly these groups. -/
theorem constituent_groups_by_jet_index {R H CS : Type}
    (inclusive_jets : CS → R → List (PseudoJet R H))
    (exclusive_jets : CS → Int → List (PseudoJet R H))
    (particle_jet_indices : CS → List (PseudoJet R H) → List Int) (n_particles : CS → Nat)
    (constituents : PseudoJet R H → List (PseudoJet R H))
    (ow : output_wrapper CS R H) (min_pt : R) (n_jets : Int)
    (hinc : ∀ cs ∈ ow.cse,
      n_particles cs ≤ (particle_jet_indices cs (inclusive_jets cs min_pt)).length)
    (hexc : ∀ cs ∈ ow.cse,
      n_particles cs ≤ (particle_jet_indices cs (exclusive_jets cs n_jets)).length) :
    ConstituentGroups
        (to_numpy_with_constituents inclusive_jets particle_jet_indices n_particles
          constituents ow min_pt)
        (ow.cse.map
          (cs_groups (fun cs => inclusive_jets cs min_pt) particle_jet_indices n_particles)) ∧
      ConstituentGroups
        (to_numpy_exclusive_njet_with_constituents exclusive_jets particle_jet_indices
          n_particles constituents ow n_jets)
        (ow.cse.map
          (cs_groups (fun cs => exclusive_jets cs n_jets) particle_jet_indices n_particles)) ∧
      (∀ (query : CS → List (PseudoJet R H)) (cs : CS) (k : Nat), k < (query cs).length →
        (cs_groups query particle_jet_indices n_particles cs)[k]?
          = some (jet_group (particle_jet_indices cs (query cs)) (n_particles cs) k)) ∧
      (∀ (idx : List Int) (sizz k j : Nat),
        j ∈ jet_group idx sizz k ↔ j < sizz ∧ idx[j]? = some (k : Int)) ∧
      (∀ (idx : List Int) (sizz k : Nat), (jet_group idx sizz k).Pairwise (· < ·)) ∧
      ((∀ cs ∈ ow.cse, ∀ (k : Nat) (jet : PseudoJet R H),
          (inclusive_jets cs min_pt)[k]? = some jet →
          (constituents jet).length
            = (jet_group (particle_jet_indices cs (inclusive_jets cs min_pt)) (n_particles cs)
                k).length) →
        GroupsDelimited
          (to_numpy_with_constituents inclusive_jets particle_jet_indices n_particles
            constituents ow min_pt)
          (ow.cse.map
            (cs_groups (fun cs => inclusive_jets cs min_pt) particle_jet_indices
              n_particles))) ∧
      ((∀ cs ∈ ow.cse, ∀ (k : Nat) (jet : PseudoJet R H),
          (exclusive_jets cs n_jets)[k]? = some jet →
          (constituents jet).length
            = (jet_group (particle_jet_indices cs (exclusive_jets cs n_jets)) (n_particles cs)
                k).length) →
        GroupsDelimited
          (to_numpy_exclusive_njet_with_constituents exclusive_jets particle_jet_indices
            n_particles constituents ow n_jets)
          (ow.cse.map
            (cs_groups (fun cs => exclusive_jets cs n_jets) particle_jet_indices
              n_particles))) := by
  refine ⟨constituents_groups _ _ _ _ _ hinc, constituents_groups _ _ _ _ _ hexc, ?_,
    mem_jet_group, jet_group_increasing,
    fun hcount => constituents_groups_delimited _ _ _ _ _ hinc hcount,
    fun hcount => constituents_groups_delimited _ _ _ _ _ hexc hcount⟩
  intro query cs k hk
  simp [cs_groups, event_groups, List.getElem?_range hk]

/-- C26, worked example: one event with three particles and two jets; the engine
assigns the particles `0` and `2` to the jet of index `1` and the particle `1` to
the jet of index `0`.  The call returns `jetoffsets = [0, 1, 3]`,
`parid = [1, 0, 2]` and `eventoffsets = [0, 2]`. -/
theorem constituent_groups_by_jet_index_witness :
    to_numpy_with_constituents
        (fun (_ : Unit) (_ : Int) =>
          [(PseudoJet.mk 1 0 5 9 (some ()) : PseudoJet Int Unit), PseudoJet.mk 2 0 6 8 (some ())])
        (fun _ _ => [1, 0, 1]) (fun _ => 3)
        (fun jet => if jet.px = 1 then [jet] else [jet, jet])
        { cse := [()], parts := [[]] } 0
      = .ok ([some 0, some 1, some 3], [some 1, some 0, some 2], [some 0, some 2]) ∧
    ConstituentGroups
      (to_numpy_with_constituents
        (fun (_ : Unit) (_ : Int) =>
          [(PseudoJet.mk 1 0 5 9 (some ()) : PseudoJet Int Unit), PseudoJet.mk 2 0 6 8 (some ())])
        (fun _ _ => [1, 0, 1]) (fun _ => 3)
        (fun jet => if jet.px = 1 then [jet] else [jet, jet])
        { cse := [()], parts := [[]] } 0)
      [[[1], [0, 2]]] :=
  ⟨rfl, (constituent_groups_by_jet_index
    (fun (_ : Unit) (_ : Int) =>
      [(PseudoJet.mk 1 0 5 9 (some ()) : PseudoJet Int Unit), PseudoJet.mk 2 0 6 8 (some ())])
    (fun (_ : Unit) (_ : Int) =>
      [(PseudoJet.mk 1 0 5 9 (some ()) : PseudoJet Int Unit), PseudoJet.mk 2 0 6 8 (some ())])
    (fun _ _ => [1, 0, 1]) (fun _ => 3)
    (fun jet => if jet.px = 1 then [jet] else [jet, jet])
    { cse := [()], parts := [[]] } 0 0
    (fun _ _ => Nat.le_refl 3) (fun _ _ => Nat.le_refl 3)).1⟩

theorem event_groups_flatten_nodup (idx : List Int) (sizz size : Nat) :
    (event_groups idx sizz size).flatten.Nodup := by
  rw [List.nodup_flatten]
  constructor
  · intro l hl
    obtain ⟨k, _, rfl⟩ := List.mem_map.mp hl
    exact (List.nodup_range sizz).filter _
  · rw [event_groups, List.pairwise_map]
    apply (List.nodup_range size).pairwise_of_forall_ne
    intro k _ k2 _ hne j hj hj2
    have h1 := (mem_jet_group idx sizz k j).mp hj
    have h2 := (mem_jet_group idx sizz k2 j).mp hj2
    rw [h1.2] at h2
    exact hne (by exact_mod_cast Option.some.inj h2.2)

theorem mem_event_groups_flatten (idx : List Int) (sizz size j : Nat) :
    j ∈ (event_groups idx sizz size).flatten
      ↔ j < sizz ∧ ∃ k, k < size ∧ idx[j]? = some (k : Int) := by
  constructor
  · intro hj
    obtain ⟨l, hl, hjl⟩ := List.mem_flatten.mp hj
    obtain ⟨k, hk, rfl⟩ := List.mem_map.mp hl
    have := (mem_jet_group idx sizz k j).mp hjl
    exact ⟨this.1, k, List.mem_range.mp hk, this.2⟩
  · rintro ⟨hj, k, hk, hidx⟩
    refine List.mem_flatten.mpr ⟨jet_group idx sizz k, ?_, ?_⟩
    · exact List.mem_map.mpr ⟨k, List.mem_range.mpr hk, rfl⟩
    · exact (mem_jet_group idx sizz k j).mpr ⟨hj, hidx⟩

theorem mem_assigned_positions (idx : List Int) (sizz size j : Nat) :
    j ∈ assigned_positions idx sizz size
      ↔ j < sizz ∧ ∃ k, k < size ∧ idx[j]? = some (k : Int) := by
  simp [assigned_positions, List.mem_filter, List.any_eq_true]

theorem event_groups_perm_assigned (idx : List Int) (sizz size : Nat) :
    (event_groups idx sizz size).flatten.Perm (assigned_positions idx sizz size) := by
  have hn : (assigned_positions idx sizz size).Nodup := (List.nodup_range sizz).filter _
  rw [List.perm_ext_iff_of_nodup (event_groups_flatten_nodup idx sizz size) hn]
  intro j
  rw [mem_event_groups_flatten, mem_assigned_positions]

theorem assigned_all_iff (idx : List Int) (sizz size : Nat) :
    (assigned_positions idx sizz size).length = sizz
      ↔ ∀ j, j < sizz → ∃ k, k < size ∧ idx[j]? = some (k : Int) := by
  have h := List.filter_length_eq_length
    (p := fun j => (List.range size).any fun k => idx[j]? = some (k : Int))
    (l := List.range sizz)
  rw [List.length_range] at h
  unfold assigned_positions
  rw [h]
  simp [List.any_eq_true]

theorem sum_add_sum_sub {CS : Type} (f g : CS → Nat) (css : List CS)
    (h : ∀ cs ∈ css, f cs ≤ g cs) :
    (css.map f).sum + (css.map fun cs => g cs - f cs).sum = (css.map g).sum := by
  induction css with
  | nil => rfl
  | cons cs css ih =>
    have h1 := h cs (List.mem_cons_self _ _)
    have h2 := ih fun c hc => h c (List.mem_cons_of_mem _ hc)
    simp only [List.map_cons, List.sum_cons]
    omega

theorem sum_sub_eq_zero_iff {CS : Type} (f g : CS → Nat) (css : List CS)
    (h : ∀ cs ∈ css, f cs ≤ g cs) :
    (css.map fun cs => g cs - f cs).sum = 0 ↔ ∀ cs ∈ css, f cs = g cs := by
  induction css with
  | nil => simp
  | cons cs css ih =>
    have h1 := h cs (List.mem_cons_self _ _)
    have h2 := ih fun c hc => h c (List.mem_cons_of_mem _ hc)
    simp only [List.map_cons, List.sum_cons, List.mem_cons, forall_eq_or_imp]
    rw [← h2]
    omega

theorem groups_written_length {R H CS : Type} (query : CS → List (PseudoJet R H))
    (particle_jet_indices : CS → List (PseudoJet R H) → List Int) (n_particles : CS → Nat)
    (css : List CS) :
    (css.map (cs_groups query particle_jet_indices n_particles)).flatten.flatten.length
      = (css.map fun cs =>
          (cs_groups query particle_jet_indices n_particles cs).flatten.length).sum := by
  rw [List.flatten_flatten, List.map_map]
  simp [List.length_flatten, Function.comp_def]

/-- C27.  In `to_numpy_with_constituents`, when the engine's index vector has an
entry for every particle, the call returns; the buffer `parid` has one cell per
input particle of the batch; the number of cells written is the number of
particles that the engine assigns to one of the returned jets, so it never
exceeds the length of the buffer; and, when the engine's constituent count of
every jet is the number of particles assigned to it, the last entry of
`jetoffsets` is the number of cells written, and it equals the length of the
buffer exactly when every particle of every event is assigned to one of the
returned jets. -/
theorem parid_length_and_written_count {R H CS : Type}
    (inclusive_jets : CS → R → List (PseudoJet R H))
    (particle_jet_indices : CS → List (PseudoJet R H) → List Int) (n_particles : CS → Nat)
    (constituents : PseudoJet R H → List (PseudoJet R H))
    (ow : output_wrapper CS R H) (min_pt : R)
    (hidx : ∀ cs ∈ ow.cse,
      n_particles cs ≤ (particle_jet_indices cs (inclusive_jets cs min_pt)).length) :
    ∃ (jetoffsets written eventoffsets : List Nat) (slack : Nat),
      to_numpy_with_constituents inclusive_jets particle_jet_indices n_particles constituents
          ow min_pt
        = .ok (jetoffsets.map some, filled written slack, eventoffsets.map some) ∧
      (filled written slack).length = (ow.cse.map n_particles).sum ∧
      written.length
        = (ow.cse.map fun cs =>
            (assigned_positions (particle_jet_indices cs (inclusive_jets cs min_pt))
              (n_particles cs) (inclusive_jets cs min_pt).length).length).sum ∧
      written.length ≤ (filled written slack).length ∧
      ((∀ cs ∈ ow.cse, ∀ (k : Nat) (jet : PseudoJet R H),
          (inclusive_jets cs min_pt)[k]? = some jet →
          (constituents jet).length
            = (jet_group (particle_jet_indices cs (inclusive_jets cs min_pt)) (n_particles cs)
                k).length) →
        jetoffsets.getLastD 0 = written.length ∧
        (jetoffsets.getLastD 0 = (filled written slack).length ↔
          ∀ cs ∈ ow.cse, ∀ j, j < n_particles cs →
            ∃ k, k < (inclusive_jets cs min_pt).length ∧
              (particle_jet_indices cs (inclusive_jets cs min_pt))[j]? = some (k : Int))) := by
  have hle : ∀ cs ∈ ow.cse,
      (cs_groups (fun cs => inclusive_jets cs min_pt) particle_jet_indices n_particles
        cs).flatten.length ≤ n_particles cs :=
    fun cs _ => event_groups_length_le _ _ _
  have hwl := groups_written_length (fun cs => inclusive_jets cs min_pt) particle_jet_indices
    n_particles ow.cse
  have hsum := sum_add_sum_sub
    (fun cs => (cs_groups (fun cs => inclusive_jets cs min_pt) particle_jet_indices n_particles
      cs).flatten.length) n_particles ow.cse hle
  have hassigned : ∀ cs : CS,
      (cs_groups (fun cs => inclusive_jets cs min_pt) particle_jet_indices n_particles
        cs).flatten.length
      = (assigned_positions (particle_jet_indices cs (inclusive_jets cs min_pt))
          (n_particles cs) (inclusive_jets cs min_pt).length).length :=
    fun cs => (event_groups_perm_assigned _ _ _).length_eq
  refine ⟨_, _, _, _,
    constituents_groups_written (fun cs => inclusive_jets cs min_pt) particle_jet_indices
      n_particles constituents ow.cse hidx, ?_, ?_, ?_, ?_⟩
  · rw [filled_length, hwl]
    exact hsum
  · rw [hwl]
    congr 1
    apply List.map_congr_left
    intro cs _
    exact hassigned cs
  · rw [filled_length]
    omega
  · intro hcount
    have hlast : (0 :: running_offsets 0
          (ow.cse.map fun cs =>
            (inclusive_jets cs min_pt).map fun jet => (constituents jet).length).flatten).getLastD
          0
        = (ow.cse.map (cs_groups (fun cs => inclusive_jets cs min_pt) particle_jet_indices
            n_particles)).flatten.flatten.length := by
      rw [running_offsets_getLastD, Nat.zero_add,
        constituent_sizes_eq (fun cs => inclusive_jets cs min_pt) particle_jet_indices
          n_particles constituents ow.cse hcount, List.length_flatten]
    refine ⟨hlast, ?_⟩
    rw [hlast, filled_length]
    have hz := sum_sub_eq_zero_iff
      (fun cs => (cs_groups (fun cs => inclusive_jets cs min_pt) particle_jet_indices
        n_particles cs).flatten.length) n_particles ow.cse hle
    constructor
    · intro h cs hcs
      have h0 : (ow.cse.map fun cs => n_particles cs
          - (cs_groups (fun cs => inclusive_jets cs min_pt) particle_jet_indices n_particles
              cs).flatten.length).sum = 0 := by omega
      have := hz.mp h0 cs hcs
      simp only [] at this
      rw [hassigned cs] at this
      exact (assigned_all_iff _ _ _).mp this
    · intro h
      have h0 : (ow.cse.map fun cs => n_particles cs
          - (cs_groups (fun cs => inclusive_jets cs min_pt) particle_jet_indices n_particles
              cs).flatten.length).sum = 0 :=
        hz.mpr fun cs hcs => by
          show (cs_groups (fun cs => inclusive_jets cs min_pt) particle_jet_indices n_particles
            cs).flatten.length = n_particles cs
          rw [hassigned cs]
          exact (assigned_all_iff _ _ _).mpr (h cs hcs)
      omega

/-- C27, worked example: one event with two particles of which the engine assigns
the first to no returned jet; `parid` has two cells, one is written, and the last
entry of `jetoffsets` is `1`. -/
theorem parid_length_and_written_count_witness :
    to_numpy_with_constituents
        (fun (_ : Unit) (_ : Int) => [(PseudoJet.mk 1 0 5 9 (some ()) : PseudoJet Int Unit)])
        (fun _ _ => [-1, 0]) (fun _ => 2) (fun jet => [jet])
        { cse := [()], parts := [[]] } 0
      = .ok ([some 0, some 1], [some 1, none], [some 0, some 1]) ∧
    ∃ (jetoffsets written eventoffsets : List Nat) (slack : Nat),
      to_numpy_with_constituents
          (fun (_ : Unit) (_ : Int) => [(PseudoJet.mk 1 0 5 9 (some ()) : PseudoJet Int Unit)])
          (fun _ _ => [-1, 0]) (fun _ => 2) (fun jet => [jet])
          { cse := [()], parts := [[]] } 0
        = .ok (jetoffsets.map some, filled written slack, eventoffsets.map some) ∧
      (filled written slack).length = 2 ∧ written.length = 1 :=
  ⟨rfl, by
    obtain ⟨jo, wr, eo, sl, h1, h2, h3, _⟩ := parid_length_and_written_count
      (fun (_ : Unit) (_ : Int) => [(PseudoJet.mk 1 0 5 9 (some ()) : PseudoJet Int Unit)])
      (fun _ _ => [-1, 0]) (fun _ => 2) (fun jet => [jet])
      { cse := [()], parts := [[]] } 0 (fun _ _ => Nat.le_refl 2)
    exact ⟨jo, wr, eo, sl, h1, h2, h3⟩⟩

/-- C28.  The grooming lambda returns exactly when every call of `constituents()`
on a groomed jet returns.  For every input on which it returns, its arrays hold
exactly one row per exclusive jet, in event order then jet order: the eight
jet-level columns and the constituent-count array `eventsize` have as many cells
as there are exclusive jets over all events, and the sum of the constituent
counts is the common length of the four groomed-constituent columns. -/
theorem softdrop_one_row_per_jet {R H CS : Type} (engine : SoftDropEngine R H CS)
    (quiet_NaN : R) (ow : output_wrapper CS R H) (n_jets : Int) (beta symmetry_cut : R)
    (symmetry_measure : String) (R0 : R) (recursion_choice : String) (mu_cut : R) :
    (ConstituentsReturn engine
        (groomed_jets engine (sd beta symmetry_cut symmetry_measure R0 recursion_choice mu_cut)
          n_jets ow.cse) →
      ∃ arrays, to_numpy_softdrop_grooming engine quiet_NaN ow n_jets beta symmetry_cut
        symmetry_measure R0 recursion_choice mu_cut = .ok arrays) ∧
    ∀ arrays, to_numpy_softdrop_grooming engine quiet_NaN ow n_jets beta symmetry_cut
        symmetry_measure R0 recursion_choice mu_cut = .ok arrays →
      ConstituentsReturn engine
        (groomed_jets engine (sd beta symmetry_cut symmetry_measure R0 recursion_choice mu_cut)
          n_jets ow.cse) ∧
      GroomedRows arrays engine quiet_NaN
        (groomed_jets engine (sd beta symmetry_cut symmetry_measure R0 recursion_choice mu_cut)
          n_jets ow.cse) ∧
      GroomedLengths arrays
        (ow.cse.map fun cs => (engine.exclusive_jets cs n_jets).length).sum := by
  refine ⟨fun hret => ⟨_, to_numpy_softdrop_grooming_ok engine quiet_NaN ow n_jets beta
    symmetry_cut symmetry_measure R0 recursion_choice mu_cut hret⟩, ?_⟩
  intro arrays h
  obtain ⟨hret, harr⟩ := to_numpy_softdrop_grooming_inv engine quiet_NaN ow n_jets beta
    symmetry_cut symmetry_measure R0 recursion_choice mu_cut arrays h
  refine ⟨hret, ?_, ?_⟩
  · rw [harr]
    exact groomed_arrays_rows engine quiet_NaN _
  · rw [harr, ← groomed_jets_length engine
      (sd beta symmetry_cut symmetry_measure R0 recursion_choice mu_cut) n_jets ow.cse]
    exact groomed_arrays_lengths engine quiet_NaN _

/-- C28, worked example: two events with two exclusive jets and one; the groomer
returns each jet unchanged and the engine returns the jet itself as its one
constituent.  The call returns, all thirteen arrays have three cells, and the
counts `[1, 1, 1]` add up to the three cells of the constituent columns. -/
theorem softdrop_one_row_per_jet_witness :
    (to_numpy_softdrop_grooming
        { exclusive_jets := fun (cs : List (PseudoJet Int Unit)) _ => cs,
          result := fun _ jet => jet,
          ne_zero := fun soft => decide (soft.E ≠ 0),
          pt := fun soft => soft.px, eta := fun soft => soft.py, phi := fun soft => soft.pz,
          m := fun soft => soft.E, delta_R := fun _ => 0, symmetry := fun _ => 0,
          constituents := fun soft => .ok [soft] }
        (-1)
        { cse := [[PseudoJet.mk 1 0 5 9 (some ()), PseudoJet.mk 2 0 6 8 (some ())],
                  [PseudoJet.mk 3 0 7 7 (some ())]],
          parts := [] }
        2 0 0 "scalar_z" 0 "larger_pt" 0).map GroomedArrays.lengths
      = .ok [3, 3, 3, 3, 3, 3, 3, 3, 3, 3, 3, 3, 3] ∧
    ∃ arrays : GroomedArrays Int,
      arrays.jet_pt = [some 1, some 2, some 3] ∧ arrays.eventsize = [some 1, some 1, some 1] ∧
      arrays.consts_E = [some 9, some 8, some 7] ∧
      GroomedLengths arrays 3 :=
  ⟨rfl, _, rfl, rfl, rfl,
    ((softdrop_one_row_per_jet
      { exclusive_jets := fun (cs : List (PseudoJet Int Unit)) _ => cs,
        result := fun _ jet => jet,
        ne_zero := fun soft => decide (soft.E ≠ 0),
        pt := fun soft => soft.px, eta := fun soft => soft.py, phi := fun soft => soft.pz,
        m := fun soft => soft.E, delta_R := fun _ => 0, symmetry := fun _ => 0,
        constituents := fun soft => .ok [soft] }
      (-1)
      { cse := [[PseudoJet.mk 1 0 5 9 (some ()), PseudoJet.mk 2 0 6 8 (some ())],
                [PseudoJet.mk 3 0 7 7 (some ())]],
        parts := [] }
      2 0 0 "scalar_z" 0 "larger_pt" 0).2
      { consts_px := [some 1, some 2, some 3], consts_py := [some 0, some 0, some 0],
        consts_pz := [some 5, some 6, some 7], consts_E := [some 9, some 8, some 7],
        eventsize := [some 1, some 1, some 1], jet_pt := [some 1, some 2, some 3],
        jet_eta := [some 0, some 0, some 0], jet_phi := [some 5, some 6, some 7],
        jet_m := [some 9, some 8, some 7], jet_E := [some 9, some 8, some 7],
        jet_pz := [some 5, some 6, some 7], jet_delta_R := [some 0, some 0, some 0],
        jet_symmetry := [some 0, some 0, some 0] }
      rfl).2.2⟩

/-- C29.  In `to_numpy_njettiness` the row count is the quotient of the number of
tau values by `njets.size()`.  The division faults exactly when `njets` is
empty; the number of tau values is `parts.size() * njets.size()`, so for a
non-empty `njets` the call returns, the quotient is the number of retained
particle lists (one per event) and the remainder is zero. -/
theorem njettiness_row_count {R H CS : Type}
    (getTau : Njettiness R → Nat → List (PseudoJet R H) → R)
    (ow : output_wrapper CS R H) (measure_definition axes_definition : String)
    (njets : List Nat) (beta R0 Rcutoff : R) (nPass : Int) (akAxesR0 : R) :
    (to_numpy_njettiness getTau ow measure_definition axes_definition njets beta R0 Rcutoff
          nPass akAxesR0 = .error .division_by_zero ↔ njets = []) ∧
      (taus getTau (routine measure_definition axes_definition beta R0 Rcutoff nPass akAxesR0)
          ow.parts njets).length = ow.parts.length * njets.length ∧
      (njets ≠ [] →
        (∃ data : Buffer R,
          to_numpy_njettiness getTau ow measure_definition axes_definition njets beta R0
              Rcutoff nPass akAxesR0
            = .ok (((taus getTau
                (routine measure_definition axes_definition beta R0 Rcutoff nPass akAxesR0)
                ow.parts njets).length / njets.length, njets.length), data)) ∧
        (taus getTau (routine measure_definition axes_definition beta R0 Rcutoff nPass akAxesR0)
            ow.parts njets).length / njets.length = ow.parts.length ∧
        (taus getTau (routine measure_definition axes_definition beta R0 Rcutoff nPass akAxesR0)
            ow.parts njets).length % njets.length = 0) := by
  refine ⟨?_, taus_length getTau _ ow.parts njets, ?_⟩
  · cases njets with
    | nil => simp [to_numpy_njettiness]
    | cons n njets => simp [to_numpy_njettiness]
  · intro hnjets
    have hlen : njets.length ≠ 0 := by
      cases njets with
      | nil => exact absurd rfl hnjets
      | cons n njets => simp
    refine ⟨⟨(taus getTau
        (routine measure_definition axes_definition beta R0 Rcutoff nPass akAxesR0)
        ow.parts njets).map some, ?_⟩, ?_, ?_⟩
    · simp only [to_numpy_njettiness, hlen, if_false]
    · rw [taus_length, Nat.mul_div_cancel _ (Nat.pos_of_ne_zero hlen)]
    · rw [taus_length, Nat.mul_mod_left]

/-- C29, worked example: with an empty `njets` the call faults on the division;
with `njets = [1, 2]` and two events the quotient is `2`. -/
theorem njettiness_row_count_witness :
    to_numpy_njettiness (fun _ n (particles : List (PseudoJet Int Unit)) => n + particles.length)
        ({ cse := [(), ()], parts := [[], []] } : output_wrapper Unit Int Unit)
        "NormalizedMeasure" "KT_Axes" [] 1 1 1 0 1
      = .error .division_by_zero ∧
    (taus (fun _ n (particles : List (PseudoJet Int Unit)) => n + particles.length)
        (routine "NormalizedMeasure" "KT_Axes" 1 1 1 0 1) [[], []] [1, 2]).length / 2 = 2 :=
  ⟨rfl,
    ((njettiness_row_count
      (fun _ n (particles : List (PseudoJet Int Unit)) => n + particles.length)
      ({ cse := [(), ()], parts := [[], []] } : output_wrapper Unit Int Unit)
      "NormalizedMeasure" "KT_Axes" [1, 2] 1 1 1 0 1).2.2 (by decide)).2.1⟩

theorem char_toLower_toLower (c : Char) : c.toLower.toLower = c.toLower := by
  unfold Char.toLower
  simp only []
  by_cases h : c.toNat ≥ 65 ∧ c.toNat ≤ 90
  · rw [if_pos h]
    have hv : (Char.ofNat (c.toNat + 32)).toNat = c.toNat + 32 := by
      unfold Char.ofNat
      have hvalid : (c.toNat + 32).isValidChar := by
        left; omega
      rw [dif_pos hvalid]
      rfl
    rw [if_neg (by rw [hv]; omega)]
  · rw [if_neg h, if_neg h]

theorem tolower_tolower (func : String) : tolower (tolower func) = tolower func := by
  simp [tolower, char_toLower_toLower, Function.comp_def]

theorem energy_correlator_flag {R : Type} (func : String) (beta npoint : R) (angles : Int)
    (alpha : R) (hfunc : func ≠ "generic") :
    energy_correlator func true beta npoint angles alpha
      = energy_correlator func false beta npoint angles alpha := by
  simp [energy_correlator, hfunc]

/-- C30.  In `to_numpy_energy_correlators` the name is lower-cased before the
dispatch: two names with the same lower-case form give the same result, a name
gives the same result as its lower-case form, and `"D2"` gives the same result
as `"d2"`.  The flag `normalized` is read only in the two branches for
`"generic"`: for a name whose lower-case form is not `"generic"` the selected
correlator and the result are the same for `normalized = true` and
`normalized = false`, while for `"generic"` the two values select different
correlators. -/
theorem correlator_name_case_and_flag {R H CS : Type}
    (exclusive_jets : CS → Int → List (PseudoJet R H))
    (result : FunctionOfPseudoJet R → PseudoJet R H → R)
    (ow : output_wrapper CS R H) (n_jets : Int) (beta npoint : R) (angles : Int) (alpha : R)
    (func other : String) (normalized : Bool) :
    (tolower func = tolower other →
        to_numpy_energy_correlators exclusive_jets result ow n_jets beta npoint angles alpha
            func normalized
          = to_numpy_energy_correlators exclusive_jets result ow n_jets beta npoint angles
            alpha other normalized) ∧
      to_numpy_energy_correlators exclusive_jets result ow n_jets beta npoint angles alpha
          (tolower func) normalized
        = to_numpy_energy_correlators exclusive_jets result ow n_jets beta npoint angles alpha
          func normalized ∧
      to_numpy_energy_correlators exclusive_jets result ow n_jets beta npoint angles alpha
          "D2" normalized
        = to_numpy_energy_correlators exclusive_jets result ow n_jets beta npoint angles alpha
          "d2" normalized ∧
      (tolower func ≠ "generic" →
        energy_correlator (tolower func) true beta npoint angles alpha
            = energy_correlator (tolower func) false beta npoint angles alpha ∧
          to_numpy_energy_correlators exclusive_jets result ow n_jets beta npoint angles alpha
              func true
            = to_numpy_energy_correlators exclusive_jets result ow n_jets beta npoint angles
              alpha func false) ∧
      energy_correlator (tolower "generic") true beta npoint angles alpha
        ≠ energy_correlator (tolower "generic") false beta npoint angles alpha := by
  refine ⟨?_, ?_, rfl, ?_, ?_⟩
  · intro h
    simp only [to_numpy_energy_correlators, h]
  · simp only [to_numpy_energy_correlators, tolower_tolower]
  · intro h
    refine ⟨energy_correlator_flag _ _ _ _ _ h, ?_⟩
    simp only [to_numpy_energy_correlators, energy_correlator_flag _ _ _ _ _ h]
  · have h1 : energy_correlator (tolower "generic") true beta npoint angles alpha
        = some (.EnergyCorrelatorGeneralized angles npoint beta) := rfl
    have h2 : energy_correlator (tolower "generic") false beta npoint angles alpha
        = some (.EnergyCorrelator npoint beta) := rfl
    rw [h1, h2]
    simp

/-- C30, worked example: `"RATIO"` and `"Ratio"` have the same lower-case form,
which is not `"generic"`; on a batch of one event with one jet both flags give
the value of the ratio correlator. -/
theorem correlator_name_case_and_flag_witness :
    to_numpy_energy_correlators (fun (cs : List (PseudoJet Int Unit)) _ => cs)
        (fun _ jet => jet.E) { cse := [[PseudoJet.mk 1 0 5 9 (some ())]], parts := [[]] }
        1 1 0 0 0 "RATIO" true
      = .ok [some 9] ∧
    to_numpy_energy_correlators (fun (cs : List (PseudoJet Int Unit)) _ => cs)
        (fun _ jet => jet.E) { cse := [[PseudoJet.mk 1 0 5 9 (some ())]], parts := [[]] }
        1 1 0 0 0 "RATIO" true
      = to_numpy_energy_correlators (fun (cs : List (PseudoJet Int Unit)) _ => cs)
        (fun _ jet => jet.E) { cse := [[PseudoJet.mk 1 0 5 9 (some ())]], parts := [[]] }
        1 1 0 0 0 "Ratio" true ∧
    to_numpy_energy_correlators (fun (cs : List (PseudoJet Int Unit)) _ => cs)
        (fun _ jet => jet.E) { cse := [[PseudoJet.mk 1 0 5 9 (some ())]], parts := [[]] }
        1 1 0 0 0 "RATIO" true
      = to_numpy_energy_correlators (fun (cs : List (PseudoJet Int Unit)) _ => cs)
        (fun _ jet => jet.E) { cse := [[PseudoJet.mk 1 0 5 9 (some ())]], parts := [[]] }
        1 1 0 0 0 "RATIO" false :=
  have h := correlator_name_case_and_flag (fun (cs : List (PseudoJet Int Unit)) _ => cs)
    (fun _ jet => jet.E) { cse := [[PseudoJet.mk 1 0 5 9 (some ())]], parts := [[]] }
    1 1 0 0 0 "RATIO" "Ratio" true
  ⟨rfl, h.1 (by decide), (h.2.2.2.1 (by decide)).2⟩

theorem ragged_offsets_range (n : Nat) :
    RaggedOffsets ((List.range (n + 1)).map some) (List.replicate n 1) n := by
  have h := ragged_running_offsets (List.replicate n 1)
  rw [running_offsets_ones] at h
  have e : (0 :: (List.range n).map fun i => 0 + (i + 1)) = List.range (n + 1) := by
    rw [List.range_succ_eq_map]
    simp [Function.comp_def, Nat.succ_eq_add_one]
  rw [e] at h
  simpa using h

theorem id_list_ragged {R H CS : Type} (unique_history_order : CS → List Int)
    (ow : output_wrapper CS R H) :
    IdListRagged (to_numpy_unique_history_order unique_history_order ow)
      (ow.cse.map fun cs => (unique_history_order cs).length) := by
  refine ⟨_, _, to_numpy_unique_history_order_eq unique_history_order ow, ?_⟩
  have h := ragged_running_offsets (ow.cse.map fun cs => (unique_history_order cs).length)
  have e : ((ow.cse.map unique_history_order).flatten.map some).length
      = (ow.cse.map fun cs => (unique_history_order cs).length).sum := by
    simp [List.length_flatten, Function.comp_def]
  rw [e]; exact h

theorem constituents_nested_ragged {R H CS : Type} (query : CS → List (PseudoJet R H))
    (particle_jet_indices : CS → List (PseudoJet R H) → List Int) (n_particles : CS → Nat)
    (constituents : PseudoJet R H → List (PseudoJet R H)) (css : List CS)
    (hidx : ∀ cs ∈ css, n_particles cs ≤ (particle_jet_indices cs (query cs)).length)
    (hcount : ∀ cs ∈ css, ∀ (k : Nat) (jet : PseudoJet R H), (query cs)[k]? = some jet →
      (constituents jet).length
        = (jet_group (particle_jet_indices cs (query cs)) (n_particles cs) k).length) :
    ConstituentsNestedRagged
      (constituents_to_numpy query particle_jet_indices n_particles constituents css)
      (css.map query) constituents := by
  have hsizes : (css.map fun cs => (query cs).map fun jet => (constituents jet).length).flatten
      = (css.map query).flatten.map fun jet => (constituents jet).length := by
    rw [List.map_flatten, List.map_map]; rfl
  refine ⟨_, _, _, constituents_groups_written query particle_jet_indices n_particles
    constituents css hidx, ?_, ?_, _, _, rfl, ?_⟩
  · have h := ragged_running_offsets (css.map fun cs => (query cs).length)
    simpa [List.length_flatten, Function.comp_def] using h
  · simp only [List.length_map, List.length_cons, running_offsets_length, hsizes]
  · have h := ragged_running_offsets
      ((css.map query).flatten.map fun jet => (constituents jet).length)
    have hsum : ((css.map query).flatten.map fun jet => (constituents jet).length).sum
        = (css.map (cs_groups query particle_jet_indices n_particles)).flatten.flatten.length := by
      rw [← hsizes,
        constituent_sizes_eq query particle_jet_indices n_particles constituents css hcount,
        List.length_flatten]
    rw [hsizes, ← hsum]
    exact h

theorem lund_nested_ragged {R H L CS : Type}
    (exclusive_jets : CS → Int → List (PseudoJet R H))
    (result : PseudoJet R H → List L) (Delta kt : L → R)
    (ow : output_wrapper CS R H) (n_jets : Int) :
    LundNestedRagged
      (to_numpy_exclusive_njet_lund_declusterings exclusive_jets result Delta kt ow n_jets)
      (ow.cse.map fun cs => exclusive_jets cs n_jets) result := by
  refine ⟨_, _, _, _,
    to_numpy_exclusive_njet_lund_declusterings_eq exclusive_jets result Delta kt ow n_jets,
    ?_, ?_, ?_, ?_⟩
  · have h := ragged_running_offsets (ow.cse.map fun cs => (exclusive_jets cs n_jets).length)
    simpa [List.length_flatten, Function.comp_def] using h
  · have h := ragged_running_offsets
      ((ow.cse.map fun cs => exclusive_jets cs n_jets).flatten.map
        fun jet => (result jet).length)
    rw [List.length_map, length_flatten_map_map]
    exact h
  · simp only [List.length_map, length_flatten_map_map]
  · simp only [List.length_map, List.length_cons, running_offsets_length]

theorem resolved_jet_list_ragged {R H K CS : Type} [BEq K] [Zero R]
    (rapidity : R → R → R → R → K) (inclusive_jets : CS → R → List (PseudoJet R H))
    (ow : output_wrapper CS R H) (px py pz E : List R)
    (body : List (CS × PseudoJet R H) →
      Except Fault (Buffer R × Buffer R × Buffer R × Buffer R × Buffer Nat))
    (rows : CS × PseudoJet R H → List (PseudoJet R H))
    (hbody : ∀ targets,
      JetListRagged (body targets) (targets.map fun target => (rows target).length)) :
    ResolvedJetListRagged (resolve_all rapidity inclusive_jets ow px py pz E >>= body)
      (resolve_all rapidity inclusive_jets ow px py pz E) rows ow.cse.length := by
  cases hr : resolve_all rapidity inclusive_jets ow px py pz E with
  | error f => exact Or.inl ⟨f, rfl⟩
  | ok targets =>
    right
    have hlen : targets.length = ow.cse.length := by
      rw [← resolve_all_fst rapidity inclusive_jets ow px py pz E targets hr]
      simp
    exact ⟨targets, rfl, hlen, hbody targets⟩

theorem relatives_ragged {R H C : Type} (relatives : C → Bool × List (PseudoJet R H))
    (n : Nat) (hn : ∀ target, (relatives target).2.length = n) (targets : List C) :
    JetListRagged (relatives_to_numpy relatives n targets)
      (targets.map fun target => (relatives_rows relatives target).length) := by
  rw [relatives_to_numpy_eq_jet_list relatives n hn]
  exact jet_list_ragged _ targets

theorem resolved_scalar_offsets {R H K CS V : Type} [BEq K] [Zero R]
    (rapidity : R → R → R → R → K) (inclusive_jets : CS → R → List (PseudoJet R H))
    (value : CS × PseudoJet R H → V) (ow : output_wrapper CS R H) (px py pz E : List R) :
    ResolvedScalarOffsets (resolve_all rapidity inclusive_jets ow px py pz E >>= fun targets =>
        resolved_scalar_to_numpy value targets py.length) ow.cse.length := by
  have h := resolved_scalar_ragged rapidity inclusive_jets value ow px py pz E
  cases hres : (resolve_all rapidity inclusive_jets ow px py pz E >>= fun targets =>
      resolved_scalar_to_numpy value targets py.length) with
  | error f => exact Or.inl ⟨f, rfl⟩
  | ok res =>
    right
    obtain ⟨out_value, off⟩ := res
    obtain ⟨hoff, hlen, hle, hcells⟩ := h out_value off hres
    exact ⟨out_value, off, rfl, by rw [hoff]; exact ragged_offsets_range _,
      by rw [hlen]; exact hle, hcells⟩

theorem ecf_jets_loop_length {R H : Type} (result : FunctionOfPseudoJet R → PseudoJet R H → R)
    (energy_correlator : Option (FunctionOfPseudoJet R)) (jets : List (PseudoJet R H)) :
    ∀ ECF_vec out : List R,
      ecf_jets_loop result energy_correlator jets ECF_vec = .ok out →
      out.length = ECF_vec.length + jets.length := by
  induction jets with
  | nil =>
    intro v out h
    simp only [ecf_jets_loop, Except.ok.injEq] at h
    subst h; rfl
  | cons jet jets ih =>
    intro v out h
    cases energy_correlator with
    | none => simp only [ecf_jets_loop] at h; cases h
    | some correlator =>
      simp only [ecf_jets_loop] at h
      have := ih _ out h
      simp only [List.length_append, List.length_cons, List.length_nil] at this ⊢
      omega

theorem ecf_loop_length {R H CS : Type} (query : CS → List (PseudoJet R H))
    (result : FunctionOfPseudoJet R → PseudoJet R H → R)
    (energy_correlator : Option (FunctionOfPseudoJet R)) (css : List CS) :
    ∀ ECF_vec out : List R,
      ecf_loop query result energy_correlator css ECF_vec = .ok out →
      out.length = ECF_vec.length + (css.map fun cs => (query cs).length).sum := by
  induction css with
  | nil =>
    intro v out h
    simp only [ecf_loop, Except.ok.injEq] at h
    subst h; rfl
  | cons cs css ih =>
    intro v out h
    simp only [ecf_loop] at h
    cases hj : ecf_jets_loop result energy_correlator (query cs) v with
    | error f => rw [hj] at h; cases h
    | ok w =>
      rw [hj] at h
      simp only [except_ok_bind] at h
      have h1 := ecf_jets_loop_length result energy_correlator (query cs) v w hj
      have h2 := ih w out h
      simp only [List.map_cons, List.sum_cons]
      omega

theorem energy_correlators_length {R H CS : Type}
    (exclusive_jets : CS → Int → List (PseudoJet R H))
    (result : FunctionOfPseudoJet R → PseudoJet R H → R)
    (ow : output_wrapper CS R H) (n_jets : Int) (beta npoint : R) (angles : Int) (alpha : R)
    (func : String) (normalized : Bool) (ECF : Buffer R)
    (h : to_numpy_energy_correlators exclusive_jets result ow n_jets beta npoint angles alpha
      func normalized = .ok ECF) :
    ECF.length = (ow.cse.map fun cs => (exclusive_jets cs n_jets).length).sum := by
  simp only [to_numpy_energy_correlators] at h
  cases hl : ecf_loop (fun cs => exclusive_jets cs n_jets) result
      (energy_correlator (tolower func) normalized beta npoint angles alpha) ow.cse [] with
  | error f => rw [hl] at h; cases h
  | ok out =>
    rw [hl] at h
    simp only [except_ok_bind, Except.ok.injEq] at h
    have := ecf_loop_length _ result _ ow.cse [] out hl
    rw [← h, List.length_map, this]
    simp

theorem groomed_lengths_of_ok {R H CS : Type} (engine : SoftDropEngine R H CS)
    (quiet_NaN : R) (ow : output_wrapper CS R H) (n_jets : Int) (beta symmetry_cut : R)
    (symmetry_measure : String) (R0 : R) (recursion_choice : String) (mu_cut : R)
    (arrays : GroomedArrays R)
    (h : to_numpy_softdrop_grooming engine quiet_NaN ow n_jets beta symmetry_cut
      symmetry_measure R0 recursion_choice mu_cut = .ok arrays) :
    GroomedLengths arrays
      (ow.cse.map fun cs => (engine.exclusive_jets cs n_jets).length).sum := by
  obtain ⟨_, harr⟩ := to_numpy_softdrop_grooming_inv engine quiet_NaN ow n_jets beta
    symmetry_cut symmetry_measure R0 recursion_choice mu_cut arrays h
  rw [harr, ← groomed_jets_length engine
    (sd beta symmetry_cut symmetry_measure R0 recursion_choice mu_cut) n_jets ow.cse]
  exact groomed_arrays_lengths engine quiet_NaN _

theorem get_parents_body_ragged {R H CS : Type}
    (has_parents : CS → PseudoJet R H → Bool × PseudoJet R H × PseudoJet R H)
    (targets : List (CS × PseudoJet R H)) :
    JetListRagged
      (relatives_to_numpy
        (fun target : CS × PseudoJet R H =>
          let (value, pj1, pj2) := has_parents target.1 target.2
          (value, [pj1, pj2]))
        2 targets)
      (targets.map fun target => (parents_rows has_parents target).length) := by
  have hp : relatives_to_numpy
      (fun target : CS × PseudoJet R H =>
        let (value, pj1, pj2) := has_parents target.1 target.2
        (value, [pj1, pj2]))
      2 targets
      = jet_list_to_numpy (parents_rows has_parents) targets := by
    refine Eq.trans (relatives_to_numpy_eq_jet_list _ 2 ?_ targets) ?_
    · intro target; rfl
    · congr 1
  rw [hp]
  exact jet_list_ragged _ targets

theorem get_child_body_ragged {R H CS : Type}
    (has_child : CS → PseudoJet R H → Bool × PseudoJet R H)
    (targets : List (CS × PseudoJet R H)) :
    JetListRagged
      (relatives_to_numpy
        (fun target : CS × PseudoJet R H =>
          let (value, pj1) := has_child target.1 target.2
          (value, [pj1]))
        1 targets)
      (targets.map fun target => (child_rows has_child target).length) := by
  have hc : relatives_to_numpy
      (fun target : CS × PseudoJet R H =>
        let (value, pj1) := has_child target.1 target.2
        (value, [pj1]))
      1 targets
      = jet_list_to_numpy (child_rows has_child) targets := by
    refine Eq.trans (relatives_to_numpy_eq_jet_list _ 1 ?_ targets) ?_
    · intro target; rfl
    · congr 1
  rw [hc]
  exact jet_list_ragged _ targets

/-- C21 (as amended).  Every extraction listed here returns, whenever it returns,
an offsets buffer of `eventCount + 1` entries that follows the RaggedArray
convention and delimits each event's slice: it starts at `0`, is non-decreasing,
consecutive entries differ by the number of items of the event, and the last
entry is the number of items of the batch.  For the eight jet-list extractions,
`to_numpy_unique_history_order`, the three resolved-subjet extractions,
`to_numpy_get_parents` and `to_numpy_get_child` the items are the cells of the
value columns, whose length is the last entry.  For the two constituent
extractions (when the engine's index vector has an entry for every particle and
its constituent counts are those of its index vector) and the Lund extraction
the items of an event are its jets, the jet offsets have one entry more than the
last event offset, and they follow the convention for the values of each jet.
For the six resolved-jet scalar queries every event has one item, and the first
`eventCount` cells of the value buffer are written.  `to_numpy_energy_correlators`
returns one flat buffer with one value per exclusive jet and
`to_numpy_softdrop_grooming` returns thirteen flat arrays, one row per exclusive
jet with the constituent counts in `eventsize`: neither returns an offsets
buffer. -/
theorem extractions_with_offsets {R H K L CS : Type} [BEq K] [Zero R]
    (ow : output_wrapper CS R H) :
    (∀ (query : CS → R → List (PseudoJet R H)) (x : R),
      JetListRagged (to_numpy query ow x) (ow.cse.map fun cs => (query cs x).length) ∧
      JetListRagged (to_numpy_exclusive_dcut query ow x)
        (ow.cse.map fun cs => (query cs x).length) ∧
      JetListRagged (to_numpy_exclusive_ycut query ow x)
        (ow.cse.map fun cs => (query cs x).length)) ∧
    (∀ (query : CS → Int → List (PseudoJet R H)) (n : Int),
      JetListRagged (to_numpy_exclusive_njet query ow n)
        (ow.cse.map fun cs => (query cs n).length) ∧
      JetListRagged (to_numpy_exclusive_njet_up_to query ow n)
        (ow.cse.map fun cs => (query cs n).length)) ∧
    (∀ query : CS → List (PseudoJet R H),
      JetListRagged (to_numpy_unclustered_particles query ow)
        (ow.cse.map fun cs => (query cs).length) ∧
      JetListRagged (to_numpy_childless_pseudojets query ow)
        (ow.cse.map fun cs => (query cs).length) ∧
      JetListRagged (to_numpy_jets query ow) (ow.cse.map fun cs => (query cs).length)) ∧
    (∀ unique_history_order : CS → List Int,
      IdListRagged (to_numpy_unique_history_order unique_history_order ow)
        (ow.cse.map fun cs => (unique_history_order cs).length)) ∧
    (∀ (inclusive_jets : CS → R → List (PseudoJet R H))
      (particle_jet_indices : CS → List (PseudoJet R H) → List Int) (n_particles : CS → Nat)
      (constituents : PseudoJet R H → List (PseudoJet R H)) (min_pt : R),
      (∀ cs ∈ ow.cse,
        n_particles cs ≤ (particle_jet_indices cs (inclusive_jets cs min_pt)).length) →
      (∀ cs ∈ ow.cse, ∀ (k : Nat) (jet : PseudoJet R H),
        (inclusive_jets cs min_pt)[k]? = some jet →
        (constituents jet).length
          = (jet_group (particle_jet_indices cs (inclusive_jets cs min_pt))
              (n_particles cs) k).length) →
      ConstituentsNestedRagged
        (to_numpy_with_constituents inclusive_jets particle_jet_indices n_particles
          constituents ow min_pt)
        (ow.cse.map fun cs => inclusive_jets cs min_pt) constituents) ∧
    (∀ (exclusive_jets : CS → Int → List (PseudoJet R H))
      (particle_jet_indices : CS → List (PseudoJet R H) → List Int) (n_particles : CS → Nat)
      (constituents : PseudoJet R H → List (PseudoJet R H)) (n_jets : Int),
      (∀ cs ∈ ow.cse,
        n_particles cs ≤ (particle_jet_indices cs (exclusive_jets cs n_jets)).length) →
      (∀ cs ∈ ow.cse, ∀ (k : Nat) (jet : PseudoJet R H),
        (exclusive_jets cs n_jets)[k]? = some jet →
        (constituents jet).length
          = (jet_group (particle_jet_indices cs (exclusive_jets cs n_jets))
              (n_particles cs) k).length) →
      ConstituentsNestedRagged
        (to_numpy_exclusive_njet_with_constituents exclusive_jets particle_jet_indices
          n_particles constituents ow n_jets)
        (ow.cse.map fun cs => exclusive_jets cs n_jets) constituents) ∧
    (∀ (exclusive_jets : CS → Int → List (PseudoJet R H)) (result : PseudoJet R H → List L)
      (Delta kt : L → R) (n_jets : Int),
      LundNestedRagged
        (to_numpy_exclusive_njet_lund_declusterings exclusive_jets result Delta kt ow n_jets)
        (ow.cse.map fun cs => exclusive_jets cs n_jets) result) ∧
    (∀ (rapidity : R → R → R → R → K) (inclusive_jets : CS → R → List (PseudoJet R H))
      (px py pz E : List R),
      (∀ (exclusive_subjets : CS → PseudoJet R H → R → List (PseudoJet R H)) (dcut : R),
        ResolvedJetListRagged
          (to_numpy_exclusive_subjets_dcut rapidity inclusive_jets exclusive_subjets ow
            px py pz E dcut)
          (resolve_all rapidity inclusive_jets ow px py pz E)
          (fun target => exclusive_subjets target.1 target.2 dcut) ow.cse.length) ∧
      (∀ (exclusive_subjets : CS → PseudoJet R H → Int → List (PseudoJet R H)) (nsub : Int),
        ResolvedJetListRagged
          (to_numpy_exclusive_subjets_nsub rapidity inclusive_jets exclusive_subjets ow
            px py pz E nsub)
          (resolve_all rapidity inclusive_jets ow px py pz E)
          (fun target => exclusive_subjets target.1 target.2 nsub) ow.cse.length) ∧
      (∀ (exclusive_subjets_up_to : CS → PseudoJet R H → Int → List (PseudoJet R H))
        (nsub : Int),
        ResolvedJetListRagged
          (to_numpy_exclusive_subjets_up_to rapidity inclusive_jets exclusive_subjets_up_to ow
            px py pz E nsub)
          (resolve_all rapidity inclusive_jets ow px py pz E)
          (fun target => exclusive_subjets_up_to target.1 target.2 nsub) ow.cse.length) ∧
      (∀ has_parents : CS → PseudoJet R H → Bool × PseudoJet R H × PseudoJet R H,
        ResolvedJetListRagged
          (to_numpy_get_parents rapidity inclusive_jets has_parents ow px py pz E)
          (resolve_all rapidity inclusive_jets ow px py pz E)
          (parents_rows has_parents) ow.cse.length ∧
        ResolvedScalarOffsets
          (to_numpy_has_parents rapidity inclusive_jets has_parents ow px py pz E)
          ow.cse.length) ∧
      (∀ has_child : CS → PseudoJet R H → Bool × PseudoJet R H,
        ResolvedJetListRagged
          (to_numpy_get_child rapidity inclusive_jets has_child ow px py pz E)
          (resolve_all rapidity inclusive_jets ow px py pz E)
          (child_rows has_child) ow.cse.length ∧
        ResolvedScalarOffsets
          (to_numpy_has_child rapidity inclusive_jets has_child ow px py pz E)
          ow.cse.length) ∧
      (∀ (exclusive_subdmerge : CS → PseudoJet R H → Int → R) (nsub : Int),
        ResolvedScalarOffsets
          (to_numpy_exclusive_subdmerge rapidity inclusive_jets exclusive_subdmerge ow
            px py pz E nsub) ow.cse.length ∧
        ResolvedScalarOffsets
          (to_numpy_exclusive_subdmerge_max rapidity inclusive_jets exclusive_subdmerge ow
            px py pz E nsub) ow.cse.length) ∧
      (∀ (n_exclusive_subjets : CS → PseudoJet R H → R → Int) (dcut : R),
        ResolvedScalarOffsets
          (to_numpy_n_exclusive_subjets rapidity inclusive_jets n_exclusive_subjets ow
            px py pz E dcut) ow.cse.length) ∧
      (∀ jet_scale_for_algorithm : CS → PseudoJet R H → R,
        ResolvedScalarOffsets
          (to_numpy_jet_scale_for_algorithm rapidity inclusive_jets jet_scale_for_algorithm
            ow px py pz E) ow.cse.length)) ∧
    (∀ (exclusive_jets : CS → Int → List (PseudoJet R H))
      (result : FunctionOfPseudoJet R → PseudoJet R H → R) (n_jets : Int) (beta npoint : R)
      (angles : Int) (alpha : R) (func : String) (normalized : Bool) (ECF : Buffer R),
      to_numpy_energy_correlators exclusive_jets result ow n_jets beta npoint angles alpha
          func normalized = .ok ECF →
      ECF.length = (ow.cse.map fun cs => (exclusive_jets cs n_jets).length).sum) ∧
    ∀ (engine : SoftDropEngine R H CS) (quiet_NaN : R) (n_jets : Int) (beta symmetry_cut : R)
      (symmetry_measure : String) (R0 : R) (recursion_choice : String) (mu_cut : R)
      (arrays : GroomedArrays R),
      to_numpy_softdrop_grooming engine quiet_NaN ow n_jets beta symmetry_cut
          symmetry_measure R0 recursion_choice mu_cut = .ok arrays →
      GroomedLengths arrays
        (ow.cse.map fun cs => (engine.exclusive_jets cs n_jets).length).sum := by
  refine ⟨fun _ _ => ⟨jet_list_ragged _ _, jet_list_ragged _ _, jet_list_ragged _ _⟩,
    fun _ _ => ⟨jet_list_ragged _ _, jet_list_ragged _ _⟩,
    fun _ => ⟨jet_list_ragged _ _, jet_list_ragged _ _, jet_list_ragged _ _⟩,
    fun _ => id_list_ragged _ ow, ?_, ?_, ?_, ?_, ?_, ?_⟩
  · intro inclusive_jets particle_jet_indices n_particles constituents min_pt hidx hcount
    exact constituents_nested_ragged (fun cs => inclusive_jets cs min_pt)
      particle_jet_indices n_particles constituents ow.cse hidx hcount
  · intro exclusive_jets particle_jet_indices n_particles constituents n_jets hidx hcount
    exact constituents_nested_ragged (fun cs => exclusive_jets cs n_jets)
      particle_jet_indices n_particles constituents ow.cse hidx hcount
  · intro exclusive_jets result Delta kt n_jets
    exact lund_nested_ragged exclusive_jets result Delta kt ow n_jets
  · intro rapidity inclusive_jets px py pz E
    refine ⟨fun _ _ => ?_, fun _ _ => ?_, fun _ _ => ?_, fun _ => ⟨?_, ?_⟩, fun _ => ⟨?_, ?_⟩,
      fun _ _ => ⟨?_, ?_⟩, fun _ _ => ?_, fun _ => ?_⟩
    · exact resolved_jet_list_ragged rapidity inclusive_jets ow px py pz E _ _
        fun targets => jet_list_ragged _ targets
    · exact resolved_jet_list_ragged rapidity inclusive_jets ow px py pz E _ _
        fun targets => jet_list_ragged _ targets
    · exact resolved_jet_list_ragged rapidity inclusive_jets ow px py pz E _ _
        fun targets => jet_list_ragged _ targets
    · exact resolved_jet_list_ragged rapidity inclusive_jets ow px py pz E _ _
        fun targets => get_parents_body_ragged _ targets
    · exact resolved_scalar_offsets rapidity inclusive_jets _ ow px py pz E
    · exact resolved_jet_list_ragged rapidity inclusive_jets ow px py pz E _ _
        fun targets => get_child_body_ragged _ targets
    · exact resolved_scalar_offsets rapidity inclusive_jets _ ow px py pz E
    · exact resolved_scalar_offsets rapidity inclusive_jets _ ow px py pz E
    · exact resolved_scalar_offsets rapidity inclusive_jets _ ow px py pz E
    · exact resolved_scalar_offsets rapidity inclusive_jets _ ow px py pz E
    · exact resolved_scalar_offsets rapidity inclusive_jets _ ow px py pz E
  · intro exclusive_jets result n_jets beta npoint angles alpha func normalized ECF h
    exact energy_correlators_length exclusive_jets result ow n_jets beta npoint angles alpha
      func normalized ECF h
  · intro engine quiet_NaN n_jets beta symmetry_cut symmetry_measure R0 recursion_choice mu_cut
      arrays h
    exact groomed_lengths_of_ok engine quiet_NaN ow n_jets beta symmetry_cut symmetry_measure
      R0 recursion_choice mu_cut arrays h

/-- C21, worked example: a batch of two events with two jets and one jet.
`to_numpy` returns the offsets `[0, 2, 3]` beside columns of three cells, and
they follow the RaggedArray convention for the event sizes `[2, 1]`; the buffer
that `to_numpy_energy_correlators` returns has three cells, the number of
exclusive jets. -/
theorem extractions_with_offsets_witness :
    to_numpy (fun (cs : List (PseudoJet Int Unit)) (_ : Int) => cs)
        { cse := [[PseudoJet.mk 1 0 5 9 (some ()), PseudoJet.mk 2 0 6 8 (some ())],
                  [PseudoJet.mk 3 0 7 7 (some ())]],
          parts := [] } 0
      = .ok ([some 1, some 2, some 3], [some 0, some 0, some 0], [some 5, some 6, some 7],
        [some 9, some 8, some 7], [some 0, some 2, some 3]) ∧
    JetListRagged
        (to_numpy (fun (cs : List (PseudoJet Int Unit)) (_ : Int) => cs)
          { cse := [[PseudoJet.mk 1 0 5 9 (some ()), PseudoJet.mk 2 0 6 8 (some ())],
                    [PseudoJet.mk 3 0 7 7 (some ())]],
            parts := [] } 0) [2, 1] ∧
      to_numpy_energy_correlators (fun (cs : List (PseudoJet Int Unit)) _ => cs)
          (fun _ jet => jet.E)
          { cse := [[PseudoJet.mk 1 0 5 9 (some ()), PseudoJet.mk 2 0 6 8 (some ())],
                    [PseudoJet.mk 3 0 7 7 (some ())]],
            parts := [] }
          2 1 0 0 0 "generalized" true
        = .ok [some 9, some 8, some 7] ∧
      ([some 9, some 8, some 7] : Buffer Int).length = [2, 1].sum :=
  have h := @extractions_with_offsets Int Unit Int Unit (List (PseudoJet Int Unit)) _ _
    { cse := [[PseudoJet.mk 1 0 5 9 (some ()), PseudoJet.mk 2 0 6 8 (some ())],
              [PseudoJet.mk 3 0 7 7 (some ())]],
      parts := [] }
  ⟨rfl, (h.1 (fun cs _ => cs) 0).1, rfl,
    h.2.2.2.2.2.2.2.2.1 (fun cs _ => cs) (fun _ jet => jet.E) 2 1 0 0 0 "generalized" true
      [some 9, some 8, some 7] rfl⟩

/-- C21 as stated fails: on a batch of one event with one exclusive jet, an
offsets buffer would have two entries, while `to_numpy_energy_correlators`
returns a single buffer of one cell and every one of the thirteen arrays that
`to_numpy_softdrop_grooming` returns has one cell. -/
theorem correlators_and_grooming_return_no_offsets :
    to_numpy_energy_correlators (fun (cs : List (PseudoJet Int Unit)) _ => cs)
        (fun _ jet => jet.E) { cse := [[PseudoJet.mk 1 0 5 9 (some ())]], parts := [[]] }
        1 1 0 0 0 "generalized" true
      = .ok [some 9] ∧
    ([some 9] : Buffer Int).length ≠ 1 + 1 ∧
    (to_numpy_softdrop_grooming
        { exclusive_jets := fun (cs : List (PseudoJet Int Unit)) _ => cs,
          result := fun _ jet => jet,
          ne_zero := fun soft => decide (soft.E ≠ 0),
          pt := fun soft => soft.px, eta := fun soft => soft.py, phi := fun soft => soft.pz,
          m := fun soft => soft.E, delta_R := fun _ => 0, symmetry := fun _ => 0,
          constituents := fun soft => .ok [soft] }
        (-1) { cse := [[PseudoJet.mk 1 0 5 9 (some ())]], parts := [[]] } 1 0 0 "scalar_z" 0
        "larger_pt" 0).map GroomedArrays.lengths
      = .ok [1, 1, 1, 1, 1, 1, 1, 1, 1, 1, 1, 1, 1] ∧
    1 + 1 ∉ [1, 1, 1, 1, 1, 1, 1, 1, 1, 1, 1, 1, 1] :=
  ⟨rfl, by decide, rfl, by decide⟩

theorem read_particles_cells {R H : Type} (px py pz E : List R) :
    ∀ (n c : Nat) (acc ps : List (PseudoJet R H)) (c2 : Nat),
      read_particles px py pz E n c acc = .ok (ps, c2) →
      ps.length = acc.length + n ∧
        ∀ i, i < n → ∃ x y z e, px[c + i]? = some x ∧ py[c + i]? = some y ∧
          pz[c + i]? = some z ∧ E[c + i]? = some e ∧
          ps[acc.length + i]? = some (PseudoJet.ofMomentum x y z e) := by
  intro n
  induction n with
  | zero =>
    intro c acc ps c2 h
    simp only [read_particles, Except.ok.injEq, Prod.mk.injEq] at h
    exact ⟨by rw [← h.1]; rfl, fun i hi => absurd hi (Nat.not_lt_zero i)⟩
  | succ n ih =>
    intro c acc ps c2 h
    have hfull := h
    unfold read_particles at h
    split at h
    · rename_i x y z e hx hy hz he
      obtain ⟨hlen, hcells⟩ := ih (c + 1) _ ps c2 h
      obtain ⟨_, hps⟩ := read_particles_eq px py pz E n (c + 1) _ ps c2 h
      simp only [List.length_append, List.length_cons, List.length_nil] at hlen hcells
      refine ⟨by omega, ?_⟩
      intro i hi
      cases i with
      | zero =>
        refine ⟨x, y, z, e, hx, hy, hz, he, ?_⟩
        rw [hps, List.append_assoc]
        show (acc ++ ([PseudoJet.ofMomentum x y z e] ++ seq_particles px py pz E (c + 1) n))[
          acc.length]? = _
        rw [List.getElem?_append_right (le_refl _)]
        simp
      | succ i =>
        obtain ⟨x2, y2, z2, e2, h1, h2, h3, h4, h5⟩ := hcells i (by omega)
        refine ⟨x2, y2, z2, e2, ?_, ?_, ?_, ?_, ?_⟩
        · rw [← h1]; congr 1; omega
        · rw [← h2]; congr 1; omega
        · rw [← h3]; congr 1; omega
        · rw [← h4]; congr 1; omega
        · rw [← h5]; congr 1; omega
    · cases h

theorem resolve_indices_cells {R H K CS : Type} [BEq K] [Zero R]
    (rapidity : R → R → R → R → K) (inclusive_jets : CS → R → List (PseudoJet R H))
    (particles : List (PseudoJet R H)) (css : List CS) :
    ∀ (i0 : Nat) (indices : List Nat),
      resolve_indices rapidity inclusive_jets particles css i0 = .ok indices →
      ∀ (i : Nat) (cs : CS), css[i]? = some cs →
        ∃ particle k, particles[i0 + i]? = some particle ∧
          resolve_jet rapidity (inclusive_jets cs 0) particle = .ok k ∧
          indices[i]? = some k := by
  induction css with
  | nil => intro i0 indices _ i cs hi; simp at hi
  | cons c css ih =>
    intro i0 indices h i cs hi
    unfold resolve_indices at h
    split at h
    · cases h
    · rename_i particle hp
      split at h
      · cases h
      · rename_i index hidx
        split at h
        · cases h
        · rename_i rest hrest
          simp only [Except.ok.injEq] at h
          subst h
          cases i with
          | zero =>
            simp only [List.getElem?_cons_zero, Option.some.injEq] at hi
            subst hi
            exact ⟨particle, index, by simpa using hp, hidx, by simp⟩
          | succ i =>
            simp only [List.getElem?_cons_succ] at hi
            obtain ⟨p2, k2, h1, h2, h3⟩ := ih (i0 + 1) rest hrest i cs hi
            refine ⟨p2, k2, ?_, h2, by simpa using h3⟩
            rw [← h1]; congr 1; omega

theorem resolved_jets_cells {R H CS : Type} [Zero R]
    (inclusive_jets : CS → R → List (PseudoJet R H)) (css : List CS) :
    ∀ (indices : List Nat) (targets : List (CS × PseudoJet R H)),
      resolved_jets inclusive_jets css indices = .ok targets →
      ∀ (i : Nat) (cs : CS) (k : Nat), css[i]? = some cs → indices[i]? = some k →
        ∃ jet, (inclusive_jets cs 0)[k]? = some jet ∧ targets[i]? = some (cs, jet) := by
  induction css with
  | nil => intro indices targets _ i cs k hi; simp at hi
  | cons c css ih =>
    intro indices targets h i cs k hi hk
    cases indices with
    | nil => simp at hk
    | cons index indices =>
      unfold resolved_jets at h
      split at h
      · cases h
      · rename_i jet hjet
        split at h
        · cases h
        · rename_i rest hrest
          simp only [Except.ok.injEq] at h
          subst h
          cases i with
          | zero =>
            simp only [List.getElem?_cons_zero, Option.some.injEq] at hi hk
            subst hi; subst hk
            exact ⟨jet, hjet, by simp⟩
          | succ i =>
            simp only [List.getElem?_cons_succ] at hi hk
            obtain ⟨jet2, h1, h2⟩ := ih indices rest hrest i cs k hi hk
            exact ⟨jet2, h1, by simpa using h2⟩

/-- A successful resolution pairs every event with the inclusive jet at the
position that the lookup of the supplied jet of the event returns. -/
theorem resolve_all_targets {R H K CS : Type} [BEq K] [Zero R]
    (rapidity : R → R → R → R → K) (inclusive_jets : CS → R → List (PseudoJet R H))
    (ow : output_wrapper CS R H) (px py pz E : List R) (targets : List (CS × PseudoJet R H))
    (h : resolve_all rapidity inclusive_jets ow px py pz E = .ok targets) :
    ∀ (i : Nat) (cs : CS), ow.cse[i]? = some cs →
      ∃ jet, ResolvedTarget rapidity inclusive_jets px py pz E i cs jet ∧
        targets[i]? = some (cs, jet) := by
  intro i cs hi
  unfold resolve_all at h
  cases hr : read_particles (H := H) px py pz E px.length 0 [] with
  | error f => rw [hr] at h; cases h
  | ok res =>
    rw [hr] at h
    simp only [except_ok_bind] at h
    obtain ⟨particles, c2⟩ := res
    cases hx : resolve_indices rapidity inclusive_jets particles ow.cse 0 with
    | error f => rw [hx] at h; cases h
    | ok indices =>
      rw [hx] at h
      simp only [except_ok_bind] at h
      obtain ⟨particle, k, hp, hk, hik⟩ :=
        resolve_indices_cells rapidity inclusive_jets particles ow.cse 0 indices hx i cs hi
      obtain ⟨jet, hjet, ht⟩ := resolved_jets_cells inclusive_jets ow.cse indices targets h
        i cs k hi hik
      obtain ⟨hlen, hcells⟩ := read_particles_cells px py pz E px.length 0 [] particles c2 hr
      simp only [List.length_nil, Nat.zero_add] at hlen hcells hp
      have hlt : i < px.length := by
        by_contra hc
        rw [List.getElem?_eq_none (by omega)] at hp
        cases hp
      obtain ⟨x, y, z, e, h1, h2, h3, h4, h5⟩ := hcells i hlt
      rw [hp] at h5
      cases h5
      exact ⟨jet, ⟨x, y, z, e, k, h1, h2, h3, h4, hk, hjet⟩, ht⟩

/-- C15.  When the resolution of the supplied jets succeeds, the jet of event `i`
is the resolved jet: the inclusive jet of the event at the position that the
lookup of the `i`-th supplied jet returns.  `to_numpy_get_parents` then returns
its buffers and every event contributes the first parent then the second parent
of its resolved jet when the engine reports that it has parents, and no row
otherwise; `to_numpy_get_child` returns its buffers and every event contributes
the child of its resolved jet when the engine reports one and no row otherwise.
In both, the offsets follow the RaggedArray convention for these per-event row
counts: consecutive entries differ by the row count of the event and the last
entry is the length of every value column. -/
theorem relatives_rows_per_event {R H K CS : Type} [BEq K] [Zero R]
    (rapidity : R → R → R → R → K) (inclusive_jets : CS → R → List (PseudoJet R H))
    (has_parents : CS → PseudoJet R H → Bool × PseudoJet R H × PseudoJet R H)
    (has_child : CS → PseudoJet R H → Bool × PseudoJet R H)
    (ow : output_wrapper CS R H) (px py pz E : List R) (targets : List (CS × PseudoJet R H))
    (h : resolve_all rapidity inclusive_jets ow px py pz E = .ok targets) :
    targets.length = ow.cse.length ∧
      (∀ (i : Nat) (cs : CS), ow.cse[i]? = some cs →
        ∃ jet, ResolvedTarget rapidity inclusive_jets px py pz E i cs jet ∧
          targets[i]? = some (cs, jet) ∧
          (targets.map (parents_rows has_parents))[i]?
            = some (parents_rows has_parents (cs, jet)) ∧
          (targets.map (child_rows has_child))[i]?
            = some (child_rows has_child (cs, jet))) ∧
      targets.map Prod.fst = ow.cse ∧
      JetColumnsExact (to_numpy_get_parents rapidity inclusive_jets has_parents ow px py pz E)
        (targets.map (parents_rows has_parents)) ∧
      JetListRagged (to_numpy_get_parents rapidity inclusive_jets has_parents ow px py pz E)
        (targets.map fun t => if (has_parents t.1 t.2).1 = true then 2 else 0) ∧
      JetColumnsExact (to_numpy_get_child rapidity inclusive_jets has_child ow px py pz E)
        (targets.map (child_rows has_child)) ∧
      JetListRagged (to_numpy_get_child rapidity inclusive_jets has_child ow px py pz E)
        (targets.map fun t => if (has_child t.1 t.2).1 = true then 1 else 0) := by
  have hp : to_numpy_get_parents rapidity inclusive_jets has_parents ow px py pz E
      = jet_list_to_numpy (parents_rows has_parents) targets := by
    simp only [to_numpy_get_parents, h, except_ok_bind]
    refine Eq.trans (relatives_to_numpy_eq_jet_list _ 2 ?_ targets) ?_
    · intro target; rfl
    · congr 1
  have hc : to_numpy_get_child rapidity inclusive_jets has_child ow px py pz E
      = jet_list_to_numpy (child_rows has_child) targets := by
    simp only [to_numpy_get_child, h, except_ok_bind]
    refine Eq.trans (relatives_to_numpy_eq_jet_list _ 1 ?_ targets) ?_
    · intro target; rfl
    · congr 1
  have hpl : (targets.map fun t => (parents_rows has_parents t).length)
      = targets.map fun t => if (has_parents t.1 t.2).1 = true then 2 else 0 := by
    apply List.map_congr_left
    intro t _
    by_cases hv : (has_parents t.1 t.2).1 = true <;> simp [parents_rows, hv]
  have hcl : (targets.map fun t => (child_rows has_child t).length)
      = targets.map fun t => if (has_child t.1 t.2).1 = true then 1 else 0 := by
    apply List.map_congr_left
    intro t _
    by_cases hv : (has_child t.1 t.2).1 = true <;> simp [child_rows, hv]
  have hfst := resolve_all_fst rapidity inclusive_jets ow px py pz E targets h
  refine ⟨by rw [← hfst]; simp, ?_, hfst, ?_, ?_, ?_, ?_⟩
  · intro i cs hi
    obtain ⟨jet, hjet, ht⟩ := resolve_all_targets rapidity inclusive_jets ow px py pz E targets
      h i cs hi
    exact ⟨jet, hjet, ht, by simp [List.getElem?_map, ht], by simp [List.getElem?_map, ht]⟩
  · rw [hp]; exact jet_columns_exact _ targets
  · rw [hp, ← hpl]; exact jet_list_ragged _ targets
  · rw [hc]; exact jet_columns_exact _ targets
  · rw [hc, ← hcl]; exact jet_list_ragged _ targets

/-- C15, worked example: two events with two inclusive jets each.  The supplied
jets resolve to position `1` in the first event and to position `0` in the
second; the engine reports parents (and a child) for a jet with `E = 9` only.
`to_numpy_get_parents` returns the two parents of the second inclusive jet of
the first event and no row for the second event, with offsets `[0, 2, 2]`;
`to_numpy_get_child` returns one row, with offsets `[0, 1, 1]`. -/
theorem relatives_rows_per_event_witness :
    resolve_all (fun _ _ pz _ => pz) (fun (cs : List (PseudoJet Int Unit)) _ => cs)
        { cse := [[PseudoJet.mk 1 0 4 7 (some ()), PseudoJet.mk 2 0 5 9 (some ())],
                  [PseudoJet.mk 3 0 6 8 (some ()), PseudoJet.mk 4 0 7 9 (some ())]],
          parts := [] } [2, 3] [0, 0] [5, 6] [9, 8]
        = .ok [([PseudoJet.mk 1 0 4 7 (some ()), PseudoJet.mk 2 0 5 9 (some ())],
                PseudoJet.mk 2 0 5 9 (some ())),
               ([PseudoJet.mk 3 0 6 8 (some ()), PseudoJet.mk 4 0 7 9 (some ())],
                PseudoJet.mk 3 0 6 8 (some ()))] ∧
      to_numpy_get_parents (fun _ _ pz _ => pz)
          (fun (cs : List (PseudoJet Int Unit)) _ => cs)
          (fun _ jet => (decide (jet.E = 9), PseudoJet.mk (jet.px + 10) 0 0 0 none,
            PseudoJet.mk (jet.px + 20) 0 0 0 none))
          { cse := [[PseudoJet.mk 1 0 4 7 (some ()), PseudoJet.mk 2 0 5 9 (some ())],
                    [PseudoJet.mk 3 0 6 8 (some ()), PseudoJet.mk 4 0 7 9 (some ())]],
            parts := [] } [2, 3] [0, 0] [5, 6] [9, 8]
        = .ok ([some 12, some 22], [some 0, some 0], [some 0, some 0], [some 0, some 0],
            [some 0, some 2, some 2]) ∧
      to_numpy_get_child (fun _ _ pz _ => pz)
          (fun (cs : List (PseudoJet Int Unit)) _ => cs)
          (fun _ jet => (decide (jet.E = 9), PseudoJet.mk (jet.px + 30) 0 0 0 none))
          { cse := [[PseudoJet.mk 1 0 4 7 (some ()), PseudoJet.mk 2 0 5 9 (some ())],
                    [PseudoJet.mk 3 0 6 8 (some ()), PseudoJet.mk 4 0 7 9 (some ())]],
            parts := [] } [2, 3] [0, 0] [5, 6] [9, 8]
        = .ok ([some 32], [some 0], [some 0], [some 0], [some 0, some 1, some 1]) ∧
      (∃ jet, ResolvedTarget (fun _ _ pz _ => pz)
          (fun (cs : List (PseudoJet Int Unit)) _ => cs) [2, 3] [0, 0] [5, 6] [9, 8] 0
          [PseudoJet.mk 1 0 4 7 (some ()), PseudoJet.mk 2 0 5 9 (some ())] jet ∧
        ([([PseudoJet.mk 1 0 4 7 (some ()), PseudoJet.mk 2 0 5 9 (some ())],
            PseudoJet.mk 2 0 5 9 (some ())),
          ([PseudoJet.mk 3 0 6 8 (some ()), PseudoJet.mk 4 0 7 9 (some ())],
            PseudoJet.mk 3 0 6 8 (some ()))] :
          List (List (PseudoJet Int Unit) × PseudoJet Int Unit))[0]?
          = some ([PseudoJet.mk 1 0 4 7 (some ()), PseudoJet.mk 2 0 5 9 (some ())], jet)) ∧
      JetListRagged
        (to_numpy_get_parents (fun _ _ pz _ => pz)
          (fun (cs : List (PseudoJet Int Unit)) _ => cs)
          (fun _ jet => (decide (jet.E = 9), PseudoJet.mk (jet.px + 10) 0 0 0 none,
            PseudoJet.mk (jet.px + 20) 0 0 0 none))
          { cse := [[PseudoJet.mk 1 0 4 7 (some ()), PseudoJet.mk 2 0 5 9 (some ())],
                    [PseudoJet.mk 3 0 6 8 (some ()), PseudoJet.mk 4 0 7 9 (some ())]],
            parts := [] } [2, 3] [0, 0] [5, 6] [9, 8]) [2, 0] :=
  have h := relatives_rows_per_event (fun _ _ pz _ => pz)
    (fun (cs : List (PseudoJet Int Unit)) _ => cs)
    (fun _ jet => (decide (jet.E = 9), PseudoJet.mk (jet.px + 10) 0 0 0 none,
      PseudoJet.mk (jet.px + 20) 0 0 0 none))
    (fun _ jet => (decide (jet.E = 9), PseudoJet.mk (jet.px + 30) 0 0 0 none))
    { cse := [[PseudoJet.mk 1 0 4 7 (some ()), PseudoJet.mk 2 0 5 9 (some ())],
              [PseudoJet.mk 3 0 6 8 (some ()), PseudoJet.mk 4 0 7 9 (some ())]],
      parts := [] } [2, 3] [0, 0] [5, 6] [9, 8]
    [([PseudoJet.mk 1 0 4 7 (some ()), PseudoJet.mk 2 0 5 9 (some ())],
        PseudoJet.mk 2 0 5 9 (some ())),
      ([PseudoJet.mk 3 0 6 8 (some ()), PseudoJet.mk 4 0 7 9 (some ())],
        PseudoJet.mk 3 0 6 8 (some ()))] rfl
  ⟨rfl, rfl, rfl,
    (h.2.1 0 [PseudoJet.mk 1 0 4 7 (some ()), PseudoJet.mk 2 0 5 9 (some ())] rfl).elim
      fun jet hj => ⟨jet, hj.1, hj.2.1⟩,
    h.2.2.2.2.1⟩

end Fastjet
